import Mathlib

/-! ProductListing: the items backend (`backend/src/routes/items.js`).

A shallow embedding of the items route module: the read-through item cache
(`readData`), the statistics computation (`calculateStats`) and the four route
handlers (`GET /`, `GET /:id`, `GET /stats`, `POST /`).

Modelling conventions.

* A finite JavaScript number is a rational (or an integer where the code can
  only produce an integer), and the special values `NaN`, `+Infinity`,
  `-Infinity` and `-0` are explicit constructors.  A price is the decimal value
  written in the JSON document.  The sum, the mean and the median of
  `calculateStats` are computed in IEEE-754 double arithmetic: every price is
  first rounded to the nearest double (`toDouble`) and every addition and
  division rounds its exact result likewise (`JSNum.addDouble`,
  `JSNum.divDouble`).  The page arithmetic and the bucket width and index of the
  histogram are computed on the exact values.
* The module-level variable `itemsCache` and the file `data/items.json` are an
  explicit `World` that every handler takes and returns.
* Readings of the environment (`Date.now()`, `new Date().toISOString()`, the
  outcome of `fs.writeFile`) are explicit arguments of the handler that reads
  them.  Built-ins whose definition is outside the repository
  (`String.prototype.toLowerCase`, `Date.prototype.toISOString`) are function
  parameters.
* A handler returns `Except RouteError _`: `.error e` is the call `next(e)`,
  `.ok r` is the response sent with `res.json`.
-/

namespace ProductListing

/-! ## Numbers -/

/-- A JavaScript number as produced by a division: a finite rational, or one of
the special values.  `fin 0` is `+0`, `negZero` is `-0`. -/
inductive JSNum where
  | nan
  | posInf
  | negInf
  | negZero
  | fin (q : ℚ)
  deriving DecidableEq

/-- An integer-valued JavaScript number (what `parseInt`, `Math.ceil`,
`Math.floor` and integer arithmetic on them return), or one of the special
values.  `int 0` is `+0`, `negZero` is `-0`. -/
inductive JSInt where
  | nan
  | posInf
  | negInf
  | negZero
  | int (n : Int)
  deriving DecidableEq, Repr

namespace JSNum

/-- Sign bit of a number that is not `NaN`. -/
def isNeg : JSNum → Bool
  | negInf => true
  | negZero => true
  | fin q => decide (q < 0)
  | _ => false

/-- The number is `+0` or `-0`. -/
def isZero : JSNum → Bool
  | negZero => true
  | fin q => decide (q = 0)
  | _ => false

/-- The number is `+Infinity` or `-Infinity`. -/
def isInf : JSNum → Bool
  | posInf => true
  | negInf => true
  | _ => false

/-- The number is finite: not `NaN` and not an infinity. -/
def isFinite : JSNum → Bool
  | negZero => true
  | fin _ => true
  | _ => false

/-- Rational value of a finite number (`0` for the special values). -/
def toRat : JSNum → ℚ
  | fin q => q
  | _ => 0

/-- Zero with the given sign bit. -/
def signedZero (neg : Bool) : JSNum := if neg then negZero else fin 0

/-- Infinity with the given sign bit. -/
def signedInf (neg : Bool) : JSNum := if neg then negInf else posInf

/-- The operator `a / b` on numbers. -/
def div (a b : JSNum) : JSNum :=
  match a, b with
  | nan, _ => nan
  | _, nan => nan
  | a, b =>
    let s := xor a.isNeg b.isNeg
    if a.isInf then (if b.isInf then nan else signedInf s)
    else if b.isInf then signedZero s
    else if b.isZero then (if a.isZero then nan else signedInf s)
    else if a.isZero then signedZero s
    else fin (a.toRat / b.toRat)

/-- The function `Math.ceil`. -/
def ceil : JSNum → JSInt
  | nan => .nan
  | posInf => .posInf
  | negInf => .negInf
  | negZero => .negZero
  | fin q => if -1 < q ∧ q < 0 then .negZero else .int ⌈q⌉

/-- The function `Math.floor`. -/
def floor : JSNum → JSInt
  | nan => .nan
  | posInf => .posInf
  | negInf => .negInf
  | negZero => .negZero
  | fin q => .int ⌊q⌋

end JSNum

/-- The integer nearest to a rational; of the two nearest integers on a tie,
the even one. -/
def roundHalfEven (t : ℚ) : Int :=
  let f := ⌊t⌋
  let r := t - f
  if r < 1 / 2 then f else if 1 / 2 < r then f + 1 else if f % 2 = 0 then f else f + 1

/-- The double (IEEE-754 binary64) nearest to a rational, ties to the even
significand: the value a number literal denotes and the rounding every
arithmetic operation applies to its exact result.  The significand has 53 bits,
the exponent of the leading bit is at least `-1022` (below that the spacing
stays `2^-1074`), and a rounded magnitude of `2^1024` or more is an infinity. -/
def toDouble (x : ℚ) : JSNum :=
  if x = 0 then .fin 0
  else
    let e : Int := max (Int.log 2 |x|) (-1022)
    let ulp : ℚ := 2 ^ (e - 52)
    let y : ℚ := roundHalfEven (x / ulp) * ulp
    if 2 ^ 1024 ≤ |y| then JSNum.signedInf (decide (x < 0))
    else if y = 0 then JSNum.signedZero (decide (x < 0))
    else .fin y

/-- The operator `a + b` on doubles: the exact sum rounded to the nearest
double.  A sum of finite numbers that is exactly zero is `+0`, except
`-0 + -0`. -/
def JSNum.addDouble : JSNum → JSNum → JSNum
  | .nan, _ => .nan
  | _, .nan => .nan
  | .posInf, .negInf => .nan
  | .negInf, .posInf => .nan
  | .posInf, _ => .posInf
  | _, .posInf => .posInf
  | .negInf, _ => .negInf
  | _, .negInf => .negInf
  | .negZero, .negZero => .negZero
  | .negZero, .fin b => .fin b
  | .fin a, .negZero => .fin a
  | .fin a, .fin b => toDouble (a + b)

/-- The operator `a / b` on doubles: the exact quotient rounded to the nearest
double. -/
def JSNum.divDouble (a b : JSNum) : JSNum :=
  match JSNum.div a b with
  | .fin q => toDouble q
  | r => r

namespace JSInt

/-- An integer-valued number seen as a number. -/
def toNum : JSInt → JSNum
  | nan => .nan
  | posInf => .posInf
  | negInf => .negInf
  | negZero => .negZero
  | int n => .fin n

/-- Sign bit of a number that is not `NaN`. -/
def isNeg : JSInt → Bool
  | negInf => true
  | negZero => true
  | int n => decide (n < 0)
  | _ => false

/-- The number is `+0` or `-0`. -/
def isZero : JSInt → Bool
  | negZero => true
  | int n => decide (n = 0)
  | _ => false

/-- The number is `+Infinity` or `-Infinity`. -/
def isInf : JSInt → Bool
  | posInf => true
  | negInf => true
  | _ => false

/-- Integer value of a finite number (`0` for the special values). -/
def toInt : JSInt → Int
  | int n => n
  | _ => 0

/-- Zero with the given sign bit. -/
def signedZero (neg : Bool) : JSInt := if neg then negZero else int 0

/-- Infinity with the given sign bit. -/
def signedInf (neg : Bool) : JSInt := if neg then negInf else posInf

/-- Unary minus. -/
def neg : JSInt → JSInt
  | nan => nan
  | posInf => negInf
  | negInf => posInf
  | negZero => int 0
  | int n => if n = 0 then negZero else int (-n)

/-- The operator `a + b` on numbers. -/
def add : JSInt → JSInt → JSInt
  | nan, _ => nan
  | _, nan => nan
  | posInf, negInf => nan
  | negInf, posInf => nan
  | posInf, _ => posInf
  | _, posInf => posInf
  | negInf, _ => negInf
  | _, negInf => negInf
  | negZero, negZero => negZero
  | negZero, int n => int n
  | int n, negZero => int n
  | int a, int b => int (a + b)

/-- The operator `a - b` on numbers. -/
def sub (a b : JSInt) : JSInt := add a (neg b)

/-- The operator `a * b` on numbers. -/
def mul (a b : JSInt) : JSInt :=
  match a, b with
  | nan, _ => nan
  | _, nan => nan
  | a, b =>
    let s := xor a.isNeg b.isNeg
    if a.isInf then (if b.isZero then nan else signedInf s)
    else if b.isInf then (if a.isZero then nan else signedInf s)
    else if a.isZero || b.isZero then signedZero s
    else int (a.toInt * b.toInt)

/-- The operator `a < b` on numbers (`a > b` is `lt b a`). -/
def lt : JSInt → JSInt → Bool
  | nan, _ => false
  | _, nan => false
  | posInf, _ => false
  | _, negInf => false
  | negInf, _ => true
  | _, posInf => true
  | a, b => decide (a.toInt < b.toInt)

/-- The function `Math.min` of two arguments. -/
def min : JSInt → JSInt → JSInt
  | nan, _ => nan
  | _, nan => nan
  | negInf, _ => negInf
  | _, negInf => negInf
  | posInf, b => b
  | a, posInf => a
  | negZero, negZero => negZero
  | negZero, int n => if n < 0 then int n else negZero
  | int n, negZero => if n < 0 then int n else negZero
  | int a, int b => int (Min.min a b)

/-- Decimal digits of a natural number as the Number-to-string conversion
prints them: plain digits below `10^21`, exponent form from there on. -/
def natToString (n : Nat) : String :=
  if n < 10 ^ 21 then toString n
  else
    let ds := Nat.toDigits 10 n
    let sig := (ds.reverse.dropWhile (fun c => c == '0')).reverse
    let mant := match sig with
      | [] => "0"
      | [d] => String.mk [d]
      | d :: rest => String.mk (d :: '.' :: rest)
    mant ++ "e+" ++ toString (ds.length - 1)

/-- The conversion of an integer-valued number to a string, as a template
literal performs it. -/
def toJSString : JSInt → String
  | nan => "NaN"
  | posInf => "Infinity"
  | negInf => "-Infinity"
  | negZero => "0"
  | int n => if n < 0 then "-" ++ natToString n.natAbs else natToString n.natAbs

end JSInt

/-! ## Strings -/

/-- The white space that `parseInt` skips (WhiteSpace and LineTerminator). -/
def isStrWhiteSpaceChar (c : Char) : Bool :=
  let v := c.toNat
  v == 0x9 || v == 0xA || v == 0xB || v == 0xC || v == 0xD || v == 0x20 || v == 0xA0 ||
  v == 0x1680 || (0x2000 ≤ v && v ≤ 0x200A) || v == 0x2028 || v == 0x2029 ||
  v == 0x202F || v == 0x205F || v == 0x3000 || v == 0xFEFF

/-- Value of a character as a digit (`0-9`, `a-z`, `A-Z`). -/
def digitValue (c : Char) : Option Nat :=
  let v := c.toNat
  if 48 ≤ v ∧ v ≤ 57 then some (v - 48)
  else if 97 ≤ v ∧ v ≤ 122 then some (v - 97 + 10)
  else if 65 ≤ v ∧ v ≤ 90 then some (v - 65 + 10)
  else none

/-- The character is a digit of the given radix. -/
def isRadixDigit (radix : Nat) (c : Char) : Bool :=
  match digitValue c with
  | some d => decide (d < radix)
  | none => false

/-- The function `parseInt(string, radix)`; `radix = none` is a call with one
argument.  The result is exact (no rounding of long digit strings). -/
def parseInt (s : String) (radix : Option Nat) : JSInt :=
  let cs := s.toList.dropWhile isStrWhiteSpaceChar
  let neg := decide (cs.head? = some '-')
  let cs := match cs with
    | '-' :: r => r
    | '+' :: r => r
    | cs => cs
  let r := radix.getD 0
  if r ≠ 0 ∧ (r < 2 ∨ 36 < r) then .nan
  else
    let strip := decide (r = 0 ∨ r = 16)
    let hex := match cs with
      | '0' :: 'x' :: _ => true
      | '0' :: 'X' :: _ => true
      | _ => false
    let base := if r = 0 then (if hex then 16 else 10) else r
    let cs := if strip && hex then cs.drop 2 else cs
    let ds := cs.takeWhile (isRadixDigit base)
    if ds = [] then .nan
    else
      let n := ds.foldl (fun acc c => acc * base + (digitValue c).getD 0) 0
      if neg then (if n = 0 then .negZero else .int (-(n : Int))) else .int n

/-- The method `s.trim()`: white space and line terminators removed at both
ends. -/
def trim (s : String) : String :=
  String.mk ((s.toList.dropWhile isStrWhiteSpaceChar).reverse.dropWhile isStrWhiteSpaceChar).reverse

/-- The method `s.toLowerCase()` on the ASCII letters; every other character is
kept.  It instantiates the `toLowerCase` parameter in examples. -/
def asciiToLowerCase (s : String) : String :=
  String.mk (s.toList.map Char.toLower)

/-- The method `s.includes(t)`: `t` occurs in `s` as a contiguous substring. -/
def includes (s t : String) : Bool := decide (t.toList <:+: s.toList)

/-! ## Values and items -/

/-- A value as it appears in a parsed JSON document or as a property that may be
missing.  Arrays and objects are never inspected by the routes; they are carried
as their JSON text. -/
inductive JsVal where
  | undefined
  | null
  | bool (b : Bool)
  | num (q : ℚ)
  | str (s : String)
  | composite (json : String)
  deriving DecidableEq

/-- Truthiness of a value (what `if (v)`, `!v` and `v && ...` test). -/
def JsVal.truthy : JsVal → Bool
  | .undefined => false
  | .null => false
  | .bool b => b
  | .num q => decide (q ≠ 0)
  | .str s => decide (s ≠ "")
  | .composite _ => true

/-- An element of the item collection.  `id` and `price` are numbers; `name`,
`description` and `createdAt` are properties of any type (`undefined` when
missing); `extra` holds every other property (category, stock, specs, ...). -/
structure Item where
  id : Int
  name : JsVal
  price : ℚ
  description : JsVal
  createdAt : JsVal
  extra : List (String × JsVal)
  deriving DecidableEq

/-- The error object a route passes to `next`: `status` is the `err.status`
property the route attached, `none` for an exception thrown by the runtime. -/
structure RouteError where
  status : Option Nat
  message : String
  deriving DecidableEq, Repr

/-! ## Array.prototype.slice -/

/-- The clamping of a relative index of `slice` against the length. -/
def relativeIndex (len : Nat) : JSInt → Nat
  | .nan => 0
  | .negZero => 0
  | .negInf => 0
  | .posInf => len
  | .int n => if n < 0 then (len + n).toNat else Min.min n.toNat len

/-- The method `xs.slice(start, stop)`. -/
def slice {α : Type} (xs : List α) (start stop : JSInt) : List α :=
  let k := relativeIndex xs.length start
  let final := relativeIndex xs.length stop
  (xs.drop k).take (final - k)

/-! ## GET /api/items -/

/-- The predicate of the search filter,
`item.name.toLowerCase().includes(term) ||
 (item.description && item.description.toLowerCase().includes(term))`,
reduced to its truthiness.  A method call on a value that is not a string
throws a TypeError. -/
def matchesSearch (toLowerCase : String → String) (searchTerm : String) (item : Item) :
    Except RouteError Bool :=
  match item.name with
  | .str n =>
    if includes (toLowerCase n) searchTerm then .ok true
    else if item.description.truthy then
      match item.description with
      | .str d => .ok (includes (toLowerCase d) searchTerm)
      | _ => .error ⟨none, "item.description.toLowerCase is not a function"⟩
    else .ok false
  | _ => .error ⟨none, "item.name.toLowerCase is not a function"⟩

/-- The method `items.filter(predicate)` for a predicate that may throw: the
elements are tested in order and the first exception ends the call. -/
def filterThrowing {α : Type} (predicate : α → Except RouteError Bool) :
    List α → Except RouteError (List α)
  | [] => .ok []
  | a :: rest =>
    match predicate a with
    | .error e => .error e
    | .ok keep =>
      match filterThrowing predicate rest with
      | .error e => .error e
      | .ok kept => .ok (if keep then a :: kept else kept)

/-- The search stage of `GET /`: `results` after the `if (q)` block. -/
def applySearch (toLowerCase : String → String) (q : Option String) (items : List Item) :
    Except RouteError (List Item) :=
  match q with
  | none => .ok items
  | some q =>
    if q ≠ "" then filterThrowing (matchesSearch toLowerCase (toLowerCase q)) items
    else .ok items

/-- The `pagination` object of the response. -/
structure Pagination where
  page : JSInt
  limit : JSInt
  total : Nat
  totalPages : JSInt
  hasNextPage : Bool
  hasPreviousPage : Bool
  deriving DecidableEq

/-- The body of the response of `GET /`. -/
structure ItemsResponse where
  data : List Item
  pagination : Pagination
  deriving DecidableEq

/-- The pagination stage of `GET /` on the filtered `results`. -/
def paginate (pageNum limitNum : JSInt) (results : List Item) : ItemsResponse :=
  let total := results.length
  let totalPages := JSNum.ceil (JSNum.div (.fin total) limitNum.toNum)
  let startIndex := JSInt.mul (JSInt.sub pageNum (.int 1)) limitNum
  let paginatedResults := slice results startIndex (JSInt.add startIndex limitNum)
  { data := paginatedResults
    pagination :=
      { page := pageNum
        limit := limitNum
        total := total
        totalPages := totalPages
        hasNextPage := JSInt.lt pageNum totalPages
        hasPreviousPage := JSInt.lt (.int 1) pageNum } }

/-- The handler of `GET /` after `parseInt` and `readData`: search, then
pagination, on the loaded `items`. -/
def queryItems (toLowerCase : String → String) (pageNum limitNum : JSInt) (q : Option String)
    (items : List Item) : Except RouteError ItemsResponse :=
  match applySearch toLowerCase q items with
  | .error e => .error e
  | .ok results => .ok (paginate pageNum limitNum results)

/-- The query string of `GET /`: each parameter is a string or missing. -/
structure ItemsQuery where
  page : Option String
  limit : Option String
  q : Option String

/-! ## calculateStats -/

/-- An element of `priceDistribution`. -/
structure Bucket where
  range : String
  count : Nat
  deriving DecidableEq

/-- The object `calculateStats` returns for a collection that is not empty.
`min` and `max` are prices as written; `average` and `median` are doubles. -/
structure Stats where
  count : Nat
  min : ℚ
  max : ℚ
  average : JSNum
  median : JSNum
  priceDistribution : List Bucket
  deriving DecidableEq

/-- The array `items.map(item => item.price).sort((a, b) => a - b)`: a stable
sort of the prices in ascending order. -/
def sortedPrices (items : List Item) : List ℚ :=
  (items.map (fun item => item.price)).insertionSort (fun a b => a ≤ b)

/-- The call `Math.max(...prices)`; `-Infinity` for no arguments.  The limit
of the engine on the number of arguments of one call is not modelled. -/
def mathMax : List ℚ → JSNum
  | [] => .negInf
  | p :: ps => .fin (ps.foldl max p)

/-- The expression `parseFloat(x.toFixed(2))` on a double `x`.  For a finite
`x` below `10^21` in magnitude `toFixed` takes the integer `n` for which
`n / 100` is closest to the exact magnitude of `x` (the larger one on a tie),
prints `n / 100` with two decimals and keeps the sign of `x`, also in front of
`0.00`; `parseFloat` reads the decimal string back as the nearest double.  From
`10^21` on, and for `NaN` and the infinities, `toFixed` prints the number itself
and `parseFloat` reads it back. -/
def parseFloatToFixed2 : JSNum → JSNum
  | .nan => .nan
  | .posInf => .posInf
  | .negInf => .negInf
  | .negZero => .fin 0
  | .fin x =>
    if 10 ^ 21 ≤ |x| then .fin x
    else
      let n : Int := ⌊|x| * 100 + 1 / 2⌋
      if x < 0 then (if n = 0 then .negZero else toDouble (-((n : ℚ) / 100)))
      else toDouble ((n : ℚ) / 100)

/-- The expression `Math.min(Math.floor(price / bucketSize), 4)`. -/
def bucketOf (bucketSize : JSInt) (price : ℚ) : JSInt :=
  JSInt.min (JSNum.floor (JSNum.div (.fin price) bucketSize.toNum)) (.int 4)

/-- The statement `distribution[bucket]++`.  The key `-0` is the index `0`.  A
key that is not an index of the array (`NaN`, a negative number, an infinity)
only creates a property that `map` does not visit; a key past the end does not
occur, `bucket` being at most `4`. -/
def increment (distribution : List Nat) : JSInt → List Nat
  | .int n => if 0 ≤ n then distribution.modify (fun c => c + 1) n.toNat else distribution
  | .negZero => distribution.modify (fun c => c + 1) 0
  | _ => distribution

/-- The template literal of a bucket label. -/
def rangeLabel (bucketSize : JSInt) (i : Nat) : String :=
  JSInt.toJSString (JSInt.mul (.int i) bucketSize) ++ " - " ++
    JSInt.toJSString (JSInt.mul (.int (i + 1)) bucketSize)

/-- The function `calculateStats`; `none` is `null`.  An index into `prices` is
within bounds wherever it is read (the array is not empty), so the default of
`getD` is never returned.  `sum`, `avg` and `median` are doubles: the prices
are added in ascending order from `0`, every sum and quotient rounded to the
nearest double. -/
def calculateStats (items : List Item) : Option Stats :=
  if items.length = 0 then none
  else
    let prices := sortedPrices items
    let sum : JSNum := prices.foldl (fun a b => JSNum.addDouble a (toDouble b)) (.fin 0)
    let avg : JSNum := JSNum.divDouble sum (.fin (prices.length : ℚ))
    let median : JSNum :=
      if prices.length % 2 = 0
      then JSNum.divDouble
        (JSNum.addDouble (toDouble (prices.getD (prices.length / 2 - 1) 0))
          (toDouble (prices.getD (prices.length / 2) 0))) (.fin 2)
      else toDouble (prices.getD (prices.length / 2) 0)
    let maxPrice := mathMax prices
    let bucketSize := JSNum.ceil (JSNum.div maxPrice (.fin 5))
    let distribution :=
      prices.foldl (fun d price => increment d (bucketOf bucketSize price)) (List.replicate 5 0)
    some
      { count := items.length
        min := prices.getD 0 0
        max := prices.getD (prices.length - 1) 0
        average := parseFloatToFixed2 avg
        median := parseFloatToFixed2 median
        priceDistribution :=
          List.zipWith (fun i count => { range := rangeLabel bucketSize i, count := count })
            (List.range distribution.length) distribution }

/-! ## The item cache and the backing file -/

/-- The module-level variable `itemsCache`; `none` is `null`. -/
structure ItemsCache where
  data : Option (List Item)
  lastModified : ℚ
  stats : Option Stats
  statsTimestamp : Int
  deriving DecidableEq

/-- The file `data/items.json` when it exists: its modification time in
milliseconds and its parsed contents, `none` when reading or parsing throws. -/
structure DataFile where
  mtimeMs : ℚ
  contents : Option (List Item)
  deriving DecidableEq

/-- The state the handlers share: the file (`none` when `fs.stat` throws) and
the cache. -/
structure World where
  file : Option DataFile
  cache : ItemsCache
  deriving DecidableEq

/-- The initial value of `itemsCache`. -/
def ItemsCache.initial : ItemsCache :=
  { data := none, lastModified := 0, stats := none, statsTimestamp := 0 }

/-- The test of `readData` for serving the cached array:
`itemsCache.data && stats.mtimeMs <= itemsCache.lastModified`. -/
def cacheIsFresh (cache : ItemsCache) (file : DataFile) : Bool :=
  cache.data.isSome && decide (file.mtimeMs ≤ cache.lastModified)

/-- The function `readData`: the array it returns (or the exception it
rethrows) and the state it leaves. -/
def readData (w : World) : Except RouteError (List Item) × World :=
  match w.file with
  | none => (.error ⟨none, "ENOENT"⟩, w)
  | some file =>
    match w.cache.data, cacheIsFresh w.cache file with
    | some data, true => (.ok data, w)
    | _, _ =>
      match file.contents with
      | none => (.error ⟨none, "read or parse failure"⟩, w)
      | some data =>
        (.ok data, { w with cache := { w.cache with data := some data, lastModified := file.mtimeMs } })

/-! ## The handlers -/

/-- A response sent by a handler: the status code and the JSON body. -/
structure Reply (β : Type) where
  status : Nat
  body : β
  deriving DecidableEq

/-- The handler of `GET /`.  A missing `page` or `limit` is the number `1` or
`10`, which `parseInt` converts to the string `"1"` or `"10"`. -/
def getItems (toLowerCase : String → String) (query : ItemsQuery) (w : World) :
    Except RouteError (Reply ItemsResponse) × World :=
  let pageNum := parseInt (query.page.getD "1") (some 10)
  let limitNum := parseInt (query.limit.getD "10") (some 10)
  match readData w with
  | (.error e, w1) => (.error e, w1)
  | (.ok items, w1) =>
    match queryItems toLowerCase pageNum limitNum query.q items with
    | .error e => (.error e, w1)
    | .ok body => (.ok ⟨200, body⟩, w1)

/-- The comparison `i.id === parseInt(req.params.id)`. -/
def idEquals (id : Int) : JSInt → Bool
  | .int n => decide (id = n)
  | .negZero => decide (id = 0)
  | _ => false

/-- The handler of `GET /:id`. -/
def getItemById (idParam : String) (w : World) : Except RouteError (Reply Item) × World :=
  match readData w with
  | (.error e, w1) => (.error e, w1)
  | (.ok data, w1) =>
    match data.find? (fun i => idEquals i.id (parseInt idParam none)) with
    | none => (.error ⟨some 404, "Item not found"⟩, w1)
    | some item => (.ok ⟨200, item⟩, w1)

/-- The body of the response of `GET /stats`: the properties of the snapshot
(none when the snapshot is `null`), `cached` and `lastUpdated`. -/
structure StatsResponse where
  stats : Option Stats
  cached : Bool
  lastUpdated : String
  deriving DecidableEq

/-- The constant `CACHE_DURATION`, in milliseconds. -/
def CACHE_DURATION : Int := 5 * 60 * 1000

/-- The handler of `GET /stats`; `now` is the reading of `Date.now()`. -/
def getStats (toISOString : Int → String) (now : Int) (w : World) :
    Except RouteError (Reply StatsResponse) × World :=
  if w.cache.stats.isSome ∧ now - w.cache.statsTimestamp < CACHE_DURATION then
    (.ok ⟨200, { stats := w.cache.stats, cached := true,
                 lastUpdated := toISOString w.cache.statsTimestamp }⟩, w)
  else
    match readData w with
    | (.error e, w1) => (.error e, w1)
    | (.ok data, w1) =>
      let stats := calculateStats data
      (.ok ⟨200, { stats := stats, cached := false, lastUpdated := toISOString now }⟩,
       { w1 with cache := { w1.cache with stats := stats, statsTimestamp := now } })

/-- The body of `POST /`: the properties the handler or the collection reads,
each `undefined` when missing, and every other property in `extra`. -/
structure Payload where
  id : JsVal
  name : JsVal
  price : JsVal
  description : JsVal
  createdAt : JsVal
  extra : List (String × JsVal)
  deriving DecidableEq

/-- The object `{ ...item, id: Date.now(), createdAt: new Date().toISOString() }`. -/
def newItemOf (item : Payload) (price : ℚ) (now : Int) (createdAt : String) : Item :=
  { id := now
    name := item.name
    price := price
    description := item.description
    createdAt := .str createdAt
    extra := item.extra }

/-- The handler of `POST /`.  `now` is the reading of `Date.now()`, `createdAt`
the string `new Date().toISOString()` gives, and `written` the outcome of
`fs.writeFile`: `none` when it throws, otherwise the modification time the file
has afterwards.  `data.push` changes the array that `itemsCache.data` holds,
`readData` having returned that very array. -/
def postItem (item : Payload) (now : Int) (createdAt : String) (written : Option ℚ) (w : World) :
    Except RouteError (Reply Item) × World :=
  match item.price with
  | .num price =>
    if !item.name.truthy then (.error ⟨some 400, "Invalid item data"⟩, w)
    else
      match readData w with
      | (.error e, w1) => (.error e, w1)
      | (.ok data, w1) =>
        let newItem := newItemOf item price now createdAt
        let pushed := data ++ [newItem]
        let w2 : World := { w1 with cache := { w1.cache with data := some pushed } }
        match written with
        | none => (.error ⟨none, "write failure"⟩, w2)
        | some mtimeMs =>
          (.ok ⟨201, newItem⟩,
           { file := some { mtimeMs := mtimeMs, contents := some pushed }
             cache := { w2.cache with lastModified := 0, stats := none } })
  | _ => (.error ⟨some 400, "Invalid item data"⟩, w)

/-! ## The router

The routes of `items.js` in the order of their registration.  A request is
handled by the first route whose method and path match; the handlers of this
module answer or call `next(err)`, never `next()`, so no later route sees a
request that an earlier one matched. -/

/-- The request methods the router registers routes for. -/
inductive Method where
  | GET
  | POST
  deriving DecidableEq, Repr

/-- The route paths of the router: `'/'`, a parameter such as `'/:id'`, and a
fixed segment such as `'/stats'`. -/
inductive RoutePath where
  | root
  | param (name : String)
  | literal (segment : String)
  deriving DecidableEq, Repr

/-- The four handlers of the router. -/
inductive Handler where
  | listItems
  | itemById
  | stats
  | createItem
  deriving DecidableEq, Repr

/-- The route table, `router.get('/')`, `router.get('/:id')`,
`router.get('/stats')`, `router.post('/')`, in source order. -/
def routes : List (Method × RoutePath × Handler) :=
  [(.GET, .root, .listItems),
   (.GET, .param "id", .itemById),
   (.GET, .literal "stats", .stats),
   (.POST, .root, .createItem)]

/-- The match of a route path against the path of a request below the mount
point, given as its list of segments (no empty segment, a trailing slash
dropped).  A parameter matches any single segment and captures it; a fixed
segment is compared without regard to the case of ASCII letters.  The result is
the captured parameter, if any. -/
def matchPath : RoutePath → List String → Option (Option String)
  | .root, [] => some none
  | .param _, [segment] => some (some segment)
  | .literal fixed, [segment] =>
    if asciiToLowerCase segment = asciiToLowerCase fixed then some none else none
  | _, _ => none

/-- The first route of a table that matches the method and the path, with the
captured parameter. -/
def findRoute (method : Method) (path : List String) :
    List (Method × RoutePath × Handler) → Option (Handler × Option String)
  | [] => none
  | (m, routePath, handler) :: rest =>
    if m = method then
      match matchPath routePath path with
      | some captured => some (handler, captured)
      | none => findRoute method path rest
    else findRoute method path rest

/-- A request to the router: method, path segments below the mount point, query
string and parsed body. -/
structure Request where
  method : Method
  path : List String
  query : ItemsQuery
  body : Payload

/-- The readings of the environment a handler may take: `Date.now()`, the
string of `new Date().toISOString()`, and the outcome of `fs.writeFile`. -/
structure Env where
  now : Int
  createdAt : String
  written : Option ℚ

/-- The JSON body of a response of the router. -/
inductive Body where
  | items (body : ItemsResponse)
  | item (body : Item)
  | stats (body : StatsResponse)
  deriving DecidableEq

/-- The outcome of a handler as an outcome of the router. -/
def liftReply {β : Type} (wrap : β → Body) (r : Except RouteError (Reply β) × World) :
    Except RouteError (Reply Body) × World :=
  match r with
  | (.error e, w) => (.error e, w)
  | (.ok reply, w) => (.ok ⟨reply.status, wrap reply.body⟩, w)

/-- The router: the outcome of the handler of the first matching route; `none`
when no route matches and the request falls through to the application. -/
def dispatch (toLowerCase : String → String) (toISOString : Int → String) (req : Request)
    (env : Env) (w : World) : Option (Except RouteError (Reply Body)) × World :=
  match findRoute req.method req.path routes with
  | none => (none, w)
  | some (.listItems, _) =>
    let r := liftReply Body.items (getItems toLowerCase req.query w)
    (some r.1, r.2)
  | some (.itemById, captured) =>
    let r := liftReply Body.item (getItemById (captured.getD "") w)
    (some r.1, r.2)
  | some (.stats, _) =>
    let r := liftReply Body.stats (getStats toISOString env.now w)
    (some r.1, r.2)
  | some (.createItem, _) =>
    let r := liftReply Body.item (postItem req.body env.now env.createdAt env.written w)
    (some r.1, r.2)

/-! ## The error middleware (`middleware/errorHandler.js`) -/

/-- The properties of an error object that `errorHandler` reads; a missing
property is `undefined` or `none`. -/
structure ErrorObject where
  name : String
  message : String
  status : JsVal
  statusCode : Option Nat
  code : JsVal
  stack : Option String
  deriving DecidableEq

/-- What `errorHandler` takes from outside this repository's sources: the
constructor `new AppError(message, statusCode)` of `utils/appError`, and the
messages that three of its branches build from properties of the error that
`ErrorObject` does not carry (`path` and `value`, `errmsg`, `errors`). -/
structure ErrorSupport where
  appError : String → Nat → ErrorObject
  castMessage : ErrorObject → String
  duplicateMessage : ErrorObject → String
  validationMessage : ErrorObject → String

/-- The response `errorHandler` sends: the status code of `res.status` and the
properties of the JSON body. -/
structure ErrorReply where
  statusCode : Nat
  status : JsVal
  message : String
  stack : Option String
  deriving DecidableEq

/-- The function `errorHandler`; `development` is the test
`process.env.NODE_ENV === 'development'`.  The copy `{ ...err }` keeps the
properties `status`, `statusCode` and `code` that were assigned to the error. -/
def errorHandler (support : ErrorSupport) (development : Bool) (err : ErrorObject) :
    ErrorReply :=
  let copy : ErrorObject :=
    { err with stack := if development then err.stack else none }
  let error : ErrorObject :=
    if err.name = "CastError" then support.appError (support.castMessage err) 400
    else if err.code = .num 11000 then support.appError (support.duplicateMessage err) 400
    else if err.name = "ValidationError" then
      support.appError (support.validationMessage err) 400
    else if err.name = "JsonWebTokenError" then
      support.appError "Invalid token. Please log in again!" 401
    else if err.name = "TokenExpiredError" then
      support.appError "Your token has expired! Please log in again." 401
    else copy
  { statusCode := match error.statusCode with
      | some 0 => 500
      | some n => n
      | none => 500
    status := if error.status.truthy then error.status else .str "error"
    message := if error.message ≠ "" then error.message else "Something went wrong!"
    stack := if development then error.stack else none }

/-- The error object a route builds with `new Error(message)` and, for the 404
and 400 errors, `err.status = ...`; it has no `statusCode` and no `code`.  The
stack trace is not modelled. -/
def thrownError (e : RouteError) : ErrorObject :=
  { name := "Error"
    message := e.message
    status := match e.status with
      | some n => .num n
      | none => .undefined
    statusCode := none
    code := .undefined
    stack := none }

/-! ## The frontend state (`frontend/src/state/DataContext.js`) -/

/-- The initial `pagination` state of `DataProvider`. -/
def initialPagination : Pagination :=
  { page := .int 1, limit := .int 10, total := 0, totalPages := .int 1,
    hasNextPage := false, hasPreviousPage := false }

/-! ## Reference definitions

Definitions that follow the wording of the specification; the theorems below
compare the code with them. -/

/-- An item as the data model describes it for the search: the name is a string
and the description, unless it is missing or otherwise falsy, is a string. -/
def Item.wellTyped (item : Item) : Bool :=
  match item.name, item.description with
  | .str _, .str _ => true
  | .str _, d => !d.truthy
  | _, _ => false

/-- The decimal digits a query value starts with, after leading white space
and one optional sign: the digits `parseInt(value, 10)` reads. -/
def leadingDecimalDigits (s : String) : List Char :=
  let cs := s.toList.dropWhile isStrWhiteSpaceChar
  let cs := match cs with
    | '-' :: r => r
    | '+' :: r => r
    | cs => cs
  cs.takeWhile (fun c => decide (48 ≤ c.toNat ∧ c.toNat ≤ 57))

/-- The search criterion of the specification: the lower-cased term is a
substring of the lower-cased name, or the description is present and its
lower-cased text contains the lower-cased term. -/
def specMatches (toLowerCase : String → String) (q : String) (item : Item) : Bool :=
  (match item.name with
    | .str n => includes (toLowerCase n) (toLowerCase q)
    | _ => false) ||
  (match item.description with
    | .str d => includes (toLowerCase d) (toLowerCase q)
    | _ => false)

/-- The item cache agrees with the file: whenever `readData` would serve the
cached collection, that collection is the parsed contents of the file. -/
def cacheCoherent (w : World) : Prop :=
  ∀ file data, w.file = some file → w.cache.data = some data →
    cacheIsFresh w.cache file = true → file.contents = some data

/-- Rounding to 2 decimals, halves away from zero. -/
def specRound2 (x : ℚ) : ℚ :=
  if 0 ≤ x then ((⌊x * 100 + 1 / 2⌋ : Int) : ℚ) / 100
  else -(((⌊-x * 100 + 1 / 2⌋ : Int) : ℚ) / 100)

/-- The prices of the collection sorted ascending. -/
def specSorted (items : List Item) : List ℚ :=
  (items.map (fun item => item.price)).mergeSort (fun a b => decide (a ≤ b))

/-- The arithmetic mean of the prices. -/
def specMean (items : List Item) : ℚ :=
  (items.map (fun item => item.price)).sum / (items.length : ℚ)

/-- The median of the prices: the middle element of the sorted prices when the
count is odd, the mean of the two middle elements when it is even. -/
def specMedian (items : List Item) : ℚ :=
  let sorted := specSorted items
  let n := sorted.length
  if n % 2 = 1 then sorted.getD (n / 2) 0
  else (sorted.getD (n / 2 - 1) 0 + sorted.getD (n / 2) 0) / 2

/-- The sum of a list of prices in double arithmetic: the doubles of the prices
added one by one, from the left, to `0`. -/
def specDoubleSum (prices : List ℚ) : JSNum :=
  prices.foldl (fun acc p => JSNum.addDouble acc (toDouble p)) (.fin 0)

/-- The mean of the prices in double arithmetic: the double sum of the prices in
ascending order, divided by their number. -/
def specDoubleMean (items : List Item) : JSNum :=
  JSNum.divDouble (specDoubleSum (specSorted items)) (.fin (items.length : ℚ))

/-- The median of the prices in double arithmetic: the double of the middle
element of the sorted prices when the count is odd, half the double sum of the
two middle elements when it is even. -/
def specDoubleMedian (items : List Item) : JSNum :=
  let sorted := specSorted items
  let n := sorted.length
  if n % 2 = 1 then toDouble (sorted.getD (n / 2) 0)
  else JSNum.divDouble
    (JSNum.addDouble (toDouble (sorted.getD (n / 2 - 1) 0)) (toDouble (sorted.getD (n / 2) 0)))
    (.fin 2)

/-! ## Sample data

The item that the test suite writes into the data file, with two more items. -/

/-- An item with a name, a price and a description, and no other property. -/
def sampleItem (id : Int) (name : String) (price : ℚ) (description : JsVal) : Item :=
  { id := id, name := .str name, price := price, description := description,
    createdAt := .undefined, extra := [] }

/-- A collection of three items; the last one is `testItem` of the test suite
with the id `9999`. -/
def sampleItems : List Item :=
  [sampleItem 1 "Laptop Pro" 2499 .undefined,
   sampleItem 2 "Headphones" 399 (.str "Noise cancelling"),
   sampleItem 9999 "Test Item" (999 / 100) (.str "A test item")]

/-- The two prices of the statistics example, 9.99 and 19.99. -/
def twoPriceItems : List Item :=
  [sampleItem 9999 "Test Item" (999 / 100) (.str "A test item"),
   sampleItem 10000 "New Test Item" (1999 / 100) (.str "A new test item")]

/-- Two items with the prices 0.01 and 0.02, whose exact mean is the half cent
0.015. -/
def centItems : List Item :=
  [sampleItem 1 "Sticker" (1 / 100) .undefined, sampleItem 2 "Badge" (2 / 100) .undefined]

/-- A state in which the file holds `sampleItems` and nothing is cached yet. -/
def sampleWorld : World :=
  { file := some { mtimeMs := 1700000000000, contents := some sampleItems }
    cache := ItemsCache.initial }

/-- A state in which the file holds an empty collection and nothing is cached
yet. -/
def emptyWorld : World :=
  { file := some { mtimeMs := 1700000000000, contents := some [] }
    cache := ItemsCache.initial }

/-- The body `{ name: "X", price: 19.99 }`. -/
def validPayload : Payload :=
  { id := .undefined, name := .str "X", price := .num (1999 / 100), description := .undefined,
    createdAt := .undefined, extra := [] }

/-- The body `{ name: "X" }`, without a price. -/
def payloadWithoutPrice : Payload :=
  { id := .undefined, name := .str "X", price := .undefined, description := .undefined,
    createdAt := .undefined, extra := [] }

/-- The body `{ name: 123, price: 1 }`, whose name is a number. -/
def payloadWithNumericName : Payload :=
  { id := .undefined, name := .num 123, price := .num 1, description := .undefined,
    createdAt := .undefined, extra := [] }

/-- The item that `POST /` builds from `payloadWithNumericName` at the clock
reading `1700000000500`: its name is the number 123. -/
def numericNameItem : Item :=
  newItemOf payloadWithNumericName 1 1700000000500 "2023-11-14T22:13:20.500Z"

/-- The body `{ name: "X", price: -5 }`, whose price is negative. -/
def negativePricePayload : Payload :=
  { id := .undefined, name := .str "X", price := .num (-5), description := .undefined,
    createdAt := .undefined, extra := [] }

/-- The item that `POST /` builds from `validPayload` at the clock reading
`1700000000500`. -/
def sampleNewItem : Item :=
  newItemOf validPayload (1999 / 100) 1700000000500 "2023-11-14T22:13:20.500Z"

/-- The state `readData` leaves from `sampleWorld`: the collection is cached
with the modification time of the file. -/
def sampleWorldLoaded : World :=
  { sampleWorld with cache := { sampleWorld.cache with
      data := some sampleItems, lastModified := 1700000000000 } }

/-- A rendering of a timestamp that stands for `toISOString` in examples: the
digits of the timestamp. -/
def sampleToISOString (t : Int) : String := toString t

/-! # Theorems -/

/-! ## Arithmetic of integer-valued numbers -/

theorem JSInt.sub_int (a b : Int) (hb : b ≠ 0) :
    JSInt.sub (.int a) (.int b) = .int (a - b) := by
  simp [JSInt.sub, JSInt.neg, hb, JSInt.add, sub_eq_add_neg]

theorem JSInt.add_int (a b : Int) : JSInt.add (.int a) (.int b) = .int (a + b) := rfl

theorem JSInt.mul_int (a b : Int) : JSInt.mul (.int a) (.int b) =
    if a = 0 ∨ b = 0 then JSInt.signedZero (xor (decide (a < 0)) (decide (b < 0)))
    else .int (a * b) := by
  simp [JSInt.mul, JSInt.isInf, JSInt.isZero, JSInt.isNeg, JSInt.toInt]

theorem JSInt.mul_int_nonneg (a b : Int) (ha : 0 ≤ a) (hb : 0 ≤ b) :
    JSInt.mul (.int a) (.int b) = .int (a * b) := by
  rw [JSInt.mul_int]
  split
  · rename_i h
    have h1 : ¬ a < 0 := not_lt.mpr ha
    have h2 : ¬ b < 0 := not_lt.mpr hb
    rcases h with h | h <;> simp [JSInt.signedZero, h1, h2, h]
  · rfl

theorem ceil_div_nat (t L : Nat) (hL : 1 ≤ L) :
    JSNum.ceil (JSNum.div (.fin t) (JSInt.toNum (.int L))) = .int ⌈(t : ℚ) / L⌉ := by
  have hL0 : (L : ℚ) ≠ 0 := by positivity
  have hLn : ¬ ((L : ℚ) < 0) := not_lt.mpr (Nat.cast_nonneg L)
  have hnn : (0 : ℚ) ≤ (t : ℚ) / L := by positivity
  by_cases ht : (t : ℚ) = 0
  · simp [JSNum.div, JSInt.toNum, JSNum.isInf, JSNum.isZero, JSNum.isNeg, JSNum.toRat, hL0, ht,
      JSNum.signedZero, JSNum.ceil, hLn]
  · have : ¬ ((t : ℚ) / L < 0) := not_lt.mpr hnn
    simp [JSNum.div, JSInt.toNum, JSNum.isInf, JSNum.isZero, JSNum.isNeg, JSNum.toRat, hL0, ht,
      JSNum.ceil, this]

theorem slice_int_nonneg {α : Type} (xs : List α) (a b : Nat) :
    slice xs (.int a) (.int (a + b)) = (xs.drop a).take b := by
  simp only [slice, relativeIndex]
  have h1 : ¬ ((a : Int) < 0) := by omega
  have h2 : ¬ ((a : Int) + b < 0) := by omega
  simp only [h1, h2, if_false]
  have e1 : (a : Int).toNat = a := by simp
  have e2 : ((a : Int) + b).toNat = a + b := by omega
  rw [e1, e2]
  by_cases h : a ≤ xs.length
  · rw [Nat.min_eq_left h]
    by_cases h' : a + b ≤ xs.length
    · rw [Nat.min_eq_left h']; congr 1; omega
    · rw [Nat.min_eq_right (by omega)]
      rw [List.take_of_length_le (by simp), List.take_of_length_le (by simp; omega)]
  · rw [List.drop_eq_nil_of_le (by omega)]; simp; exact Or.inr (by omega)

theorem paginate_data (results : List Item) (p L : Nat) (hp : 1 ≤ p) :
    (paginate (.int p) (.int L) results).data = (results.drop ((p - 1) * L)).take L := by
  simp only [paginate]
  rw [JSInt.sub_int _ _ (by decide), JSInt.mul_int_nonneg _ _ (by omega) (by omega), JSInt.add_int]
  have e : ((p : Int) - 1) * L = (((p - 1) * L : Nat) : Int) := by
    push_cast [Nat.cast_sub hp]; ring
  rw [e]
  exact slice_int_nonneg results ((p - 1) * L) L

theorem join_chunks {α : Type} (xs : List α) (L : Nat) (n : Nat) :
    ((List.range n).map (fun i => (xs.drop (i * L)).take L)).flatten = xs.take (n * L) := by
  induction n with
  | zero => simp
  | succ n ih =>
    rw [List.range_succ, List.map_append, List.flatten_append, ih, Nat.succ_mul, List.take_add]
    simp

theorem matchesSearch_wellTyped (toLowerCase : String → String) (term : String) (item : Item)
    (h : item.wellTyped = true) : ∃ b, matchesSearch toLowerCase term item = .ok b := by
  cases item with
  | mk id name price description createdAt extra =>
    cases name with
    | str n =>
      cases description with
      | str d => dsimp only [matchesSearch]; split_ifs <;> exact ⟨_, rfl⟩
      | undefined =>
        dsimp only [matchesSearch, JsVal.truthy]; split_ifs <;> first | exact ⟨_, rfl⟩ | simp_all
      | null =>
        dsimp only [matchesSearch, JsVal.truthy]; split_ifs <;> first | exact ⟨_, rfl⟩ | simp_all
      | bool b =>
        have hb : b = false := by simpa [Item.wellTyped, JsVal.truthy] using h
        subst hb
        dsimp only [matchesSearch, JsVal.truthy]; split_ifs <;> first | exact ⟨_, rfl⟩ | simp_all
      | num q =>
        have hq : q = 0 := by simpa [Item.wellTyped, JsVal.truthy] using h
        subst hq
        dsimp only [matchesSearch, JsVal.truthy]; split_ifs <;> first | exact ⟨_, rfl⟩ | simp_all
      | composite j => exact absurd h (by simp [Item.wellTyped, JsVal.truthy])
    | undefined => exact absurd h (by simp [Item.wellTyped])
    | null => exact absurd h (by simp [Item.wellTyped])
    | bool b => exact absurd h (by simp [Item.wellTyped])
    | num q => exact absurd h (by simp [Item.wellTyped])
    | composite j => exact absurd h (by simp [Item.wellTyped])

theorem includes_empty (s : String) : includes s "" = true := by
  simp [includes]

theorem includes_of_empty (t : String) (ht : t ≠ "") : includes "" t = false := by
  simp only [includes, decide_eq_false_iff_not]
  intro h
  have : t.toList = [] := by simpa using h
  exact ht (by cases t; simp_all)

theorem matchesSearch_eq_spec (toLowerCase : String → String) (q : String) (item : Item)
    (hlower : toLowerCase "" = "") (h : item.wellTyped = true) :
    matchesSearch toLowerCase (toLowerCase q) item = .ok (specMatches toLowerCase q item) := by
  cases item with
  | mk id name price description createdAt extra =>
    cases name with
    | str n =>
      by_cases hi : includes (toLowerCase n) (toLowerCase q) = true
      · simp [matchesSearch, specMatches, hi]
      · have hq : toLowerCase q ≠ "" := by
          intro hq; rw [hq] at hi; exact hi (includes_empty _)
        cases description with
        | str d =>
          by_cases hd : d = ""
          · subst hd
            simp [matchesSearch, specMatches, hi, JsVal.truthy, hlower, includes_of_empty _ hq]
          · simp [matchesSearch, specMatches, hi, JsVal.truthy, hd]
        | undefined => simp [matchesSearch, specMatches, hi, JsVal.truthy]
        | null => simp [matchesSearch, specMatches, hi, JsVal.truthy]
        | bool b =>
          have hb : b = false := by simpa [Item.wellTyped, JsVal.truthy] using h
          subst hb
          simp [matchesSearch, specMatches, hi, JsVal.truthy]
        | num x =>
          have hx : x = 0 := by simpa [Item.wellTyped, JsVal.truthy] using h
          subst hx
          simp [matchesSearch, specMatches, hi, JsVal.truthy]
        | composite j => exact absurd h (by simp [Item.wellTyped, JsVal.truthy])
    | undefined => exact absurd h (by simp [Item.wellTyped])
    | null => exact absurd h (by simp [Item.wellTyped])
    | bool b => exact absurd h (by simp [Item.wellTyped])
    | num x => exact absurd h (by simp [Item.wellTyped])
    | composite j => exact absurd h (by simp [Item.wellTyped])

theorem filterThrowing_ok {α : Type} (p : α → Except RouteError Bool) (f : α → Bool)
    (items : List α) (h : ∀ item ∈ items, p item = .ok (f item)) :
    filterThrowing p items = .ok (items.filter f) := by
  induction items with
  | nil => rfl
  | cons a l ih =>
    have ha := h a (by simp)
    have hl := ih (fun item hi => h item (by simp [hi]))
    simp only [filterThrowing, ha, hl, List.filter_cons]

/-! ## The list query: pagination and search -/

theorem applySearch_wellTyped (toLowerCase : String → String) (q : Option String)
    (items : List Item) (h : ∀ item ∈ items, item.wellTyped = true) :
    ∃ results, applySearch toLowerCase q items = .ok results := by
  unfold applySearch
  cases q with
  | none => exact ⟨items, rfl⟩
  | some q =>
    dsimp only
    split_ifs
    · refine ⟨_, filterThrowing_ok _
        (fun item => match matchesSearch toLowerCase (toLowerCase q) item with
          | .ok b => b
          | .error _ => false) items ?_⟩
      intro item hi
      obtain ⟨b, hb⟩ := matchesSearch_wellTyped toLowerCase (toLowerCase q) item (h item hi)
      simp [hb]
    · exact ⟨items, rfl⟩

theorem length_le_ceil_mul (n L : Nat) (hL : 1 ≤ L) :
    n ≤ (⌈(n : ℚ) / L⌉).toNat * L := by
  have hL0 : (0 : ℚ) < L := by exact_mod_cast hL
  have h1 : (n : ℚ) / L ≤ ⌈(n : ℚ) / L⌉ := Int.le_ceil _
  have h0 : (0 : Int) ≤ ⌈(n : ℚ) / L⌉ := Int.ceil_nonneg (by positivity)
  have h2 : (n : ℚ) ≤ ((⌈(n : ℚ) / L⌉ : Int) : ℚ) * L := (div_le_iff₀ hL0).mp h1
  have h3 : ((⌈(n : ℚ) / L⌉.toNat : Nat) : Int) = ⌈(n : ℚ) / L⌉ := Int.toNat_of_nonneg h0
  have h4 : (n : ℚ) ≤ ((⌈(n : ℚ) / L⌉.toNat * L : Nat) : ℚ) := by
    push_cast
    have : ((⌈(n : ℚ) / L⌉.toNat : Nat) : ℚ) = ((⌈(n : ℚ) / L⌉ : Int) : ℚ) := by
      exact_mod_cast congrArg (fun z : Int => (z : ℚ)) h3
    rw [this]; exact h2
  exact_mod_cast h4

theorem applySearch_ok (toLowerCase : String → String) (q : Option String) (items : List Item)
    (h : q = none ∨ q = some "" ∨ ∀ item ∈ items, item.wellTyped = true) :
    ∃ results, applySearch toLowerCase q items = .ok results := by
  rcases h with rfl | rfl | h
  · exact ⟨items, rfl⟩
  · exact ⟨items, by simp [applySearch]⟩
  · exact applySearch_wellTyped toLowerCase q items h

/-- C1 (as stated, refuted): `POST /` accepts the body `{ name: 123, price: 1 }`
and writes a collection that ends with an item whose name is a number; on that
collection the query with the search term `pro` throws for every page and every
limit, so no page is returned and the pages do not make up a filtered list. -/
theorem getItems_search_throws_on_numeric_name :
    (postItem payloadWithNumericName 1700000000500 "2023-11-14T22:13:20.500Z"
      (some 1700000000501) sampleWorld).2.file =
      some { mtimeMs := 1700000000501, contents := some (sampleItems ++ [numericNameItem]) } ∧
    applySearch asciiToLowerCase (some "pro") (sampleItems ++ [numericNameItem]) =
      .error ⟨none, "item.name.toLowerCase is not a function"⟩ ∧
    (∀ pageNum limitNum : JSInt,
      queryItems asciiToLowerCase pageNum limitNum (some "pro")
        (sampleItems ++ [numericNameItem]) =
        .error ⟨none, "item.name.toLowerCase is not a function"⟩) ∧
    (∀ (w w1 : World) (page limit : Option String),
      readData w = (.ok (sampleItems ++ [numericNameItem]), w1) →
      (getItems asciiToLowerCase ⟨page, limit, some "pro"⟩ w).1 =
        .error ⟨none, "item.name.toLowerCase is not a function"⟩) := by
  have hread : readData sampleWorld = (.ok sampleItems, sampleWorldLoaded) := by
    simp [readData, sampleWorld, sampleWorldLoaded, ItemsCache.initial, cacheIsFresh]
  have hpost : (postItem payloadWithNumericName 1700000000500 "2023-11-14T22:13:20.500Z"
      (some 1700000000501) sampleWorld).2.file =
      some { mtimeMs := 1700000000501, contents := some (sampleItems ++ [numericNameItem]) } := by
    simp [postItem, payloadWithNumericName, JsVal.truthy, hread, numericNameItem]
  have hsearch : applySearch asciiToLowerCase (some "pro") (sampleItems ++ [numericNameItem]) =
      .error ⟨none, "item.name.toLowerCase is not a function"⟩ := rfl
  have hquery : ∀ pageNum limitNum : JSInt,
      queryItems asciiToLowerCase pageNum limitNum (some "pro")
        (sampleItems ++ [numericNameItem]) =
        .error ⟨none, "item.name.toLowerCase is not a function"⟩ := by
    intro pageNum limitNum
    simp only [queryItems, hsearch]
  refine ⟨hpost, hsearch, hquery, ?_⟩
  intro w w1 page limit hr
  simp only [getItems, hr, hquery]

/-- C1 (amended): for every item list, every search term and every limit of at
least 1 such that no search term is given, or the term is empty, or every item
has a string name and a description that is a string or falsy, the responses of
`GET /` for the pages `1, ..., totalPages` each carry at most `limit` items, and
their `data` arrays concatenated in page order are exactly the filtered list. -/
theorem getItems_pages_partition (toLowerCase : String → String) (items : List Item)
    (q : Option String) (L : Nat)
    (hsearch : q = none ∨ q = some "" ∨ ∀ item ∈ items, item.wellTyped = true)
    (hL : 1 ≤ L) :
    ∃ (results : List Item) (T : Nat) (page : Nat → ItemsResponse),
      applySearch toLowerCase q items = .ok results ∧
      (∀ p : Nat, queryItems toLowerCase (.int p) (.int L) q items = .ok (page p)) ∧
      (∀ (w w1 : World) (pageStr limitStr : String) (p : Nat),
        readData w = (.ok items, w1) → parseInt pageStr (some 10) = .int p →
        parseInt limitStr (some 10) = .int L →
        getItems toLowerCase ⟨some pageStr, some limitStr, q⟩ w = (.ok ⟨200, page p⟩, w1)) ∧
      (∀ p : Nat, (page p).pagination.totalPages = .int T) ∧
      (∀ p : Nat, 1 ≤ p → p ≤ T → (page p).data.length ≤ L) ∧
      ((List.range T).map (fun i => (page (i + 1)).data)).flatten = results := by
  obtain ⟨results, hres⟩ := applySearch_ok toLowerCase q items hsearch
  have hquery : ∀ p : Nat, queryItems toLowerCase (.int p) (.int L) q items =
      .ok (paginate (.int p) (.int L) results) := by
    intro p; simp [queryItems, hres]
  refine ⟨results, (⌈(results.length : ℚ) / L⌉).toNat,
    fun p => paginate (.int p) (.int L) results, hres, hquery, ?_, ?_, ?_, ?_⟩
  · intro w w1 pageStr limitStr p hread hp hl
    simp only [getItems, Option.getD_some, hread, hp, hl, hquery]
  · intro p
    have h0 : (0 : Int) ≤ ⌈(results.length : ℚ) / L⌉ := Int.ceil_nonneg (by positivity)
    show JSNum.ceil (JSNum.div (.fin results.length) (JSInt.toNum (.int L))) = _
    rw [ceil_div_nat _ _ hL, Int.toNat_of_nonneg h0]
  · intro p hp _
    rw [paginate_data results p L hp]
    simp only [List.length_take]
    exact Nat.min_le_left _ _
  · have hmap : (List.range (⌈(results.length : ℚ) / L⌉).toNat).map
        (fun i => (paginate (.int ((i + 1 : Nat) : Int)) (.int L) results).data) =
        (List.range (⌈(results.length : ℚ) / L⌉).toNat).map
          (fun i => (results.drop (i * L)).take L) := by
      apply List.map_congr_left
      intro i _
      rw [paginate_data results (i + 1) L (by omega)]
      simp
    rw [hmap, join_chunks, List.take_of_length_le (length_le_ceil_mul _ _ hL)]

theorem getItems_pages_partition_witness :
    ∃ (results : List Item) (T : Nat) (page : Nat → ItemsResponse),
      applySearch asciiToLowerCase (some "TEST") sampleItems = .ok results ∧
      (∀ p : Nat, queryItems asciiToLowerCase (.int p) (.int 2) (some "TEST") sampleItems =
        .ok (page p)) ∧
      (∀ (w w1 : World) (pageStr limitStr : String) (p : Nat),
        readData w = (.ok sampleItems, w1) → parseInt pageStr (some 10) = .int p →
        parseInt limitStr (some 10) = .int (2 : Nat) →
        getItems asciiToLowerCase ⟨some pageStr, some limitStr, some "TEST"⟩ w =
          (.ok ⟨200, page p⟩, w1)) ∧
      (∀ p : Nat, (page p).pagination.totalPages = .int T) ∧
      (∀ p : Nat, 1 ≤ p → p ≤ T → (page p).data.length ≤ 2) ∧
      ((List.range T).map (fun i => (page (i + 1)).data)).flatten = results :=
  getItems_pages_partition asciiToLowerCase sampleItems (some "TEST") 2
    (Or.inr (Or.inr (by simp [sampleItems, sampleItem, Item.wellTyped, JsVal.truthy])))
    (by decide)

theorem ne_empty_of_trim_ne_empty (q : String) (hq : trim q ≠ "") : q ≠ "" := by
  rintro rfl
  exact hq (by decide)

/-- C2 (as stated, refuted): the collection that `POST /` leaves after the body
`{ name: 123, price: 1 }` holds the item named `Test Item`, which meets the
search criterion for the term `test`, but the search stage throws on the item
whose name is a number and produces no list: nothing is retained. -/
theorem applySearch_numeric_name_keeps_nothing :
    sampleItem 9999 "Test Item" (999 / 100) (.str "A test item") ∈
      sampleItems ++ [numericNameItem] ∧
    specMatches asciiToLowerCase "test"
      (sampleItem 9999 "Test Item" (999 / 100) (.str "A test item")) = true ∧
    applySearch asciiToLowerCase (some "test") (sampleItems ++ [numericNameItem]) =
      .error ⟨none, "item.name.toLowerCase is not a function"⟩ ∧
    (∀ kept : List Item,
      applySearch asciiToLowerCase (some "test") (sampleItems ++ [numericNameItem]) ≠
        .ok kept) := by
  have hsearch : applySearch asciiToLowerCase (some "test") (sampleItems ++ [numericNameItem]) =
      .error ⟨none, "item.name.toLowerCase is not a function"⟩ := rfl
  refine ⟨by simp [sampleItems], by decide, hsearch, ?_⟩
  intro kept h
  rw [hsearch] at h
  cases h

/-- C2 (amended): for every item list whose items each have a string name and a
description that is a string or falsy, and every search term that is not empty
after trimming, the search stage of `GET /` keeps, in their order, exactly the
items whose lower-cased name contains the lower-cased term or whose description
is present and contains it; the response is the pagination of that list; the
test reads no other property of an item; and the term `test` keeps an item
named `Test Item`. -/
theorem getItems_search_filter (toLowerCase : String → String) (items : List Item) (q : String)
    (hlower : toLowerCase "" = "") (htyped : ∀ item ∈ items, item.wellTyped = true)
    (hq : trim q ≠ "") :
    applySearch toLowerCase (some q) items = .ok (items.filter (specMatches toLowerCase q)) ∧
    (∀ pageNum limitNum : JSInt,
      queryItems toLowerCase pageNum limitNum (some q) items =
        .ok (paginate pageNum limitNum (items.filter (specMatches toLowerCase q)))) ∧
    (∀ item other : Item, other.name = item.name → other.description = item.description →
      matchesSearch toLowerCase (toLowerCase q) other =
        matchesSearch toLowerCase (toLowerCase q) item) ∧
    (q = "test" → toLowerCase "test" = "test" → toLowerCase "Test Item" = "test item" →
      ∀ item ∈ items, item.name = .str "Test Item" →
        item ∈ items.filter (specMatches toLowerCase q)) := by
  have hne : q ≠ "" := ne_empty_of_trim_ne_empty q hq
  have hsearch : applySearch toLowerCase (some q) items =
      .ok (items.filter (specMatches toLowerCase q)) := by
    simp only [applySearch, hne, ne_eq, not_false_eq_true, if_true]
    exact filterThrowing_ok _ _ items
      (fun item hi => matchesSearch_eq_spec toLowerCase q item hlower (htyped item hi))
  refine ⟨hsearch, ?_, ?_, ?_⟩
  · intro pageNum limitNum
    simp [queryItems, hsearch]
  · intro item other hn hd
    simp only [matchesSearch, hn, hd]
  · intro hq1 h1 h2 item hi hname
    subst hq1
    rw [List.mem_filter]
    refine ⟨hi, ?_⟩
    simp only [specMatches, hname, h1, h2]
    have : includes "test item" "test" = true := by decide
    simp [this]

theorem getItems_search_filter_witness :
    applySearch asciiToLowerCase (some "test") sampleItems =
      .ok (sampleItems.filter (specMatches asciiToLowerCase "test")) ∧
    (∀ pageNum limitNum : JSInt,
      queryItems asciiToLowerCase pageNum limitNum (some "test") sampleItems =
        .ok (paginate pageNum limitNum (sampleItems.filter (specMatches asciiToLowerCase "test")))) ∧
    (∀ item other : Item, other.name = item.name → other.description = item.description →
      matchesSearch asciiToLowerCase (asciiToLowerCase "test") other =
        matchesSearch asciiToLowerCase (asciiToLowerCase "test") item) ∧
    ("test" = "test" → asciiToLowerCase "test" = "test" →
      asciiToLowerCase "Test Item" = "test item" →
      ∀ item ∈ sampleItems, item.name = .str "Test Item" →
        item ∈ sampleItems.filter (specMatches asciiToLowerCase "test")) :=
  getItems_search_filter asciiToLowerCase sampleItems "test" (by decide)
    (by simp [sampleItems, sampleItem, Item.wellTyped, JsVal.truthy]) (by decide)

/-! ## Statistics -/

theorem sortedPrices_perm (items : List Item) :
    (sortedPrices items).Perm (items.map (fun item => item.price)) :=
  List.perm_insertionSort _ _

theorem sortedPrices_sorted (items : List Item) :
    (sortedPrices items).Sorted (fun a b => a ≤ b) :=
  List.sorted_insertionSort _ _

theorem sortedPrices_length (items : List Item) : (sortedPrices items).length = items.length := by
  rw [(sortedPrices_perm items).length_eq, List.length_map]

theorem mem_sortedPrices (items : List Item) (p : ℚ) :
    p ∈ sortedPrices items ↔ ∃ item ∈ items, item.price = p := by
  rw [(sortedPrices_perm items).mem_iff, List.mem_map]

theorem foldl_max_all_zero (ps : List ℚ) (h : ∀ p ∈ ps, p = 0) : ps.foldl max 0 = 0 := by
  induction ps with
  | nil => rfl
  | cons a l ih =>
    have ha : a = 0 := h a (by simp)
    subst ha
    simpa using ih (fun p hp => h p (by simp [hp]))

theorem mathMax_all_zero (ps : List ℚ) (hne : ps ≠ []) (h : ∀ p ∈ ps, p = 0) :
    mathMax ps = .fin 0 := by
  cases ps with
  | nil => exact absurd rfl hne
  | cons a l =>
    have ha : a = 0 := h a (by simp)
    subst ha
    simp only [mathMax]
    rw [foldl_max_all_zero l (fun p hp => h p (by simp [hp]))]

theorem bucketSize_zero : JSNum.ceil (JSNum.div (.fin 0) (.fin 5)) = .int 0 := by
  norm_num [JSNum.div, JSNum.isInf, JSNum.isZero, JSNum.isNeg, JSNum.signedZero, JSNum.ceil]

theorem bucketOf_zero_zero : bucketOf (.int 0) 0 = .nan := by
  simp [bucketOf, JSInt.toNum, JSNum.div, JSNum.isInf, JSNum.isZero, JSNum.floor, JSInt.min]

theorem foldl_increment_all_zero (ps : List ℚ) (h : ∀ p ∈ ps, p = 0) (d : List Nat) :
    ps.foldl (fun d price => increment d (bucketOf (.int 0) price)) d = d := by
  induction ps generalizing d with
  | nil => rfl
  | cons a l ih =>
    have ha : a = 0 := h a (by simp)
    subst ha
    simp only [List.foldl_cons, bucketOf_zero_zero, increment]
    exact ih (fun p hp => h p (by simp [hp])) d

/-- C3: on a collection that is not empty and whose prices are all `0`,
`calculateStats` returns five buckets labelled `0 - 0` that all count `0`: the
bucket width is `0`, the bucket index `0 / 0` is `NaN`, and no item is counted,
so the counts sum to `0` and not to `count`. -/
theorem calculateStats_all_zero_prices (items : List Item) (hne : items ≠ [])
    (hzero : ∀ item ∈ items, item.price = 0) :
    ∃ s, calculateStats items = some s ∧ s.count = items.length ∧
      s.priceDistribution = List.replicate 5 { range := "0 - 0", count := 0 } ∧
      (s.priceDistribution.map (fun b => b.count)).sum = 0 ∧
      (s.priceDistribution.map (fun b => b.count)).sum ≠ s.count := by
  have hlen : items.length ≠ 0 := by
    intro h; exact hne (List.length_eq_zero.mp h)
  have hall : ∀ p ∈ sortedPrices items, p = 0 := by
    intro p hp
    obtain ⟨item, hi, rfl⟩ := (mem_sortedPrices items p).mp hp
    exact hzero item hi
  have hpne : sortedPrices items ≠ [] := by
    intro h
    have := sortedPrices_length items
    rw [h] at this
    exact hlen this.symm
  have hstats : calculateStats items = some
      { count := items.length
        min := (sortedPrices items).getD 0 0
        max := (sortedPrices items).getD ((sortedPrices items).length - 1) 0
        average := parseFloatToFixed2
          (JSNum.divDouble
            ((sortedPrices items).foldl (fun a b => JSNum.addDouble a (toDouble b)) (.fin 0))
            (.fin ((sortedPrices items).length : ℚ)))
        median := parseFloatToFixed2
          (if (sortedPrices items).length % 2 = 0
            then JSNum.divDouble
              (JSNum.addDouble
                (toDouble ((sortedPrices items).getD ((sortedPrices items).length / 2 - 1) 0))
                (toDouble ((sortedPrices items).getD ((sortedPrices items).length / 2) 0)))
              (.fin 2)
            else toDouble ((sortedPrices items).getD ((sortedPrices items).length / 2) 0))
        priceDistribution := List.replicate 5 { range := "0 - 0", count := 0 } } := by
    simp only [calculateStats, hlen, if_false, mathMax_all_zero _ hpne hall, bucketSize_zero,
      foldl_increment_all_zero _ hall]
    congr 1
  have hsum : (List.map (fun b => b.count)
      (List.replicate 5 ({ range := "0 - 0", count := 0 } : Bucket))).sum = 0 := by decide
  refine ⟨_, hstats, rfl, rfl, hsum, ?_⟩
  show (List.map (fun b => b.count) (List.replicate 5 ({ range := "0 - 0", count := 0 } : Bucket))).sum
    ≠ items.length
  rw [hsum]
  exact fun h => hlen h.symm

theorem calculateStats_all_zero_prices_witness :
    ∃ s, calculateStats [sampleItem 1 "Free sample" 0 .undefined] = some s ∧
      s.count = [sampleItem 1 "Free sample" 0 .undefined].length ∧
      s.priceDistribution = List.replicate 5 { range := "0 - 0", count := 0 } ∧
      (s.priceDistribution.map (fun b => b.count)).sum = 0 ∧
      (s.priceDistribution.map (fun b => b.count)).sum ≠ s.count :=
  calculateStats_all_zero_prices [sampleItem 1 "Free sample" 0 .undefined] (by simp)
    (by simp [sampleItem])

theorem sum_modify_succ (d : List Nat) (k : Nat) (hk : k < d.length) :
    (d.modify (fun c => c + 1) k).sum = d.sum + 1 := by
  induction d generalizing k with
  | nil => simp at hk
  | cons a t ih =>
    cases k with
    | zero => simp [List.modify_zero_cons]; omega
    | succ k =>
      have hk' : k < t.length := by simpa using hk
      simp [List.modify_succ_cons, ih k hk']; omega

theorem le_foldl_max (ps : List ℚ) (p x : ℚ) (hx : x = p ∨ x ∈ ps) : x ≤ ps.foldl max p := by
  induction ps generalizing p x with
  | nil =>
    rcases hx with h | h
    · exact h.le
    · simp at h
  | cons a t ih =>
    simp only [List.foldl_cons]
    rcases hx with h | h
    · exact le_trans (h.le.trans (le_max_left p a)) (ih (max p a) (max p a) (Or.inl rfl))
    · rcases List.mem_cons.mp h with h | h
      · exact le_trans (h.le.trans (le_max_right p a)) (ih (max p a) (max p a) (Or.inl rfl))
      · exact ih (max p a) x (Or.inr h)

theorem mathMax_pos (ps : List ℚ) (x : ℚ) (hx : x ∈ ps) (hpos : 0 < x) :
    ∃ m, mathMax ps = .fin m ∧ 0 < m := by
  cases ps with
  | nil => simp at hx
  | cons p t =>
    refine ⟨t.foldl max p, rfl, lt_of_lt_of_le hpos (le_foldl_max t p x ?_)⟩
    rcases List.mem_cons.mp hx with h | h
    · exact Or.inl h
    · exact Or.inr h

theorem bucketSize_of_pos (m : ℚ) (hm : 0 < m) :
    JSNum.ceil (JSNum.div (.fin m) (.fin 5)) = .int ⌈m / 5⌉ ∧ 1 ≤ ⌈m / 5⌉ := by
  have h5 : (0 : ℚ) < m / 5 := by positivity
  constructor
  · have h1 : ¬ (m / 5 < 0) := not_lt.mpr h5.le
    norm_num [JSNum.div, JSNum.isInf, JSNum.isZero, JSNum.toRat, hm.ne', JSNum.ceil, h1]
  · exact Int.one_le_ceil_iff.mpr h5

theorem bucketOf_nonneg (width : Int) (hw : 1 ≤ width) (p : ℚ) (hp : 0 ≤ p) :
    ∃ k : Nat, bucketOf (.int width) p = .int k ∧ k < 5 ∧
      (k : Int) = min ⌊p / (width : ℚ)⌋ 4 := by
  have hwq : (0 : ℚ) < (width : ℚ) := by exact_mod_cast (by omega : (0 : Int) < width)
  have hfl : (0 : Int) ≤ ⌊p / (width : ℚ)⌋ := Int.floor_nonneg.mpr (by positivity)
  have hdiv : JSNum.floor (JSNum.div (.fin p) (JSInt.toNum (.int width))) =
      .int ⌊p / (width : ℚ)⌋ := by
    by_cases hp0 : p = 0
    · subst hp0
      have : ¬ ((width : ℚ) < 0) := not_lt.mpr hwq.le
      simp [JSNum.div, JSInt.toNum, JSNum.isInf, JSNum.isZero, JSNum.isNeg, hwq.ne',
        JSNum.signedZero, JSNum.floor, this]
    · simp [JSNum.div, JSInt.toNum, JSNum.isInf, JSNum.isZero, JSNum.toRat, hwq.ne', hp0,
        JSNum.floor]
  refine ⟨(min ⌊p / (width : ℚ)⌋ 4).toNat, ?_, ?_, ?_⟩
  · have h0 : (0 : Int) ≤ min ⌊p / (width : ℚ)⌋ 4 := le_min hfl (by norm_num)
    simp only [bucketOf, hdiv, JSInt.min, Int.toNat_of_nonneg h0]
  · have : min ⌊p / (width : ℚ)⌋ 4 ≤ 4 := min_le_right _ _
    omega
  · exact Int.toNat_of_nonneg (le_min hfl (by norm_num))

theorem foldl_increment_sum (width : Int) (hw : 1 ≤ width) (ps : List ℚ)
    (hps : ∀ p ∈ ps, 0 ≤ p) (d : List Nat) (hd : d.length = 5) :
    (ps.foldl (fun d price => increment d (bucketOf (.int width) price)) d).length = 5 ∧
    (ps.foldl (fun d price => increment d (bucketOf (.int width) price)) d).sum =
      d.sum + ps.length := by
  induction ps generalizing d with
  | nil => exact ⟨hd, rfl⟩
  | cons a t ih =>
    obtain ⟨k, hk, hk5, _⟩ := bucketOf_nonneg width hw a (hps a (by simp))
    have hinc : increment d (bucketOf (.int width) a) = d.modify (fun c => c + 1) k := by
      rw [hk]; simp [increment]
    have hlen : (d.modify (fun c => c + 1) k).length = 5 := by
      rw [List.length_modify, hd]
    obtain ⟨h1, h2⟩ := ih (fun p hp => hps p (by simp [hp])) (d.modify (fun c => c + 1) k) hlen
    simp only [List.foldl_cons, hinc]
    refine ⟨h1, ?_⟩
    rw [h2, sum_modify_succ d k (by omega)]
    simp only [List.length_cons]; omega

theorem map_count_zipWith (f : Nat → String) (d : List Nat) :
    (List.zipWith (fun i count => ({ range := f i, count := count } : Bucket))
      (List.range d.length) d).map (fun b => b.count) = d := by
  rw [List.map_zipWith]
  apply List.ext_getElem
  · simp
  · intro n h1 h2
    simp

/-- The histogram away from the degenerate case: when no price is negative and
some price is positive, `calculateStats` returns exactly five buckets and their
counts sum to `count`. -/
theorem calculateStats_bucket_counts_sum (items : List Item)
    (hnonneg : ∀ item ∈ items, 0 ≤ item.price) (hpos : ∃ item ∈ items, 0 < item.price) :
    ∃ s, calculateStats items = some s ∧ s.priceDistribution.length = 5 ∧
      (s.priceDistribution.map (fun b => b.count)).sum = s.count := by
  obtain ⟨witness, hwit, hwpos⟩ := hpos
  have hne : items ≠ [] := by rintro rfl; simp at hwit
  have hlen : items.length ≠ 0 := by
    intro h; exact hne (List.length_eq_zero.mp h)
  obtain ⟨m, hm, hmpos⟩ := mathMax_pos (sortedPrices items) witness.price
    ((mem_sortedPrices items _).mpr ⟨witness, hwit, rfl⟩) hwpos
  obtain ⟨hsize, hwidth⟩ := bucketSize_of_pos m hmpos
  have hps : ∀ p ∈ sortedPrices items, 0 ≤ p := by
    intro p hp
    obtain ⟨item, hi, rfl⟩ := (mem_sortedPrices items p).mp hp
    exact hnonneg item hi
  obtain ⟨h1, h2⟩ := foldl_increment_sum ⌈m / 5⌉ hwidth (sortedPrices items) hps
    (List.replicate 5 0) (by simp)
  refine ⟨_, by simp only [calculateStats, hlen, if_false]; rfl, ?_, ?_⟩
  · simp only [hm, hsize, List.length_zipWith, List.length_range, h1, min_self]
  · simp only [hm, hsize, map_count_zipWith, h2]
    simp [sortedPrices_length]

theorem sortedPrices_eq_specSorted (items : List Item) : sortedPrices items = specSorted items := by
  have hperm : (sortedPrices items).Perm (specSorted items) :=
    (sortedPrices_perm items).trans (List.mergeSort_perm _ _).symm
  have hsorted : (specSorted items).Sorted (fun a b => a ≤ b) := by
    have h := @List.sorted_mergeSort ℚ (fun (a b : ℚ) => decide (a ≤ b))
      (by intro a b c hab hbc; simp only [decide_eq_true_eq] at *; exact le_trans hab hbc)
      (by intro a b; simp only [Bool.or_eq_true, decide_eq_true_eq]; exact le_total a b)
      (items.map (fun item => item.price))
    exact h.imp (by intro a b hab; simpa using hab)
  exact List.eq_of_perm_of_sorted hperm (sortedPrices_sorted items) hsorted

theorem sorted_getD_zero_le (l : List ℚ) (hs : l.Sorted (fun a b => a ≤ b)) (x : ℚ) (hx : x ∈ l) :
    l.getD 0 0 ≤ x := by
  cases l with
  | nil => simp at hx
  | cons a t =>
    simp only [List.getD_cons_zero]
    rcases List.mem_cons.mp hx with h | h
    · exact h.ge
    · exact List.rel_of_sorted_cons hs x h

theorem sorted_le_getD_last (l : List ℚ) (hs : l.Sorted (fun a b => a ≤ b)) (x : ℚ) (hx : x ∈ l) :
    x ≤ l.getD (l.length - 1) 0 := by
  obtain ⟨n, hn, rfl⟩ := List.mem_iff_getElem.mp hx
  have hlast : l.length - 1 < l.length := by omega
  rw [List.getD_eq_getElem l 0 hlast]
  have := hs.rel_get_of_le (a := ⟨n, hn⟩) (b := ⟨l.length - 1, hlast⟩)
    (by simp only [Fin.mk_le_mk]; omega)
  simpa using this

theorem getD_mem_of_lt (l : List ℚ) (n : Nat) (hn : n < l.length) : l.getD n 0 ∈ l := by
  rw [List.getD_eq_getElem l 0 hn]
  exact List.getElem_mem hn

/-! ## Double arithmetic and the rounded mean and median -/

theorem roundHalfEven_eq (t : ℚ) (m : Int) (h : |t - m| < 1 / 2) : roundHalfEven t = m := by
  rw [abs_lt] at h
  obtain ⟨h1, h2⟩ := h
  have hf1 := Int.floor_le t
  have hf2 := Int.lt_floor_add_one t
  unfold roundHalfEven
  by_cases hr : t - ⌊t⌋ < 1 / 2
  · simp only [hr, if_true]
    rw [Int.floor_eq_iff]
    refine ⟨?_, by linarith⟩
    by_contra hc
    have hlt : ⌊t⌋ < m := Int.floor_lt.mpr (not_le.mp hc)
    have hle : (⌊t⌋ : ℚ) ≤ m - 1 := by exact_mod_cast (show ⌊t⌋ ≤ m - 1 by omega)
    linarith
  · have hge : (1 : ℚ) / 2 ≤ t - ⌊t⌋ := not_lt.mp hr
    have hm : ⌊t⌋ + 1 = m := by
      have ha : ⌊t⌋ < m := by exact_mod_cast (show (⌊t⌋ : ℚ) < m by linarith)
      have hb : m < ⌊t⌋ + 2 := by exact_mod_cast (show (m : ℚ) < ⌊t⌋ + 2 by linarith)
      omega
    have hgt : (1 : ℚ) / 2 < t - ⌊t⌋ := by
      have : (m : ℚ) = ⌊t⌋ + 1 := by exact_mod_cast hm.symm
      linarith
    simp only [hr, hgt, if_true, if_false]
    exact hm

theorem roundHalfEven_tie (t : ℚ) (m : Int) (h : |t - m| = 1 / 2) (hm : m % 2 = 0) :
    roundHalfEven t = m := by
  unfold roundHalfEven
  rcases abs_eq (by norm_num : (0 : ℚ) ≤ 1 / 2) |>.mp h with h1 | h1
  · have hf : ⌊t⌋ = m := by
      rw [Int.floor_eq_iff]; constructor <;> linarith
    have hr : t - (m : ℚ) = 1 / 2 := h1
    simp only [hf, hr, lt_irrefl, if_false, hm, if_true]
  · have hf : ⌊t⌋ = m - 1 := by
      rw [Int.floor_eq_iff]; push_cast; constructor <;> linarith
    have hr : t - ((m - 1 : Int) : ℚ) = 1 / 2 := by push_cast; linarith
    have hodd : ¬ ((m - 1) % 2 = 0) := by omega
    simp only [hf, hr, lt_irrefl, if_false, hodd]
    omega

theorem roundHalfEven_close (t : ℚ) : |(roundHalfEven t : ℚ) - t| ≤ 1 / 2 := by
  have hf1 := Int.floor_le t
  have hf2 := Int.lt_floor_add_one t
  unfold roundHalfEven
  simp only
  rw [abs_le]
  split_ifs with h1 h2 h3
  · constructor <;> linarith
  · push_cast; constructor <;> linarith
  · have : t - ⌊t⌋ = 1 / 2 := le_antisymm (not_lt.mp h2) (not_lt.mp h1)
    constructor <;> linarith
  · have : t - ⌊t⌋ = 1 / 2 := le_antisymm (not_lt.mp h2) (not_lt.mp h1)
    push_cast; constructor <;> linarith

theorem log_two_eq (x : ℚ) (e : Int) (h1 : (2 : ℚ) ^ e ≤ x) (h2 : x < (2 : ℚ) ^ (e + 1)) :
    Int.log 2 x = e := by
  have hx : 0 < x := lt_of_lt_of_le (by positivity) h1
  have ha : e ≤ Int.log 2 x := (Int.zpow_le_iff_le_log (by norm_num) hx).mp h1
  have hb : Int.log 2 x < e + 1 := (Int.lt_zpow_iff_log_lt (by norm_num) hx).mp h2
  omega

/-- Evaluation of `toDouble` at a positive rational in the normal range: with
`2^e ≤ x < 2^(e+1)` and `m` the rounding of `x / 2^(e-52)`, the double is
`m * 2^(e-52)`. -/
theorem toDouble_eq_fin_pos (x : ℚ) (e : Int) (m : Int) (hx1 : (2 : ℚ) ^ e ≤ x)
    (hx2 : x < (2 : ℚ) ^ (e + 1)) (he : -1022 ≤ e) (he2 : e ≤ 1022)
    (hm : roundHalfEven (x / (2 : ℚ) ^ (e - 52)) = m) :
    toDouble x = .fin ((m : ℚ) * (2 : ℚ) ^ (e - 52)) := by
  have hx : 0 < x := lt_of_lt_of_le (by positivity) hx1
  have hx0 : x ≠ 0 := hx.ne.symm
  have hlog := log_two_eq |x| e (by rwa [abs_of_pos hx]) (by rwa [abs_of_pos hx])
  have hu : (0 : ℚ) < (2 : ℚ) ^ (e - 52) := by positivity
  have hclose := roundHalfEven_close (x / (2 : ℚ) ^ (e - 52))
  rw [hm, abs_le] at hclose
  have ht1 : (2 : ℚ) ^ (52 : Int) ≤ x / (2 : ℚ) ^ (e - 52) := by
    rw [le_div_iff₀ hu, ← zpow_add₀ (by norm_num : (2 : ℚ) ≠ 0)]
    simpa using hx1
  have ht2 : x / (2 : ℚ) ^ (e - 52) < (2 : ℚ) ^ (53 : Int) := by
    rw [div_lt_iff₀ hu, ← zpow_add₀ (by norm_num : (2 : ℚ) ≠ 0)]
    have : (53 : Int) + (e - 52) = e + 1 := by ring
    rw [this]; exact hx2
  have hmpos : (0 : ℚ) < m := by
    have : (1 : ℚ) ≤ (2 : ℚ) ^ (52 : Int) := by norm_num
    linarith [hclose.1]
  have hmle : (m : ℚ) ≤ (2 : ℚ) ^ (53 : Int) := by
    have h1 : (m : ℚ) < (2 : ℚ) ^ (53 : Int) + 1 := by linarith [hclose.1]
    have h2 : m < 2 ^ 53 + 1 := by
      have : ((2 : ℚ) ^ (53 : Int) + 1) = (((2 ^ 53 + 1 : Int)) : ℚ) := by norm_num
      rw [this] at h1
      exact_mod_cast h1
    have h3 : m ≤ 2 ^ 53 := by omega
    have : ((2 : ℚ) ^ (53 : Int)) = (((2 ^ 53 : Int)) : ℚ) := by norm_num
    rw [this]
    exact_mod_cast h3
  have hy0 : (m : ℚ) * (2 : ℚ) ^ (e - 52) ≠ 0 := mul_ne_zero hmpos.ne.symm hu.ne.symm
  have hylt : ¬ ((2 : ℚ) ^ 1024 ≤ |(m : ℚ) * (2 : ℚ) ^ (e - 52)|) := by
    rw [not_le, abs_of_pos (mul_pos hmpos hu)]
    calc (m : ℚ) * (2 : ℚ) ^ (e - 52) ≤ (2 : ℚ) ^ (53 : Int) * (2 : ℚ) ^ (e - 52) :=
          mul_le_mul_of_nonneg_right hmle hu.le
      _ = (2 : ℚ) ^ (e + 1) := by
          rw [← zpow_add₀ (by norm_num : (2 : ℚ) ≠ 0)]; congr 1; ring
      _ ≤ (2 : ℚ) ^ (1023 : Int) := zpow_le_zpow_right₀ (by norm_num) (by omega)
      _ < (2 : ℚ) ^ (1024 : Int) := zpow_lt_zpow_right₀ (by norm_num) (by norm_num)
      _ = (2 : ℚ) ^ 1024 := by simp only [zpow_ofNat]
  simp only [toDouble, hx0, if_false, hlog, max_eq_left he, hm, hylt, hy0]

theorem parseFloatToFixed2_fin (d : ℚ) (hd : |d| < 10 ^ 21) :
    ∃ k : Int, |(k : ℚ) / 100 - d| ≤ 1 / 200 ∧
      (parseFloatToFixed2 (.fin d) = toDouble ((k : ℚ) / 100) ∨
        (k = 0 ∧ d < 0 ∧ parseFloatToFixed2 (.fin d) = .negZero)) := by
  have h1 := Int.floor_le (|d| * 100 + 1 / 2)
  have h2 := Int.lt_floor_add_one (|d| * 100 + 1 / 2)
  have hbig : ¬ ((10 : ℚ) ^ 21 ≤ |d|) := not_le.mpr hd
  by_cases hneg : d < 0
  · have habs : |d| = -d := abs_of_neg hneg
    by_cases hn : ⌊|d| * 100 + 1 / 2⌋ = 0
    · refine ⟨0, ?_, Or.inr ⟨rfl, hneg, ?_⟩⟩
      · rw [hn] at h2
        rw [abs_le]
        constructor <;> push_cast <;> linarith
      · simp only [parseFloatToFixed2, hbig, if_false, hneg, if_true, hn]
    · refine ⟨-⌊|d| * 100 + 1 / 2⌋, ?_, Or.inl ?_⟩
      · rw [abs_le]
        constructor <;> push_cast <;> linarith
      · simp only [parseFloatToFixed2, hbig, if_false, hneg, if_true, hn]
        congr 1
        push_cast
        ring
  · have habs : |d| = d := abs_of_nonneg (not_lt.mp hneg)
    refine ⟨⌊|d| * 100 + 1 / 2⌋, ?_, Or.inl ?_⟩
    · rw [abs_le]
      constructor <;> linarith
    · simp only [parseFloatToFixed2, hbig, if_false, hneg]

theorem toDouble_cent : toDouble (1 / 100) = .fin (5764607523034235 / 576460752303423488) := by
  rw [toDouble_eq_fin_pos (1 / 100) (-7) 5764607523034235 (by norm_num) (by norm_num)
    (by norm_num) (by norm_num) (roundHalfEven_eq _ _ (by norm_num [abs_lt]))]
  norm_num

theorem toDouble_two_cents :
    toDouble (1 / 50) = .fin (5764607523034235 / 288230376151711744) := by
  rw [toDouble_eq_fin_pos (1 / 50) (-6) 5764607523034235 (by norm_num) (by norm_num)
    (by norm_num) (by norm_num) (roundHalfEven_eq _ _ (by norm_num [abs_lt]))]
  norm_num

theorem addDouble_zero_cent :
    JSNum.addDouble (.fin 0) (.fin (5764607523034235 / 576460752303423488)) =
      .fin (5764607523034235 / 576460752303423488) := by
  show toDouble (0 + 5764607523034235 / 576460752303423488) = _
  rw [toDouble_eq_fin_pos _ (-7) 5764607523034235 (by norm_num) (by norm_num)
    (by norm_num) (by norm_num) (roundHalfEven_eq _ _ (by norm_num [abs_lt]))]
  norm_num

/-- The double sum of the doubles of 0.01 and 0.02: the exact sum lies half-way
between two doubles and is rounded to the even one, the double just below
0.03. -/
theorem addDouble_cents :
    JSNum.addDouble (.fin (5764607523034235 / 576460752303423488))
      (.fin (5764607523034235 / 288230376151711744)) =
      .fin (1080863910568919 / 36028797018963968) := by
  show toDouble (5764607523034235 / 576460752303423488 +
    5764607523034235 / 288230376151711744) = _
  rw [toDouble_eq_fin_pos _ (-6) 8646911284551352 (by norm_num) (by norm_num)
    (by norm_num) (by norm_num) (roundHalfEven_tie _ _ (by norm_num [abs_eq]) (by decide))]
  norm_num

theorem divDouble_cents :
    JSNum.divDouble (.fin (1080863910568919 / 36028797018963968)) (.fin 2) =
      .fin (1080863910568919 / 72057594037927936) := by
  have hdiv : JSNum.div (.fin (1080863910568919 / 36028797018963968)) (.fin 2) =
      .fin (1080863910568919 / 36028797018963968 / 2) := by
    simp [JSNum.div, JSNum.isInf, JSNum.isZero, JSNum.isNeg, JSNum.toRat]
  simp only [JSNum.divDouble, hdiv]
  rw [toDouble_eq_fin_pos _ (-7) 8646911284551352 (by norm_num) (by norm_num)
    (by norm_num) (by norm_num) (roundHalfEven_eq _ _ (by norm_num [abs_lt]))]
  norm_num

theorem toDouble_9_99 : toDouble (999 / 100) = .fin (5623870034678907 / 562949953421312) := by
  rw [toDouble_eq_fin_pos (999 / 100) 3 5623870034678907 (by norm_num) (by norm_num)
    (by norm_num) (by norm_num) (roundHalfEven_eq _ _ (by norm_num [abs_lt]))]
  norm_num

theorem toDouble_19_99 : toDouble (1999 / 100) = .fin (5626684784446013 / 281474976710656) := by
  rw [toDouble_eq_fin_pos (1999 / 100) 4 5626684784446013 (by norm_num) (by norm_num)
    (by norm_num) (by norm_num) (roundHalfEven_eq _ _ (by norm_num [abs_lt]))]
  norm_num

theorem addDouble_zero_9_99 :
    JSNum.addDouble (.fin 0) (.fin (5623870034678907 / 562949953421312)) =
      .fin (5623870034678907 / 562949953421312) := by
  show toDouble (0 + 5623870034678907 / 562949953421312) = _
  rw [toDouble_eq_fin_pos _ 3 5623870034678907 (by norm_num) (by norm_num)
    (by norm_num) (by norm_num) (roundHalfEven_eq _ _ (by norm_num [abs_lt]))]
  norm_num

/-- The double sum of the doubles of 9.99 and 19.99, the double just below
29.98. -/
theorem addDouble_test_prices :
    JSNum.addDouble (.fin (5623870034678907 / 562949953421312))
      (.fin (5626684784446013 / 281474976710656)) =
      .fin (4219309900892733 / 140737488355328) := by
  show toDouble (5623870034678907 / 562949953421312 + 5626684784446013 / 281474976710656) = _
  rw [toDouble_eq_fin_pos _ 4 8438619801785466 (by norm_num) (by norm_num)
    (by norm_num) (by norm_num) (roundHalfEven_tie _ _ (by norm_num [abs_eq]) (by decide))]
  norm_num

theorem divDouble_test_prices :
    JSNum.divDouble (.fin (4219309900892733 / 140737488355328)) (.fin 2) =
      .fin (4219309900892733 / 281474976710656) := by
  have hdiv : JSNum.div (.fin (4219309900892733 / 140737488355328)) (.fin 2) =
      .fin (4219309900892733 / 140737488355328 / 2) := by
    simp [JSNum.div, JSNum.isInf, JSNum.isZero, JSNum.isNeg, JSNum.toRat]
  simp only [JSNum.divDouble, hdiv]
  rw [toDouble_eq_fin_pos _ 3 8438619801785466 (by norm_num) (by norm_num)
    (by norm_num) (by norm_num) (roundHalfEven_eq _ _ (by norm_num [abs_lt]))]
  norm_num

/-- The record `calculateStats` returns, with the mean and the median written
with the reference sum. -/
theorem calculateStats_fields (items : List Item) (hne : items ≠ []) :
    ∃ s, calculateStats items = some s ∧
      s.count = items.length ∧
      s.min = (sortedPrices items).getD 0 0 ∧
      s.max = (sortedPrices items).getD ((sortedPrices items).length - 1) 0 ∧
      s.average = parseFloatToFixed2
        (JSNum.divDouble (specDoubleSum (sortedPrices items)) (.fin (items.length : ℚ))) ∧
      s.median = parseFloatToFixed2
        (if (sortedPrices items).length % 2 = 0
          then JSNum.divDouble
            (JSNum.addDouble
              (toDouble ((sortedPrices items).getD ((sortedPrices items).length / 2 - 1) 0))
              (toDouble ((sortedPrices items).getD ((sortedPrices items).length / 2) 0)))
            (.fin 2)
          else toDouble ((sortedPrices items).getD ((sortedPrices items).length / 2) 0)) := by
  have hlen : items.length ≠ 0 := by
    intro h; exact hne (List.length_eq_zero.mp h)
  refine ⟨_, by simp only [calculateStats, hlen, if_false]; rfl, rfl, rfl, rfl, ?_, rfl⟩
  show parseFloatToFixed2 (JSNum.divDouble _ (.fin ((sortedPrices items).length : ℚ))) = _
  rw [sortedPrices_length]
  rfl

theorem toDouble_close (x : ℚ) (K : Int) (hK1 : -1022 ≤ K) (hK2 : K ≤ 1023)
    (hx : |x| ≤ (2 : ℚ) ^ K) :
    (toDouble x).isFinite = true ∧ |(toDouble x).toRat - x| ≤ (2 : ℚ) ^ (K - 53) := by
  have hε : (0 : ℚ) < (2 : ℚ) ^ (K - 53) := by positivity
  by_cases hx0 : x = 0
  · subst hx0
    simp only [toDouble, if_true, JSNum.isFinite, JSNum.toRat, sub_zero, abs_zero, true_and]
    exact hε.le
  · have hpos : 0 < |x| := abs_pos.mpr hx0
    have hlog : Int.log 2 |x| ≤ K := by
      have h1 : (2 : ℚ) ^ (Int.log 2 |x|) ≤ |x| := Int.zpow_log_le_self (by norm_num) hpos
      have h2 : (2 : ℚ) ^ (Int.log 2 |x|) ≤ (2 : ℚ) ^ K := le_trans h1 hx
      exact (zpow_le_zpow_iff_right₀ (by norm_num : (1 : ℚ) < 2)).mp h2
    have he : max (Int.log 2 |x|) (-1022) ≤ K := max_le hlog hK1
    simp only [toDouble, hx0, if_false]
    generalize max (Int.log 2 |x|) (-1022) = e at he ⊢
    have hu : (0 : ℚ) < (2 : ℚ) ^ (e - 52) := by positivity
    have hclose := roundHalfEven_close (x / (2 : ℚ) ^ (e - 52))
    have hhalf : (2 : ℚ) ^ (e - 52) / 2 = (2 : ℚ) ^ (e - 53) := by
      have : e - 52 = (e - 53) + 1 := by ring
      rw [this, zpow_add_one₀ (by norm_num : (2 : ℚ) ≠ 0)]
      ring
    have herr : |(roundHalfEven (x / (2 : ℚ) ^ (e - 52)) : ℚ) * (2 : ℚ) ^ (e - 52) - x| ≤
        (2 : ℚ) ^ (K - 53) := by
      have h1 : (roundHalfEven (x / (2 : ℚ) ^ (e - 52)) : ℚ) * (2 : ℚ) ^ (e - 52) - x =
          ((roundHalfEven (x / (2 : ℚ) ^ (e - 52)) : ℚ) - x / (2 : ℚ) ^ (e - 52)) *
            (2 : ℚ) ^ (e - 52) := by
        field_simp
      rw [h1, abs_mul, abs_of_pos hu]
      calc |(roundHalfEven (x / (2 : ℚ) ^ (e - 52)) : ℚ) - x / (2 : ℚ) ^ (e - 52)| *
            (2 : ℚ) ^ (e - 52) ≤ 1 / 2 * (2 : ℚ) ^ (e - 52) :=
            mul_le_mul_of_nonneg_right hclose hu.le
        _ = (2 : ℚ) ^ (e - 53) := by rw [← hhalf]; ring
        _ ≤ (2 : ℚ) ^ (K - 53) := zpow_le_zpow_right₀ (by norm_num) (by omega)
    have hylt : ¬ ((2 : ℚ) ^ 1024 ≤
        |(roundHalfEven (x / (2 : ℚ) ^ (e - 52)) : ℚ) * (2 : ℚ) ^ (e - 52)|) := by
      rw [not_le]
      have h1 : |(roundHalfEven (x / (2 : ℚ) ^ (e - 52)) : ℚ) * (2 : ℚ) ^ (e - 52)| ≤
          |x| + (2 : ℚ) ^ (K - 53) := by
        have := abs_sub_abs_le_abs_sub
          ((roundHalfEven (x / (2 : ℚ) ^ (e - 52)) : ℚ) * (2 : ℚ) ^ (e - 52)) x
        linarith
      have h2 : (2 : ℚ) ^ (K - 53) < (2 : ℚ) ^ K :=
        zpow_lt_zpow_right₀ (by norm_num) (by omega)
      have h3 : (2 : ℚ) ^ K + (2 : ℚ) ^ K = (2 : ℚ) ^ (K + 1) := by
        rw [zpow_add_one₀ (by norm_num : (2 : ℚ) ≠ 0)]; ring
      have h4 : (2 : ℚ) ^ (K + 1) ≤ (2 : ℚ) ^ (1024 : Int) :=
        zpow_le_zpow_right₀ (by norm_num) (by omega)
      have h5 : (2 : ℚ) ^ (1024 : Int) = (2 : ℚ) ^ 1024 := by simp only [zpow_ofNat]
      linarith
    rw [if_neg hylt]
    split_ifs with hy0
    · rw [hy0] at herr
      have hz : (JSNum.signedZero (decide (x < 0))).toRat = 0 := by
        cases decide (x < 0) <;> rfl
      refine ⟨by cases decide (x < 0) <;> rfl, ?_⟩
      rw [hz]
      exact herr
    · exact ⟨rfl, herr⟩

theorem addDouble_close (a b : JSNum) (K : Int) (hK1 : -1022 ≤ K) (hK2 : K ≤ 1023)
    (ha : a.isFinite = true) (hb : b.isFinite = true)
    (hab : |a.toRat + b.toRat| ≤ (2 : ℚ) ^ K) :
    (JSNum.addDouble a b).isFinite = true ∧
      |(JSNum.addDouble a b).toRat - (a.toRat + b.toRat)| ≤ (2 : ℚ) ^ (K - 53) := by
  have hε : (0 : ℚ) ≤ (2 : ℚ) ^ (K - 53) := by positivity
  cases a with
  | nan => simp [JSNum.isFinite] at ha
  | posInf => simp [JSNum.isFinite] at ha
  | negInf => simp [JSNum.isFinite] at ha
  | negZero =>
    cases b with
    | nan => simp [JSNum.isFinite] at hb
    | posInf => simp [JSNum.isFinite] at hb
    | negInf => simp [JSNum.isFinite] at hb
    | negZero => simpa [JSNum.addDouble, JSNum.isFinite, JSNum.toRat] using hε
    | fin q => simpa [JSNum.addDouble, JSNum.isFinite, JSNum.toRat] using hε
  | fin p =>
    cases b with
    | nan => simp [JSNum.isFinite] at hb
    | posInf => simp [JSNum.isFinite] at hb
    | negInf => simp [JSNum.isFinite] at hb
    | negZero => simpa [JSNum.addDouble, JSNum.isFinite, JSNum.toRat] using hε
    | fin q => exact toDouble_close (p + q) K hK1 hK2 hab

theorem divDouble_close (a : JSNum) (n : Nat) (K : Int) (hK1 : -1022 ≤ K) (hK2 : K ≤ 1023)
    (ha : a.isFinite = true) (hn : 1 ≤ n) (hab : |a.toRat| ≤ (2 : ℚ) ^ K) :
    (JSNum.divDouble a (.fin (n : ℚ))).isFinite = true ∧
      |(JSNum.divDouble a (.fin (n : ℚ))).toRat - a.toRat / n| ≤ (2 : ℚ) ^ (K - 53) := by
  have hε : (0 : ℚ) ≤ (2 : ℚ) ^ (K - 53) := by positivity
  have hn0 : (n : ℚ) ≠ 0 := by
    have : (1 : ℚ) ≤ n := by exact_mod_cast hn
    linarith
  have hn1 : (1 : ℚ) ≤ n := by exact_mod_cast hn
  cases a with
  | nan => simp [JSNum.isFinite] at ha
  | posInf => simp [JSNum.isFinite] at ha
  | negInf => simp [JSNum.isFinite] at ha
  | negZero =>
    have : JSNum.divDouble .negZero (.fin (n : ℚ)) = .negZero := by
      simp [JSNum.divDouble, JSNum.div, JSNum.isInf, JSNum.isZero, JSNum.isNeg, hn0,
        JSNum.signedZero]
    rw [this]
    simpa [JSNum.isFinite, JSNum.toRat] using hε
  | fin q =>
    by_cases hq : q = 0
    · subst hq
      have hnn : ¬ ((n : ℚ) < 0) := by linarith
      have : JSNum.divDouble (.fin 0) (.fin (n : ℚ)) = .fin 0 := by
        simp [JSNum.divDouble, JSNum.div, JSNum.isInf, JSNum.isZero, JSNum.isNeg, hn0,
          JSNum.signedZero, hnn, toDouble]
      rw [this]
      simpa [JSNum.isFinite, JSNum.toRat] using hε
    · have : JSNum.divDouble (.fin q) (.fin (n : ℚ)) = toDouble (q / n) := by
        simp [JSNum.divDouble, JSNum.div, JSNum.isInf, JSNum.isZero, JSNum.isNeg, hn0, hq,
          JSNum.toRat]
      rw [this]
      refine toDouble_close (q / n) K hK1 hK2 ?_
      simp only [JSNum.toRat] at hab
      rw [abs_div, abs_of_pos (by linarith : (0 : ℚ) < n)]
      calc |q| / n ≤ |q| / 1 := div_le_div_of_nonneg_left (abs_nonneg q) one_pos hn1
        _ = |q| := div_one _
        _ ≤ (2 : ℚ) ^ K := hab

theorem foldl_addDouble_close (K : Int) (hK1 : -1022 ≤ K) (hK2 : K ≤ 1023) (ps : List ℚ) :
    ∀ (acc : JSNum) (A : ℚ) (c : Nat), acc.isFinite = true →
      |acc.toRat - A| ≤ c * (2 : ℚ) ^ (K - 53) →
      |A| + (ps.map (fun p => |p|)).sum + (c + 2 * ps.length) * (2 : ℚ) ^ (K - 53) ≤ (2 : ℚ) ^ K →
      (ps.foldl (fun acc p => JSNum.addDouble acc (toDouble p)) acc).isFinite = true ∧
      |(ps.foldl (fun acc p => JSNum.addDouble acc (toDouble p)) acc).toRat - (A + ps.sum)| ≤
        (c + 2 * ps.length) * (2 : ℚ) ^ (K - 53) := by
  have hε : (0 : ℚ) < (2 : ℚ) ^ (K - 53) := by positivity
  induction ps with
  | nil =>
    intro acc A c hfin hacc _
    simpa using ⟨hfin, hacc⟩
  | cons p ps ih =>
    intro acc A c hfin hacc hH
    simp only [List.map_cons, List.sum_cons, List.length_cons, Nat.cast_add, Nat.cast_one,
      List.foldl_cons] at hH ⊢
    have hsum_nonneg : 0 ≤ (ps.map (fun p => |p|)).sum :=
      List.sum_nonneg (by intro x hx; obtain ⟨y, -, rfl⟩ := List.mem_map.mp hx; exact abs_nonneg y)
    have hc : (0 : ℚ) ≤ c := Nat.cast_nonneg c
    have hl : (0 : ℚ) ≤ ps.length := Nat.cast_nonneg _
    have hA := abs_nonneg A
    have hp := abs_nonneg p
    have hcε : 0 ≤ (c : ℚ) * (2 : ℚ) ^ (K - 53) := mul_nonneg hc hε.le
    have hlε : 0 ≤ (ps.length : ℚ) * (2 : ℚ) ^ (K - 53) := mul_nonneg hl hε.le
    have hpK : |p| ≤ (2 : ℚ) ^ K := by nlinarith
    obtain ⟨hdfin, hderr⟩ := toDouble_close p K hK1 hK2 hpK
    have hs1 : |acc.toRat + (toDouble p).toRat - (A + p)| ≤ (c + 1) * (2 : ℚ) ^ (K - 53) := by
      have : acc.toRat + (toDouble p).toRat - (A + p) =
          (acc.toRat - A) + ((toDouble p).toRat - p) := by ring
      rw [this]
      calc |(acc.toRat - A) + ((toDouble p).toRat - p)|
          ≤ |acc.toRat - A| + |(toDouble p).toRat - p| := abs_add _ _
        _ ≤ c * (2 : ℚ) ^ (K - 53) + (2 : ℚ) ^ (K - 53) := add_le_add hacc hderr
        _ = (c + 1) * (2 : ℚ) ^ (K - 53) := by ring
    have hs2 : |acc.toRat + (toDouble p).toRat| ≤ (2 : ℚ) ^ K := by
      have h1 : |acc.toRat + (toDouble p).toRat| ≤
          |A + p| + |acc.toRat + (toDouble p).toRat - (A + p)| := by
        have := abs_add (A + p) (acc.toRat + (toDouble p).toRat - (A + p))
        simpa using this
      have h2 : |A + p| ≤ |A| + |p| := abs_add _ _
      nlinarith
    obtain ⟨hafin, haerr⟩ := addDouble_close acc (toDouble p) K hK1 hK2 hfin hdfin hs2
    have hacc' : |(JSNum.addDouble acc (toDouble p)).toRat - (A + p)| ≤
        ((c + 2 : Nat) : ℚ) * (2 : ℚ) ^ (K - 53) := by
      have : (JSNum.addDouble acc (toDouble p)).toRat - (A + p) =
          ((JSNum.addDouble acc (toDouble p)).toRat - (acc.toRat + (toDouble p).toRat)) +
            (acc.toRat + (toDouble p).toRat - (A + p)) := by ring
      rw [this]
      push_cast
      calc _ ≤ |(JSNum.addDouble acc (toDouble p)).toRat - (acc.toRat + (toDouble p).toRat)| +
            |acc.toRat + (toDouble p).toRat - (A + p)| := abs_add _ _
        _ ≤ (2 : ℚ) ^ (K - 53) + (c + 1) * (2 : ℚ) ^ (K - 53) := add_le_add haerr hs1
        _ = (c + 2) * (2 : ℚ) ^ (K - 53) := by ring
    have hH' : |A + p| + (ps.map (fun p => |p|)).sum +
        (((c + 2 : Nat) : ℚ) + 2 * ps.length) * (2 : ℚ) ^ (K - 53) ≤ (2 : ℚ) ^ K := by
      have h2 : |A + p| ≤ |A| + |p| := abs_add _ _
      push_cast
      nlinarith
    obtain ⟨hr1, hr2⟩ := ih (JSNum.addDouble acc (toDouble p)) (A + p) (c + 2) hafin hacc' hH'
    refine ⟨hr1, ?_⟩
    have e1 : A + (p + ps.sum) = A + p + ps.sum := by ring
    have e2 : ((c : ℚ) + 2 * ((ps.length : ℚ) + 1)) = (((c + 2 : Nat) : ℚ) + 2 * ps.length) := by
      push_cast; ring
    rw [e1, e2]
    exact hr2

theorem sum_abs_le (l : List ℚ) (P : ℚ) (h : ∀ p ∈ l, |p| ≤ P) :
    (l.map (fun p => |p|)).sum ≤ l.length * P := by
  induction l with
  | nil => simp
  | cons a l ih =>
    simp only [List.map_cons, List.sum_cons, List.length_cons, Nat.cast_add, Nat.cast_one]
    have h1 := h a (by simp)
    have h2 := ih (fun p hp => h p (by simp [hp]))
    linarith

theorem abs_sum_le_sum_abs (l : List ℚ) : |l.sum| ≤ (l.map (fun p => |p|)).sum := by
  induction l with
  | nil => simp
  | cons a l ih =>
    simp only [List.map_cons, List.sum_cons]
    exact le_trans (abs_add _ _) (by linarith)

theorem specSorted_length (items : List Item) : (specSorted items).length = items.length := by
  rw [← sortedPrices_eq_specSorted, sortedPrices_length]

theorem mem_specSorted_abs_le (items : List Item) (P : ℚ)
    (hP : ∀ item ∈ items, |item.price| ≤ P) (p : ℚ) (hp : p ∈ specSorted items) : |p| ≤ P := by
  rw [← sortedPrices_eq_specSorted] at hp
  obtain ⟨item, hi, rfl⟩ := (mem_sortedPrices items p).mp hp
  exact hP item hi

/-- The double mean is within three roundings of the exact mean: with every
price at most `P` in magnitude and `count * (P + 2 * 2^(K-53))` at most `2^K`,
no sum exceeds `2^K` and each of the conversions, additions and the division
is off by at most `2^(K-53)`. -/
theorem specDoubleMean_close (items : List Item) (hne : items ≠ []) (K : Int) (P : ℚ)
    (hK1 : -1022 ≤ K) (hK2 : K ≤ 1023) (hP : ∀ item ∈ items, |item.price| ≤ P)
    (hH : (items.length : ℚ) * (P + 2 * (2 : ℚ) ^ (K - 53)) ≤ (2 : ℚ) ^ K) :
    (specDoubleMean items).isFinite = true ∧
      |(specDoubleMean items).toRat - specMean items| ≤ 3 * (2 : ℚ) ^ (K - 53) ∧
      |(specDoubleMean items).toRat| ≤ (2 : ℚ) ^ K + (2 : ℚ) ^ (K - 53) := by
  have hε : (0 : ℚ) < (2 : ℚ) ^ (K - 53) := by positivity
  have hlen : 1 ≤ items.length := by
    cases items with
    | nil => exact absurd rfl hne
    | cons a l => simp
  have hn1 : (1 : ℚ) ≤ items.length := by exact_mod_cast hlen
  have hn0 : (0 : ℚ) < items.length := by linarith
  have hsl := specSorted_length items
  have habs : ((specSorted items).map (fun p => |p|)).sum ≤ items.length * P := by
    have := sum_abs_le (specSorted items) P (mem_specSorted_abs_le items P hP)
    rwa [hsl] at this
  have hsum : (specSorted items).sum = (items.map (fun item => item.price)).sum := by
    rw [← sortedPrices_eq_specSorted]
    exact (sortedPrices_perm items).sum_eq
  obtain ⟨hSfin, hSerr⟩ := foldl_addDouble_close K hK1 hK2 (specSorted items) (.fin 0) 0 0 rfl
    (by simp [JSNum.toRat])
    (by
      rw [hsl]
      simp only [abs_zero, zero_add, Nat.cast_zero]
      nlinarith)
  rw [hsl] at hSerr
  simp only [Nat.cast_zero, zero_add] at hSerr
  have hSabs : |(specDoubleSum (specSorted items)).toRat| ≤ (2 : ℚ) ^ K := by
    have h1 : |(specDoubleSum (specSorted items)).toRat| ≤
        |(specSorted items).sum| + |(specDoubleSum (specSorted items)).toRat -
          (specSorted items).sum| := by
      have := abs_add ((specSorted items).sum)
        ((specDoubleSum (specSorted items)).toRat - (specSorted items).sum)
      simpa using this
    have h2 := abs_sum_le_sum_abs (specSorted items)
    have h3 : |(specDoubleSum (specSorted items)).toRat - (specSorted items).sum| ≤
        2 * (items.length : ℚ) * (2 : ℚ) ^ (K - 53) := hSerr
    nlinarith
  obtain ⟨hmfin, hmerr⟩ := divDouble_close (specDoubleSum (specSorted items)) items.length K
    hK1 hK2 hSfin hlen hSabs
  have hquot : |(specDoubleSum (specSorted items)).toRat / items.length - specMean items| ≤
      2 * (2 : ℚ) ^ (K - 53) := by
    have : (specDoubleSum (specSorted items)).toRat / items.length - specMean items =
        ((specDoubleSum (specSorted items)).toRat - (specSorted items).sum) / items.length := by
      rw [specMean, ← hsum]; ring
    rw [this, abs_div, abs_of_pos hn0, div_le_iff₀ hn0]
    calc _ ≤ 2 * (items.length : ℚ) * (2 : ℚ) ^ (K - 53) := hSerr
      _ = 2 * (2 : ℚ) ^ (K - 53) * items.length := by ring
  refine ⟨hmfin, ?_, ?_⟩
  · have : (specDoubleMean items).toRat - specMean items =
        ((specDoubleMean items).toRat - (specDoubleSum (specSorted items)).toRat / items.length) +
          ((specDoubleSum (specSorted items)).toRat / items.length - specMean items) := by ring
    rw [this]
    calc _ ≤ |(specDoubleMean items).toRat -
            (specDoubleSum (specSorted items)).toRat / items.length| +
          |(specDoubleSum (specSorted items)).toRat / items.length - specMean items| :=
          abs_add _ _
      _ ≤ (2 : ℚ) ^ (K - 53) + 2 * (2 : ℚ) ^ (K - 53) := add_le_add hmerr hquot
      _ = 3 * (2 : ℚ) ^ (K - 53) := by ring
  · have h1 : |(specDoubleMean items).toRat| ≤
        |(specDoubleSum (specSorted items)).toRat / items.length| +
          |(specDoubleMean items).toRat -
            (specDoubleSum (specSorted items)).toRat / items.length| := by
      have := abs_add ((specDoubleSum (specSorted items)).toRat / items.length)
        ((specDoubleMean items).toRat -
          (specDoubleSum (specSorted items)).toRat / items.length)
      simpa using this
    have h2 : |(specDoubleSum (specSorted items)).toRat / items.length| ≤ (2 : ℚ) ^ K := by
      rw [abs_div, abs_of_pos hn0]
      calc |(specDoubleSum (specSorted items)).toRat| / items.length
          ≤ |(specDoubleSum (specSorted items)).toRat| / 1 :=
            div_le_div_of_nonneg_left (abs_nonneg _) one_pos hn1
        _ = |(specDoubleSum (specSorted items)).toRat| := div_one _
        _ ≤ (2 : ℚ) ^ K := hSabs
    have h3 : |(specDoubleMean items).toRat -
        (specDoubleSum (specSorted items)).toRat / items.length| ≤ (2 : ℚ) ^ (K - 53) := hmerr
    linarith

theorem specDoubleMedian_close (items : List Item) (hne : items ≠ []) (K : Int) (P : ℚ)
    (hK1 : -1022 ≤ K) (hK2 : K ≤ 1023) (hP : ∀ item ∈ items, |item.price| ≤ P)
    (hH : (items.length : ℚ) * (P + 2 * (2 : ℚ) ^ (K - 53)) ≤ (2 : ℚ) ^ K) :
    (specDoubleMedian items).isFinite = true ∧
      |(specDoubleMedian items).toRat - specMedian items| ≤ 3 * (2 : ℚ) ^ (K - 53) ∧
      |(specDoubleMedian items).toRat| ≤ (2 : ℚ) ^ K + (2 : ℚ) ^ (K - 53) := by
  have hε : (0 : ℚ) < (2 : ℚ) ^ (K - 53) := by positivity
  have hlen : 1 ≤ items.length := by
    cases items with
    | nil => exact absurd rfl hne
    | cons a l => simp
  have hn1 : (1 : ℚ) ≤ items.length := by exact_mod_cast hlen
  have hsl := specSorted_length items
  have hP0 : 0 ≤ P := by
    cases items with
    | nil => exact absurd rfl hne
    | cons a l => exact le_trans (abs_nonneg _) (hP a (by simp))
  have hPK : P + 2 * (2 : ℚ) ^ (K - 53) ≤ (2 : ℚ) ^ K := by nlinarith
  have hmem : ∀ i, i < (specSorted items).length → |(specSorted items).getD i 0| ≤ P := by
    intro i hi
    exact mem_specSorted_abs_le items P hP _ (getD_mem_of_lt _ i hi)
  simp only [specDoubleMedian, specMedian]
  by_cases hodd : (specSorted items).length % 2 = 1
  · simp only [hodd, if_true]
    have ha := hmem ((specSorted items).length / 2) (by omega)
    obtain ⟨hfin, herr⟩ := toDouble_close ((specSorted items).getD ((specSorted items).length / 2) 0)
      K hK1 hK2 (by linarith)
    refine ⟨hfin, by linarith, ?_⟩
    have h1 : |(toDouble ((specSorted items).getD ((specSorted items).length / 2) 0)).toRat| ≤
        |(specSorted items).getD ((specSorted items).length / 2) 0| +
          |(toDouble ((specSorted items).getD ((specSorted items).length / 2) 0)).toRat -
            (specSorted items).getD ((specSorted items).length / 2) 0| := by
      have := abs_add ((specSorted items).getD ((specSorted items).length / 2) 0)
        ((toDouble ((specSorted items).getD ((specSorted items).length / 2) 0)).toRat -
          (specSorted items).getD ((specSorted items).length / 2) 0)
      simpa using this
    linarith
  · simp only [hodd, if_false]
    have hn2 : 2 ≤ items.length := by omega
    have hn2' : (2 : ℚ) ≤ items.length := by exact_mod_cast hn2
    have h2PK : 2 * P + 4 * (2 : ℚ) ^ (K - 53) ≤ (2 : ℚ) ^ K := by nlinarith
    have ha := hmem ((specSorted items).length / 2 - 1) (by omega)
    have hb := hmem ((specSorted items).length / 2) (by omega)
    generalize (specSorted items).getD ((specSorted items).length / 2 - 1) 0 = a at ha ⊢
    generalize (specSorted items).getD ((specSorted items).length / 2) 0 = b at hb ⊢
    obtain ⟨hafin, haerr⟩ := toDouble_close a K hK1 hK2 (by linarith)
    obtain ⟨hbfin, hberr⟩ := toDouble_close b K hK1 hK2 (by linarith)
    have hab : |(toDouble a).toRat + (toDouble b).toRat - (a + b)| ≤
        2 * (2 : ℚ) ^ (K - 53) := by
      have : (toDouble a).toRat + (toDouble b).toRat - (a + b) =
          ((toDouble a).toRat - a) + ((toDouble b).toRat - b) := by ring
      rw [this]
      exact le_trans (abs_add _ _) (by linarith)
    have hab2 : |a + b| ≤ 2 * P := le_trans (abs_add _ _) (by linarith)
    have hsabs : |(toDouble a).toRat + (toDouble b).toRat| ≤ (2 : ℚ) ^ K := by
      have := abs_add (a + b) ((toDouble a).toRat + (toDouble b).toRat - (a + b))
      have h : a + b + ((toDouble a).toRat + (toDouble b).toRat - (a + b)) =
          (toDouble a).toRat + (toDouble b).toRat := by ring
      rw [h] at this
      linarith
    obtain ⟨hsfin, hserr⟩ := addDouble_close (toDouble a) (toDouble b) K hK1 hK2 hafin hbfin hsabs
    generalize JSNum.addDouble (toDouble a) (toDouble b) = s at hsfin hserr ⊢
    have hs3 : |s.toRat - (a + b)| ≤ 3 * (2 : ℚ) ^ (K - 53) := by
      have : s.toRat - (a + b) = (s.toRat - ((toDouble a).toRat + (toDouble b).toRat)) +
          ((toDouble a).toRat + (toDouble b).toRat - (a + b)) := by ring
      rw [this]
      exact le_trans (abs_add _ _) (by linarith)
    have hsK : |s.toRat| ≤ (2 : ℚ) ^ K := by
      have := abs_add (a + b) (s.toRat - (a + b))
      have h : a + b + (s.toRat - (a + b)) = s.toRat := by ring
      rw [h] at this
      linarith
    have hdiv := divDouble_close s 2 K hK1 hK2 hsfin (by decide) hsK
    simp only [Nat.cast_ofNat] at hdiv
    obtain ⟨hmfin, hmerr⟩ := hdiv
    generalize JSNum.divDouble s (.fin 2) = m at hmfin hmerr ⊢
    have hhalf : |s.toRat / 2 - (a + b) / 2| ≤ 3 / 2 * (2 : ℚ) ^ (K - 53) := by
      have : s.toRat / 2 - (a + b) / 2 = (s.toRat - (a + b)) / 2 := by ring
      rw [this, abs_div, abs_of_pos (by norm_num : (0 : ℚ) < 2)]
      linarith
    refine ⟨hmfin, ?_, ?_⟩
    · have : m.toRat - (a + b) / 2 = (m.toRat - s.toRat / 2) + (s.toRat / 2 - (a + b) / 2) := by
        ring
      rw [this]
      exact le_trans (abs_add _ _) (by linarith)
    · have := abs_add (s.toRat / 2) (m.toRat - s.toRat / 2)
      have h : s.toRat / 2 + (m.toRat - s.toRat / 2) = m.toRat := by ring
      rw [h] at this
      have h2 : |s.toRat / 2| ≤ (2 : ℚ) ^ K := by
        rw [abs_div, abs_of_pos (by norm_num : (0 : ℚ) < 2)]
        have := abs_nonneg s.toRat
        linarith
      linarith

theorem toFixed2_close (v : JSNum) (x δ : ℚ) (hfin : v.isFinite = true)
    (hclose : |v.toRat - x| ≤ δ) (hbig : |v.toRat| < 10 ^ 21) :
    ∃ k : Int, |(k : ℚ) / 100 - x| ≤ 1 / 200 + δ ∧
      (parseFloatToFixed2 v = toDouble ((k : ℚ) / 100) ∨
        (k = 0 ∧ parseFloatToFixed2 v = .negZero)) := by
  cases v with
  | nan => simp [JSNum.isFinite] at hfin
  | posInf => simp [JSNum.isFinite] at hfin
  | negInf => simp [JSNum.isFinite] at hfin
  | negZero =>
    refine ⟨0, ?_, Or.inl (by simp [parseFloatToFixed2, toDouble])⟩
    simp only [JSNum.toRat] at hclose
    have : |(((0 : Int) : ℚ)) / 100 - x| = |0 - x| := by norm_num
    rw [this]
    linarith
  | fin d =>
    simp only [JSNum.toRat] at hclose hbig
    obtain ⟨k, hk, hr⟩ := parseFloatToFixed2_fin d hbig
    refine ⟨k, ?_, ?_⟩
    · have : (k : ℚ) / 100 - x = ((k : ℚ) / 100 - d) + (d - x) := by ring
      rw [this]
      exact le_trans (abs_add _ _) (by linarith)
    · rcases hr with h | ⟨h1, -, h3⟩
      · exact Or.inl h
      · exact Or.inr ⟨h1, h3⟩

/-- C4 (as stated, refuted): for the prices 0.01 and 0.02 the arithmetic mean
and the median are both 0.015, which rounded to 2 decimals is 0.02, but
`calculateStats` returns 0.01 for both: the double sum of the two prices,
halved, is a double below 0.015. -/
theorem calculateStats_half_cent_rounds_down :
    specRound2 (specMean centItems) = 2 / 100 ∧
    specRound2 (specMedian centItems) = 2 / 100 ∧
    (∃ s, calculateStats centItems = some s ∧
      s.average = toDouble (1 / 100) ∧ s.median = toDouble (1 / 100)) ∧
    toDouble (1 / 100) ≠ toDouble (2 / 100) := by
  have hsorted : sortedPrices centItems = [1 / 100, 1 / 50] := by
    simp only [sortedPrices, centItems, sampleItem, List.map, List.insertionSort,
      List.orderedInsert]
    norm_num
  have hfix : parseFloatToFixed2 (.fin (1080863910568919 / 72057594037927936)) =
      toDouble (1 / 100) := by
    have hfloor : ⌊|(1080863910568919 / 72057594037927936 : ℚ)| * 100 + 1 / 2⌋ = 1 := by
      rw [abs_of_pos (by norm_num), Int.floor_eq_iff]
      norm_num
    have hbig : ¬ ((10 : ℚ) ^ 21 ≤ |(1080863910568919 / 72057594037927936 : ℚ)|) := by
      rw [abs_of_pos (by norm_num)]; norm_num
    have hpos : ¬ ((1080863910568919 / 72057594037927936 : ℚ) < 0) := by norm_num
    simp only [parseFloatToFixed2, hbig, hpos, if_false, hfloor]
    norm_num
  refine ⟨?_, ?_, ?_, ?_⟩
  · simp only [specMean, centItems, sampleItem, List.map, List.sum_cons, List.sum_nil,
      List.length_cons, List.length_nil, specRound2]
    norm_num [Int.floor_eq_iff]
  · simp only [specMedian, ← sortedPrices_eq_specSorted, hsorted, specRound2,
      List.length_cons, List.length_nil]
    norm_num [Int.floor_eq_iff]
  · obtain ⟨s, hs, -, -, -, havg, hmed⟩ := calculateStats_fields centItems (by simp [centItems])
    refine ⟨s, hs, ?_, ?_⟩
    · rw [havg, hsorted]
      have hmean : JSNum.divDouble (specDoubleSum [1 / 100, 1 / 50])
          (.fin (centItems.length : ℚ)) = .fin (1080863910568919 / 72057594037927936) := by
        have hlen : ((centItems.length : Nat) : ℚ) = 2 := by simp [centItems]
        rw [hlen]
        simp only [specDoubleSum, List.foldl_cons, List.foldl_nil, toDouble_cent,
          toDouble_two_cents, addDouble_zero_cent, addDouble_cents, divDouble_cents]
      rw [hmean, hfix]
    · rw [hmed, hsorted]
      have hmedian :
          (if ([1 / 100, 1 / 50] : List ℚ).length % 2 = 0
            then JSNum.divDouble
              (JSNum.addDouble
                (toDouble (([1 / 100, 1 / 50] : List ℚ).getD
                  (([1 / 100, 1 / 50] : List ℚ).length / 2 - 1) 0))
                (toDouble (([1 / 100, 1 / 50] : List ℚ).getD
                  (([1 / 100, 1 / 50] : List ℚ).length / 2) 0)))
              (.fin 2)
            else toDouble (([1 / 100, 1 / 50] : List ℚ).getD
              (([1 / 100, 1 / 50] : List ℚ).length / 2) 0)) =
          .fin (1080863910568919 / 72057594037927936) := by
        have h1 : (([1 / 100, 1 / 50] : List ℚ).getD
            (([1 / 100, 1 / 50] : List ℚ).length / 2 - 1) 0) = 1 / 100 := rfl
        have h2 : (([1 / 100, 1 / 50] : List ℚ).getD
            (([1 / 100, 1 / 50] : List ℚ).length / 2) 0) = 1 / 50 := rfl
        have h3 : ([1 / 100, 1 / 50] : List ℚ).length % 2 = 0 := rfl
        rw [if_pos h3, h1, h2, toDouble_cent, toDouble_two_cents, addDouble_cents,
          divDouble_cents]
      rw [hmedian, hfix]
  · rw [toDouble_cent]
    have : toDouble (2 / 100) = .fin (5764607523034235 / 288230376151711744) := by
      have h : (2 / 100 : ℚ) = 1 / 50 := by norm_num
      rw [h, toDouble_two_cents]
    rw [this]
    intro h
    simp only [JSNum.fin.injEq] at h
    norm_num at h

/-- C4 (amended): for every collection that is not empty, `calculateStats`
returns `count` the number of items, `min` the least and `max` the greatest
price, and as `average` and `median` the mean and the median of the sorted
prices computed in double arithmetic and then rounded by `toFixed(2)`: a
two-decimal number within 0.005 of that double, and within
`0.005 + 3 * 2^(K-53)` of the exact mean and median when every price is at most
`P` in magnitude and `count * (P + 2 * 2^(K-53))` is at most `2^K` (within
0.005001 for up to 1000 items with prices up to 1000000); for the prices 9.99
and 19.99 the average and the median are both 14.99. -/
theorem calculateStats_eq_reference (items : List Item) (hne : items ≠ []) :
    ∃ s, calculateStats items = some s ∧
      s.count = items.length ∧
      IsLeast {p | ∃ item ∈ items, item.price = p} s.min ∧
      IsGreatest {p | ∃ item ∈ items, item.price = p} s.max ∧
      s.average = parseFloatToFixed2 (specDoubleMean items) ∧
      s.median = parseFloatToFixed2 (specDoubleMedian items) ∧
      (∀ d, specDoubleMean items = .fin d → |d| < 10 ^ 21 →
        ∃ k : Int, |(k : ℚ) / 100 - d| ≤ 1 / 200 ∧
          (s.average = toDouble ((k : ℚ) / 100) ∨
            (k = 0 ∧ d < 0 ∧ s.average = .negZero))) ∧
      (∀ d, specDoubleMedian items = .fin d → |d| < 10 ^ 21 →
        ∃ k : Int, |(k : ℚ) / 100 - d| ≤ 1 / 200 ∧
          (s.median = toDouble ((k : ℚ) / 100) ∨
            (k = 0 ∧ d < 0 ∧ s.median = .negZero))) ∧
      (∀ (K : Int) (P : ℚ), -1022 ≤ K → K ≤ 69 → (∀ item ∈ items, |item.price| ≤ P) →
        (items.length : ℚ) * (P + 2 * (2 : ℚ) ^ (K - 53)) ≤ (2 : ℚ) ^ K →
        (∃ k : Int, |(k : ℚ) / 100 - specMean items| ≤ 1 / 200 + 3 * (2 : ℚ) ^ (K - 53) ∧
          (s.average = toDouble ((k : ℚ) / 100) ∨ (k = 0 ∧ s.average = .negZero))) ∧
        (∃ k : Int, |(k : ℚ) / 100 - specMedian items| ≤ 1 / 200 + 3 * (2 : ℚ) ^ (K - 53) ∧
          (s.median = toDouble ((k : ℚ) / 100) ∨ (k = 0 ∧ s.median = .negZero)))) ∧
      (items.length ≤ 1000 → (∀ item ∈ items, |item.price| ≤ 1000000) →
        (∃ k : Int, |(k : ℚ) / 100 - specMean items| ≤ 1 / 200 + 1 / 1000000 ∧
          (s.average = toDouble ((k : ℚ) / 100) ∨ (k = 0 ∧ s.average = .negZero))) ∧
        (∃ k : Int, |(k : ℚ) / 100 - specMedian items| ≤ 1 / 200 + 1 / 1000000 ∧
          (s.median = toDouble ((k : ℚ) / 100) ∨ (k = 0 ∧ s.median = .negZero)))) ∧
      (items.map (fun item => item.price) = [999 / 100, 1999 / 100] →
        s.average = toDouble (1499 / 100) ∧ s.median = toDouble (1499 / 100)) := by
  have hlen : items.length ≠ 0 := by
    intro h; exact hne (List.length_eq_zero.mp h)
  have hslen := sortedPrices_length items
  have hpos : 0 < (sortedPrices items).length := by omega
  obtain ⟨s, hs, hcount, hmin, hmax, havg, hmed⟩ := calculateStats_fields items hne
  have havg' : s.average = parseFloatToFixed2 (specDoubleMean items) := by
    rw [havg, specDoubleMean, sortedPrices_eq_specSorted]
  have hmed' : s.median = parseFloatToFixed2 (specDoubleMedian items) := by
    rw [hmed]
    congr 1
    simp only [specDoubleMedian, ← sortedPrices_eq_specSorted]
    by_cases hpar : (sortedPrices items).length % 2 = 0
    · have : ¬ ((sortedPrices items).length % 2 = 1) := by omega
      rw [if_pos hpar, if_neg this]
    · have : (sortedPrices items).length % 2 = 1 := by omega
      rw [if_neg hpar, if_pos this]
  have hnear : ∀ (K : Int) (P : ℚ), -1022 ≤ K → K ≤ 69 →
      (∀ item ∈ items, |item.price| ≤ P) →
      (items.length : ℚ) * (P + 2 * (2 : ℚ) ^ (K - 53)) ≤ (2 : ℚ) ^ K →
      (∃ k : Int, |(k : ℚ) / 100 - specMean items| ≤ 1 / 200 + 3 * (2 : ℚ) ^ (K - 53) ∧
        (s.average = toDouble ((k : ℚ) / 100) ∨ (k = 0 ∧ s.average = .negZero))) ∧
      (∃ k : Int, |(k : ℚ) / 100 - specMedian items| ≤ 1 / 200 + 3 * (2 : ℚ) ^ (K - 53) ∧
        (s.median = toDouble ((k : ℚ) / 100) ∨ (k = 0 ∧ s.median = .negZero))) := by
    intro K P hK1 hK2 hP hH
    have hsmall : (2 : ℚ) ^ K + (2 : ℚ) ^ (K - 53) < 10 ^ 21 := by
      have h1 : (2 : ℚ) ^ K ≤ (2 : ℚ) ^ (69 : Int) := zpow_le_zpow_right₀ (by norm_num) hK2
      have h2 : (2 : ℚ) ^ (K - 53) ≤ (2 : ℚ) ^ (16 : Int) :=
        zpow_le_zpow_right₀ (by norm_num) (by omega)
      have h3 : (2 : ℚ) ^ (69 : Int) + (2 : ℚ) ^ (16 : Int) < 10 ^ 21 := by norm_num
      linarith
    obtain ⟨ha1, ha2, ha3⟩ := specDoubleMean_close items hne K P hK1 (by omega) hP hH
    obtain ⟨hm1, hm2, hm3⟩ := specDoubleMedian_close items hne K P hK1 (by omega) hP hH
    rw [havg', hmed']
    exact ⟨toFixed2_close _ _ _ ha1 ha2 (by linarith), toFixed2_close _ _ _ hm1 hm2 (by linarith)⟩
  refine ⟨s, hs, hcount, ?_, ?_, havg', hmed', ?_, ?_, hnear, ?_, ?_⟩
  · rw [hmin]
    refine ⟨?_, ?_⟩
    · exact (mem_sortedPrices items _).mp (getD_mem_of_lt _ 0 hpos)
    · rintro p hp
      exact sorted_getD_zero_le _ (sortedPrices_sorted items) p ((mem_sortedPrices items p).mpr hp)
  · rw [hmax]
    refine ⟨?_, ?_⟩
    · exact (mem_sortedPrices items _).mp (getD_mem_of_lt _ _ (by omega))
    · rintro p hp
      exact sorted_le_getD_last _ (sortedPrices_sorted items) p ((mem_sortedPrices items p).mpr hp)
  · intro d hd hlt
    rw [havg', hd]
    exact parseFloatToFixed2_fin d hlt
  · intro d hd hlt
    rw [hmed', hd]
    exact parseFloatToFixed2_fin d hlt
  · intro hcount1000 hprice
    have hn : (items.length : ℚ) ≤ 1000 := by exact_mod_cast hcount1000
    have hε : (2 : ℚ) ^ ((30 : Int) - 53) = 1 / 8388608 := by norm_num
    obtain ⟨⟨k1, hk1, hr1⟩, ⟨k2, hk2, hr2⟩⟩ := hnear 30 1000000 (by norm_num) (by norm_num)
      hprice (by
        rw [hε]
        have h0 : (0 : ℚ) ≤ items.length := Nat.cast_nonneg _
        norm_num
        nlinarith)
    rw [hε] at hk1 hk2
    exact ⟨⟨k1, le_trans hk1 (by norm_num), hr1⟩, ⟨k2, le_trans hk2 (by norm_num), hr2⟩⟩
  · intro hprices
    have hsorted : sortedPrices items = [999 / 100, 1999 / 100] := by
      simp only [sortedPrices, hprices, List.insertionSort, List.orderedInsert]
      norm_num
    have hlen2 : ((items.length : Nat) : ℚ) = 2 := by
      have : items.length = 2 := by rw [← hslen, hsorted]; rfl
      rw [this]; norm_num
    have hfix : parseFloatToFixed2 (.fin (4219309900892733 / 281474976710656)) =
        toDouble (1499 / 100) := by
      have hfloor : ⌊|(4219309900892733 / 281474976710656 : ℚ)| * 100 + 1 / 2⌋ = 1499 := by
        rw [abs_of_pos (by norm_num), Int.floor_eq_iff]
        norm_num
      have hbig : ¬ ((10 : ℚ) ^ 21 ≤ |(4219309900892733 / 281474976710656 : ℚ)|) := by
        rw [abs_of_pos (by norm_num)]; norm_num
      have hnn : ¬ ((4219309900892733 / 281474976710656 : ℚ) < 0) := by norm_num
      simp only [parseFloatToFixed2, hbig, hnn, if_false, hfloor]
      norm_num
    constructor
    · rw [havg, hsorted, hlen2]
      simp only [specDoubleSum, List.foldl_cons, List.foldl_nil, toDouble_9_99,
        toDouble_19_99, addDouble_zero_9_99, addDouble_test_prices, divDouble_test_prices]
      exact hfix
    · rw [hmed, hsorted]
      have h1 : (([999 / 100, 1999 / 100] : List ℚ).getD
          (([999 / 100, 1999 / 100] : List ℚ).length / 2 - 1) 0) = 999 / 100 := rfl
      have h2 : (([999 / 100, 1999 / 100] : List ℚ).getD
          (([999 / 100, 1999 / 100] : List ℚ).length / 2) 0) = 1999 / 100 := rfl
      have h3 : ([999 / 100, 1999 / 100] : List ℚ).length % 2 = 0 := rfl
      rw [if_pos h3, h1, h2, toDouble_9_99, toDouble_19_99, addDouble_test_prices,
        divDouble_test_prices]
      exact hfix

theorem calculateStats_eq_reference_witness :
    ∃ s, calculateStats twoPriceItems = some s ∧
      s.count = twoPriceItems.length ∧
      IsLeast {p | ∃ item ∈ twoPriceItems, item.price = p} s.min ∧
      IsGreatest {p | ∃ item ∈ twoPriceItems, item.price = p} s.max ∧
      s.average = parseFloatToFixed2 (specDoubleMean twoPriceItems) ∧
      s.median = parseFloatToFixed2 (specDoubleMedian twoPriceItems) ∧
      (∀ d, specDoubleMean twoPriceItems = .fin d → |d| < 10 ^ 21 →
        ∃ k : Int, |(k : ℚ) / 100 - d| ≤ 1 / 200 ∧
          (s.average = toDouble ((k : ℚ) / 100) ∨
            (k = 0 ∧ d < 0 ∧ s.average = .negZero))) ∧
      (∀ d, specDoubleMedian twoPriceItems = .fin d → |d| < 10 ^ 21 →
        ∃ k : Int, |(k : ℚ) / 100 - d| ≤ 1 / 200 ∧
          (s.median = toDouble ((k : ℚ) / 100) ∨
            (k = 0 ∧ d < 0 ∧ s.median = .negZero))) ∧
      (∀ (K : Int) (P : ℚ), -1022 ≤ K → K ≤ 69 → (∀ item ∈ twoPriceItems, |item.price| ≤ P) →
        (twoPriceItems.length : ℚ) * (P + 2 * (2 : ℚ) ^ (K - 53)) ≤ (2 : ℚ) ^ K →
        (∃ k : Int, |(k : ℚ) / 100 - specMean twoPriceItems| ≤ 1 / 200 + 3 * (2 : ℚ) ^ (K - 53) ∧
          (s.average = toDouble ((k : ℚ) / 100) ∨ (k = 0 ∧ s.average = .negZero))) ∧
        (∃ k : Int, |(k : ℚ) / 100 - specMedian twoPriceItems| ≤ 1 / 200 + 3 * (2 : ℚ) ^ (K - 53) ∧
          (s.median = toDouble ((k : ℚ) / 100) ∨ (k = 0 ∧ s.median = .negZero)))) ∧
      (twoPriceItems.length ≤ 1000 → (∀ item ∈ twoPriceItems, |item.price| ≤ 1000000) →
        (∃ k : Int, |(k : ℚ) / 100 - specMean twoPriceItems| ≤ 1 / 200 + 1 / 1000000 ∧
          (s.average = toDouble ((k : ℚ) / 100) ∨ (k = 0 ∧ s.average = .negZero))) ∧
        (∃ k : Int, |(k : ℚ) / 100 - specMedian twoPriceItems| ≤ 1 / 200 + 1 / 1000000 ∧
          (s.median = toDouble ((k : ℚ) / 100) ∨ (k = 0 ∧ s.median = .negZero)))) ∧
      (twoPriceItems.map (fun item => item.price) = [999 / 100, 1999 / 100] →
        s.average = toDouble (1499 / 100) ∧ s.median = toDouble (1499 / 100)) :=
  calculateStats_eq_reference twoPriceItems (by simp [twoPriceItems])

/-! ## The cache and the handlers -/

theorem readData_ok (w w1 : World) (data : List Item) (h : readData w = (.ok data, w1)) :
    w1.file = w.file ∧ w1.cache.data = some data ∧ w1.cache.stats = w.cache.stats ∧
      w1.cache.statsTimestamp = w.cache.statsTimestamp ∧
      (∀ file, w.file = some file →
        (cacheIsFresh w.cache file = true → w.cache.data = some data ∧ w1 = w) ∧
        (cacheIsFresh w.cache file = false → file.contents = some data ∧
          w1.cache.lastModified = file.mtimeMs)) := by
  unfold readData at h
  cases hf : w.file with
  | none => simp [hf] at h
  | some file =>
    simp only [hf] at h
    cases hd : w.cache.data with
    | none =>
      simp only [hd] at h
      cases hc : file.contents with
      | none => simp [hc] at h
      | some d =>
        simp only [hc, Prod.mk.injEq, Except.ok.injEq] at h
        obtain ⟨rfl, rfl⟩ := h
        refine ⟨rfl, rfl, rfl, rfl, ?_⟩
        intro file' hfile'
        cases hfile'
        simp [cacheIsFresh, hd, hc]
    | some cached =>
      simp only [hd] at h
      cases hfresh : cacheIsFresh w.cache file with
      | true =>
        simp only [hfresh, Prod.mk.injEq, Except.ok.injEq] at h
        obtain ⟨rfl, rfl⟩ := h
        refine ⟨hf, hd, rfl, rfl, ?_⟩
        intro file' hfile'
        cases hfile'
        simp [hfresh, hd]
      | false =>
        simp only [hfresh] at h
        cases hc : file.contents with
        | none => simp [hc] at h
        | some d =>
          simp only [hc, Prod.mk.injEq, Except.ok.injEq] at h
          obtain ⟨rfl, rfl⟩ := h
          refine ⟨rfl, rfl, rfl, rfl, ?_⟩
          intro file' hfile'
          cases hfile'
          simp [hfresh, hc]

theorem readData_error (w w1 : World) (e : RouteError) (h : readData w = (.error e, w1)) :
    w1 = w ∧ e.status = none := by
  unfold readData at h
  cases hf : w.file with
  | none =>
    simp only [hf, Prod.mk.injEq, Except.error.injEq] at h
    obtain ⟨rfl, rfl⟩ := h
    exact ⟨rfl, rfl⟩
  | some file =>
    simp only [hf] at h
    split at h
    · simp at h
    · split at h
      · simp only [Prod.mk.injEq, Except.error.injEq] at h
        obtain ⟨rfl, rfl⟩ := h
        exact ⟨rfl, rfl⟩
      · simp at h

theorem readData_stats (w : World) :
    (readData w).2.cache.stats = w.cache.stats ∧
      (readData w).2.cache.statsTimestamp = w.cache.statsTimestamp := by
  cases h : readData w with
  | mk r w1 =>
    cases r with
    | error e => rw [(readData_error w w1 e h).1]; exact ⟨rfl, rfl⟩
    | ok data => exact ⟨(readData_ok w w1 data h).2.2.1, (readData_ok w w1 data h).2.2.2.1⟩

theorem getItems_stats (toLowerCase : String → String) (query : ItemsQuery) (w : World) :
    (getItems toLowerCase query w).2.cache.stats = w.cache.stats ∧
      (getItems toLowerCase query w).2.cache.statsTimestamp = w.cache.statsTimestamp := by
  have h := readData_stats w
  unfold getItems
  cases hr : readData w with
  | mk r w1 =>
    rw [hr] at h
    cases r with
    | error e => exact h
    | ok data =>
      dsimp only
      split <;> exact h

theorem getItemById_stats (idParam : String) (w : World) :
    (getItemById idParam w).2.cache.stats = w.cache.stats ∧
      (getItemById idParam w).2.cache.statsTimestamp = w.cache.statsTimestamp := by
  have h := readData_stats w
  unfold getItemById
  cases hr : readData w with
  | mk r w1 =>
    rw [hr] at h
    cases r with
    | error e => exact h
    | ok data =>
      dsimp only
      split <;> exact h

theorem calculateStats_isSome (data : List Item) (hne : data ≠ []) :
    ∃ s, calculateStats data = some s := by
  have hlen : data.length ≠ 0 := by
    intro h; exact hne (List.length_eq_zero.mp h)
  exact ⟨_, by simp only [calculateStats, hlen, if_false]; rfl⟩

/-! ## The stats cache -/

/-- The state `POST /` leaves after a successful write of `pushed`. -/
theorem postItem_of_valid (item : Payload) (now : Int) (createdAt : String) (mtimeMs : ℚ)
    (w w1 : World) (price : ℚ) (data : List Item) (hname : item.name.truthy = true)
    (hprice : item.price = .num price) (hread : readData w = (.ok data, w1)) :
    postItem item now createdAt (some mtimeMs) w =
      (.ok ⟨201, newItemOf item price now createdAt⟩,
       { file := some { mtimeMs := mtimeMs,
                        contents := some (data ++ [newItemOf item price now createdAt]) }
         cache := { data := some (data ++ [newItemOf item price now createdAt])
                    lastModified := 0
                    stats := none
                    statsTimestamp := w1.cache.statsTimestamp } }) := by
  simp [postItem, hprice, hname, hread]

theorem postItem_ok_inv (item : Payload) (now : Int) (createdAt : String) (written : Option ℚ)
    (w w2 : World) (reply : Reply Item)
    (h : postItem item now createdAt written w = (.ok reply, w2)) :
    ∃ (price mtimeMs : ℚ) (data : List Item) (w1 : World),
      item.name.truthy = true ∧ item.price = .num price ∧ readData w = (.ok data, w1) ∧
      written = some mtimeMs := by
  unfold postItem at h
  cases hp : item.price with
  | num price =>
    simp only [hp] at h
    cases hn : item.name.truthy with
    | false => simp [hn] at h
    | true =>
      simp only [hn, Bool.not_true] at h
      cases hr : readData w with
      | mk r w1 =>
        cases r with
        | error e => simp [hr] at h
        | ok data =>
          cases written with
          | none => simp [hr] at h
          | some m => exact ⟨price, m, data, w1, rfl, rfl, rfl, rfl⟩
  | undefined => simp [hp] at h
  | null => simp [hp] at h
  | bool b => simp [hp] at h
  | str s => simp [hp] at h
  | composite j => simp [hp] at h

theorem readData_after_write (mtimeMs : ℚ) (pushed : List Item) (ts : Int) :
    ∃ w3, readData
      { file := some { mtimeMs := mtimeMs, contents := some pushed }
        cache := { data := some pushed, lastModified := 0, stats := none,
                   statsTimestamp := ts } } = (.ok pushed, w3) ∧
      w3.cache.stats = none ∧ w3.cache.statsTimestamp = ts := by
  by_cases hm : mtimeMs ≤ 0
  · exact ⟨{ file := some { mtimeMs := mtimeMs, contents := some pushed }
             cache := { data := some pushed, lastModified := 0, stats := none,
                        statsTimestamp := ts } },
      by simp [readData, cacheIsFresh, hm], rfl, rfl⟩
  · exact ⟨{ file := some { mtimeMs := mtimeMs, contents := some pushed }
             cache := { data := some pushed, lastModified := mtimeMs, stats := none,
                        statsTimestamp := ts } },
      by simp [readData, cacheIsFresh, hm], rfl, rfl⟩

/-- C5 (as stated, refuted): on an empty collection the first statistics request
computes `null`, which is not kept as a snapshot, so a second request one second
later is not served from the cache: it reports `cached = false` and a new
`lastUpdated`. -/
theorem getStats_empty_collection_not_cached :
    (getStats sampleToISOString 1000 emptyWorld).1 =
      .ok ⟨200, { stats := none, cached := false, lastUpdated := sampleToISOString 1000 }⟩ ∧
    (getStats sampleToISOString 2000 (getStats sampleToISOString 1000 emptyWorld).2).1 =
      .ok ⟨200, { stats := none, cached := false, lastUpdated := sampleToISOString 2000 }⟩ := by
  simp [getStats, emptyWorld, ItemsCache.initial, readData, cacheIsFresh, calculateStats]

/-- C5 (amended): for every collection that is not empty, when a statistics
request at time `t1` computes the snapshot, a statistics request at a time `t2`
with `t2 - t1` below 5 minutes, issued in any state whose stats cache is the one
the first request left (no append in between; `GET /` and `GET /:id` leave it
unchanged), is answered from the cache: `cached = true`, the same snapshot and
the same `lastUpdated` as the first, and the state is not changed. -/
theorem getStats_cached_within_ttl (toISOString : Int → String) (w wr : World)
    (data : List Item) (t1 t2 : Int)
    (hmiss : ¬ (w.cache.stats.isSome ∧ t1 - w.cache.statsTimestamp < CACHE_DURATION))
    (hread : readData w = (.ok data, wr)) (hne : data ≠ [])
    (httl : t2 - t1 < CACHE_DURATION) :
    ∃ s, calculateStats data = some s ∧
      (getStats toISOString t1 w).1 =
        .ok ⟨200, { stats := some s, cached := false, lastUpdated := toISOString t1 }⟩ ∧
      (∀ w2 : World,
        w2.cache.stats = (getStats toISOString t1 w).2.cache.stats →
        w2.cache.statsTimestamp = (getStats toISOString t1 w).2.cache.statsTimestamp →
        getStats toISOString t2 w2 =
          (.ok ⟨200, { stats := some s, cached := true, lastUpdated := toISOString t1 }⟩, w2)) ∧
      (∀ (toLowerCase : String → String) (query : ItemsQuery) (w0 : World),
        (getItems toLowerCase query w0).2.cache.stats = w0.cache.stats ∧
        (getItems toLowerCase query w0).2.cache.statsTimestamp = w0.cache.statsTimestamp) ∧
      (∀ (idParam : String) (w0 : World),
        (getItemById idParam w0).2.cache.stats = w0.cache.stats ∧
        (getItemById idParam w0).2.cache.statsTimestamp = w0.cache.statsTimestamp) := by
  obtain ⟨s, hs⟩ := calculateStats_isSome data hne
  have hfirst : getStats toISOString t1 w =
      (.ok ⟨200, { stats := some s, cached := false, lastUpdated := toISOString t1 }⟩,
       { wr with cache := { wr.cache with stats := some s, statsTimestamp := t1 } }) := by
    simp only [getStats, hmiss, if_false, hread, hs]
  refine ⟨s, hs, by rw [hfirst], ?_, getItems_stats, getItemById_stats⟩
  intro w2 hstats hts
  rw [hfirst] at hstats hts
  simp only at hstats hts
  have hhit : w2.cache.stats.isSome ∧ t2 - w2.cache.statsTimestamp < CACHE_DURATION := by
    rw [hstats, hts]; exact ⟨rfl, httl⟩
  unfold getStats
  rw [if_pos hhit, hstats, hts]

theorem getStats_cached_within_ttl_witness :
    ∃ s, calculateStats sampleItems = some s ∧
      (getStats sampleToISOString 1000 sampleWorld).1 =
        .ok ⟨200, { stats := some s, cached := false, lastUpdated := sampleToISOString 1000 }⟩ ∧
      (∀ w2 : World,
        w2.cache.stats = (getStats sampleToISOString 1000 sampleWorld).2.cache.stats →
        w2.cache.statsTimestamp =
          (getStats sampleToISOString 1000 sampleWorld).2.cache.statsTimestamp →
        getStats sampleToISOString 2000 w2 =
          (.ok ⟨200, { stats := some s, cached := true,
                       lastUpdated := sampleToISOString 1000 }⟩, w2)) ∧
      (∀ (toLowerCase : String → String) (query : ItemsQuery) (w0 : World),
        (getItems toLowerCase query w0).2.cache.stats = w0.cache.stats ∧
        (getItems toLowerCase query w0).2.cache.statsTimestamp = w0.cache.statsTimestamp) ∧
      (∀ (idParam : String) (w0 : World),
        (getItemById idParam w0).2.cache.stats = w0.cache.stats ∧
        (getItemById idParam w0).2.cache.statsTimestamp = w0.cache.statsTimestamp) :=
  getStats_cached_within_ttl sampleToISOString sampleWorld
    { sampleWorld with cache := { sampleWorld.cache with
        data := some sampleItems, lastModified := 1700000000000 } }
    sampleItems 1000 2000
    (by simp [sampleWorld, ItemsCache.initial])
    (by simp [readData, sampleWorld, ItemsCache.initial, cacheIsFresh])
    (by simp [sampleItems]) (by decide)

theorem calculateStats_append_isSome (data : List Item) (item : Item) :
    ∃ s, calculateStats (data ++ [item]) = some s :=
  calculateStats_isSome _ (by simp)

/-- C6: after any successful append the stats cache is cleared and the recorded
modification time of the item cache is `0`, so the item cache misses for every
file whose modification time is positive; the next statistics request, whatever
its time, reports `cached = false` and carries the snapshot computed from the
collection that `readData` returns, which contains the appended item. -/
theorem postItem_invalidates_stats (toISOString : Int → String) (item : Payload) (now : Int)
    (createdAt : String) (written : Option ℚ) (w w2 : World) (reply : Reply Item)
    (hpost : postItem item now createdAt written w = (.ok reply, w2)) :
    w2.cache.stats = none ∧ w2.cache.lastModified = 0 ∧
    (∀ file, w2.file = some file → 0 < file.mtimeMs → cacheIsFresh w2.cache file = false) ∧
    (∀ t : Int, ∃ (data : List Item) (s : Stats) (w3 : World),
      readData w2 = (.ok data, w3) ∧ reply.body ∈ data ∧ calculateStats data = some s ∧
      getStats toISOString t w2 =
        (.ok ⟨200, { stats := some s, cached := false, lastUpdated := toISOString t }⟩,
         { w3 with cache := { w3.cache with stats := some s, statsTimestamp := t } })) := by
  obtain ⟨price, m, data, w1, hname, hprice, hread, rfl⟩ :=
    postItem_ok_inv item now createdAt written w w2 reply hpost
  rw [postItem_of_valid item now createdAt m w w1 price data hname hprice hread] at hpost
  simp only [Prod.mk.injEq, Except.ok.injEq] at hpost
  obtain ⟨rfl, rfl⟩ := hpost
  refine ⟨rfl, rfl, ?_, ?_⟩
  · intro file hfile hpos
    simp only [Option.some.injEq] at hfile
    subst hfile
    simp [cacheIsFresh, not_le.mpr hpos]
  · intro t
    obtain ⟨w3, hread3, hst, _⟩ := readData_after_write m
      (data ++ [newItemOf item price now createdAt]) w1.cache.statsTimestamp
    obtain ⟨s, hs⟩ := calculateStats_append_isSome data (newItemOf item price now createdAt)
    refine ⟨_, s, w3, hread3, by simp, hs, ?_⟩
    unfold getStats
    rw [if_neg (by simp)]
    simp only [hread3, hs]

theorem postItem_invalidates_stats_witness :
    (postItem validPayload 1700000000500 "2023-11-14T22:13:20.500Z" (some 1700000000501)
        sampleWorld).2.cache.stats = none ∧
    (postItem validPayload 1700000000500 "2023-11-14T22:13:20.500Z" (some 1700000000501)
        sampleWorld).2.cache.lastModified = 0 ∧
    (∀ file,
      (postItem validPayload 1700000000500 "2023-11-14T22:13:20.500Z" (some 1700000000501)
        sampleWorld).2.file = some file → 0 < file.mtimeMs →
      cacheIsFresh (postItem validPayload 1700000000500 "2023-11-14T22:13:20.500Z"
        (some 1700000000501) sampleWorld).2.cache file = false) ∧
    (∀ t : Int, ∃ (data : List Item) (s : Stats) (w3 : World),
      readData (postItem validPayload 1700000000500 "2023-11-14T22:13:20.500Z"
        (some 1700000000501) sampleWorld).2 = (.ok data, w3) ∧
      (Reply.mk 201 (newItemOf validPayload (1999 / 100) 1700000000500
        "2023-11-14T22:13:20.500Z")).body ∈ data ∧
      calculateStats data = some s ∧
      getStats sampleToISOString t (postItem validPayload 1700000000500
          "2023-11-14T22:13:20.500Z" (some 1700000000501) sampleWorld).2 =
        (.ok ⟨200, { stats := some s, cached := false, lastUpdated := sampleToISOString t }⟩,
         { w3 with cache := { w3.cache with stats := some s, statsTimestamp := t } })) :=
  postItem_invalidates_stats sampleToISOString validPayload 1700000000500
    "2023-11-14T22:13:20.500Z" (some 1700000000501) sampleWorld _
    ⟨201, newItemOf validPayload (1999 / 100) 1700000000500 "2023-11-14T22:13:20.500Z"⟩
    (by simp [postItem, validPayload, JsVal.truthy, readData, sampleWorld, ItemsCache.initial,
      cacheIsFresh])

/-! ## Append -/

/-- C7 (as stated, refuted): the body `{ name: 123, price: 1 }`, whose name is
not a string, passes the validation and is appended with status 201. -/
theorem postItem_accepts_numeric_name :
    (postItem payloadWithNumericName 1700000000500 "2023-11-14T22:13:20.500Z"
        (some 1700000000501) sampleWorld).1 =
      .ok ⟨201, newItemOf payloadWithNumericName 1 1700000000500 "2023-11-14T22:13:20.500Z"⟩ ∧
    (newItemOf payloadWithNumericName 1 1700000000500 "2023-11-14T22:13:20.500Z").name =
      .num 123 := by
  constructor
  · simp [postItem, payloadWithNumericName, JsVal.truthy, readData, sampleWorld,
      ItemsCache.initial, cacheIsFresh]
  · rfl

/-- C7 (amended): `POST /` fails with the validation error (status 400) whenever
the name of the body is falsy (missing, `null`, empty, `0`, `false`) or its
price is not a number, and then the state (file and both caches) is unchanged;
for every other body the handler raises no validation error, and it answers 201
with the new item when the file can be read and written.  The body
`{ name: "X" }` fails and `{ name: "X", price: 19.99 }` succeeds. -/
theorem postItem_validation (item : Payload) (now : Int) (createdAt : String)
    (written : Option ℚ) (w : World) :
    ((item.name.truthy = false ∨ ∀ price, item.price ≠ .num price) →
      postItem item now createdAt written w = (.error ⟨some 400, "Invalid item data"⟩, w)) ∧
    (∀ price, item.name.truthy = true → item.price = .num price →
      (∀ e, (postItem item now createdAt written w).1 = .error e → e.status = none) ∧
      (∀ data w1 mtimeMs, readData w = (.ok data, w1) → written = some mtimeMs →
        (postItem item now createdAt written w).1 =
          .ok ⟨201, newItemOf item price now createdAt⟩)) ∧
    (item.name = .str "X" → item.price = .undefined →
      postItem item now createdAt written w = (.error ⟨some 400, "Invalid item data"⟩, w)) ∧
    (item.name = .str "X" → item.price = .num (1999 / 100) →
      ∀ data w1 mtimeMs, readData w = (.ok data, w1) → written = some mtimeMs →
        (postItem item now createdAt written w).1 =
          .ok ⟨201, newItemOf item (1999 / 100) now createdAt⟩) := by
  have hinvalid : (item.name.truthy = false ∨ ∀ price, item.price ≠ .num price) →
      postItem item now createdAt written w = (.error ⟨some 400, "Invalid item data"⟩, w) := by
    intro h
    unfold postItem
    cases hp : item.price with
    | num price =>
      rcases h with h | h
      · simp [h]
      · exact absurd hp (h price)
    | undefined => rfl
    | null => rfl
    | bool b => rfl
    | str s => rfl
    | composite j => rfl
  have hvalid : ∀ price, item.name.truthy = true → item.price = .num price →
      ∀ data w1 mtimeMs, readData w = (.ok data, w1) → written = some mtimeMs →
        (postItem item now createdAt written w).1 =
          .ok ⟨201, newItemOf item price now createdAt⟩ := by
    intro price hname hprice data w1 m hread hw
    subst hw
    rw [postItem_of_valid item now createdAt m w w1 price data hname hprice hread]
  refine ⟨hinvalid, ?_, ?_, ?_⟩
  · intro price hname hprice
    refine ⟨?_, hvalid price hname hprice⟩
    intro e he
    unfold postItem at he
    simp only [hprice, hname, Bool.not_true] at he
    cases hr : readData w with
    | mk r w1 =>
      cases r with
      | error e1 =>
        simp only [hr, Bool.false_eq_true, if_false, Except.error.injEq] at he
        subst he
        exact (readData_error w w1 e1 hr).2
      | ok data =>
        cases written with
        | none =>
          simp only [hr, Bool.false_eq_true, if_false, Except.error.injEq] at he
          subst he
          rfl
        | some m => simp [hr] at he
  · intro _ hprice
    exact hinvalid (Or.inr (by intro price; rw [hprice]; exact fun h => nomatch h))
  · intro hname hprice
    exact hvalid _ (by rw [hname]; decide) hprice

theorem postItem_validation_witness :
    ((payloadWithoutPrice.name.truthy = false ∨ ∀ price, payloadWithoutPrice.price ≠ .num price) →
      postItem payloadWithoutPrice 1700000000500 "2023-11-14T22:13:20.500Z"
        (some 1700000000501) sampleWorld =
        (.error ⟨some 400, "Invalid item data"⟩, sampleWorld)) ∧
    (∀ price, payloadWithoutPrice.name.truthy = true → payloadWithoutPrice.price = .num price →
      (∀ e, (postItem payloadWithoutPrice 1700000000500 "2023-11-14T22:13:20.500Z"
        (some 1700000000501) sampleWorld).1 = .error e → e.status = none) ∧
      (∀ data w1 mtimeMs, readData sampleWorld = (.ok data, w1) →
        some (1700000000501 : ℚ) = some mtimeMs →
        (postItem payloadWithoutPrice 1700000000500 "2023-11-14T22:13:20.500Z"
          (some 1700000000501) sampleWorld).1 =
          .ok ⟨201, newItemOf payloadWithoutPrice price 1700000000500
            "2023-11-14T22:13:20.500Z"⟩)) ∧
    (payloadWithoutPrice.name = .str "X" → payloadWithoutPrice.price = .undefined →
      postItem payloadWithoutPrice 1700000000500 "2023-11-14T22:13:20.500Z"
        (some 1700000000501) sampleWorld =
        (.error ⟨some 400, "Invalid item data"⟩, sampleWorld)) ∧
    (payloadWithoutPrice.name = .str "X" → payloadWithoutPrice.price = .num (1999 / 100) →
      ∀ data w1 mtimeMs, readData sampleWorld = (.ok data, w1) →
        some (1700000000501 : ℚ) = some mtimeMs →
        (postItem payloadWithoutPrice 1700000000500 "2023-11-14T22:13:20.500Z"
          (some 1700000000501) sampleWorld).1 =
          .ok ⟨201, newItemOf payloadWithoutPrice (1999 / 100) 1700000000500
            "2023-11-14T22:13:20.500Z"⟩) :=
  postItem_validation payloadWithoutPrice 1700000000500 "2023-11-14T22:13:20.500Z"
    (some 1700000000501) sampleWorld

/-- C8: for every valid body (truthy name, numeric price), when the file can be
read and written, `POST /` answers 201 with an item that carries the name, the
price, the description and every other property of the body unchanged, the
clock reading as `id` and the new timestamp as `createdAt` (whatever `id` or
`createdAt` the body supplied), and the collection written to the file is the
loaded collection, unchanged and in the same order, followed by that item. -/
theorem postItem_appends (item : Payload) (now : Int) (createdAt : String) (mtimeMs : ℚ)
    (w w1 : World) (price : ℚ) (data : List Item) (hname : item.name.truthy = true)
    (hprice : item.price = .num price) (hread : readData w = (.ok data, w1)) :
    ∃ (newItem : Item) (w2 : World),
      postItem item now createdAt (some mtimeMs) w = (.ok ⟨201, newItem⟩, w2) ∧
      newItem.name = item.name ∧ JsVal.num newItem.price = item.price ∧
      newItem.description = item.description ∧ newItem.extra = item.extra ∧
      newItem.id = now ∧ newItem.createdAt = .str createdAt ∧
      w2.file = some { mtimeMs := mtimeMs, contents := some (data ++ [newItem]) } :=
  ⟨newItemOf item price now createdAt, _,
    postItem_of_valid item now createdAt mtimeMs w w1 price data hname hprice hread,
    rfl, hprice.symm, rfl, rfl, rfl, rfl, rfl⟩

theorem postItem_appends_witness :
    ∃ (newItem : Item) (w2 : World),
      postItem validPayload 1700000000500 "2023-11-14T22:13:20.500Z" (some 1700000000501)
        sampleWorld = (.ok ⟨201, newItem⟩, w2) ∧
      newItem.name = validPayload.name ∧ JsVal.num newItem.price = validPayload.price ∧
      newItem.description = validPayload.description ∧ newItem.extra = validPayload.extra ∧
      newItem.id = 1700000000500 ∧ newItem.createdAt = .str "2023-11-14T22:13:20.500Z" ∧
      w2.file = some { mtimeMs := 1700000000501, contents := some (sampleItems ++ [newItem]) } :=
  postItem_appends validPayload 1700000000500 "2023-11-14T22:13:20.500Z" 1700000000501
    sampleWorld
    sampleWorldLoaded
    (1999 / 100) sampleItems (by decide) rfl
    (by simp [readData, sampleWorld, sampleWorldLoaded, ItemsCache.initial, cacheIsFresh])

/-- C9 (as stated, refuted): two appends whose clock readings are the same
millisecond both succeed and the second item receives the id that the first
one already carries in the collection, so the written collection holds two
items with the same id. -/
theorem postItem_same_reading_same_id :
    (postItem validPayload 1700000000500 "2023-11-14T22:13:20.500Z" (some 1700000000501)
      emptyWorld).1 = .ok ⟨201, sampleNewItem⟩ ∧
    (postItem validPayload 1700000000500 "2023-11-14T22:13:20.500Z" (some 1700000000501)
      emptyWorld).2.file =
      some { mtimeMs := 1700000000501, contents := some [sampleNewItem] } ∧
    (postItem validPayload 1700000000500 "2023-11-14T22:13:20.500Z" (some 1700000000502)
      (postItem validPayload 1700000000500 "2023-11-14T22:13:20.500Z" (some 1700000000501)
        emptyWorld).2).1 = .ok ⟨201, sampleNewItem⟩ ∧
    (postItem validPayload 1700000000500 "2023-11-14T22:13:20.500Z" (some 1700000000502)
      (postItem validPayload 1700000000500 "2023-11-14T22:13:20.500Z" (some 1700000000501)
        emptyWorld).2).2.file =
      some { mtimeMs := 1700000000502, contents := some [sampleNewItem, sampleNewItem] } ∧
    ¬ ([sampleNewItem, sampleNewItem].map (fun i => i.id)).Nodup := by
  have h1 := postItem_of_valid validPayload 1700000000500 "2023-11-14T22:13:20.500Z"
    1700000000501 emptyWorld
    { emptyWorld with cache := { emptyWorld.cache with
        data := some [], lastModified := 1700000000000 } }
    (1999 / 100) [] (by decide) rfl
    (by simp [readData, emptyWorld, ItemsCache.initial, cacheIsFresh])
  rw [h1]
  have h2 := postItem_of_valid validPayload 1700000000500 "2023-11-14T22:13:20.500Z"
    1700000000502
    { file := some { mtimeMs := 1700000000501, contents := some ([] ++ [sampleNewItem]) }
      cache := { data := some ([] ++ [sampleNewItem]), lastModified := 0, stats := none,
                 statsTimestamp := 0 } }
    { file := some { mtimeMs := 1700000000501, contents := some ([] ++ [sampleNewItem]) }
      cache := { data := some ([] ++ [sampleNewItem]), lastModified := 1700000000501,
                 stats := none, statsTimestamp := 0 } }
    (1999 / 100) ([] ++ [sampleNewItem]) (by decide) rfl
    (by simp [readData, cacheIsFresh])
  refine ⟨rfl, rfl, ?_, ?_, by simp⟩
  · exact congrArg Prod.fst h2
  · exact congrArg (fun r => r.2.file) h2

/-- C9 (amended): the id that a successful append assigns is the clock reading;
when no item of the loaded collection carries that reading as its id the new id
differs from every existing id and pairwise distinct ids stay pairwise distinct
in the written collection, which holds for every reading greater than all
existing ids. -/
theorem postItem_id_distinct (item : Payload) (now : Int) (createdAt : String)
    (written : Option ℚ) (w w1 w2 : World) (data : List Item) (reply : Reply Item)
    (hread : readData w = (.ok data, w1))
    (hpost : postItem item now createdAt written w = (.ok reply, w2))
    (hfresh : ∀ existing ∈ data, existing.id ≠ now) :
    reply.body.id = now ∧
    (∀ existing ∈ data, reply.body.id ≠ existing.id) ∧
    ((data.map (fun i => i.id)).Nodup →
      ∃ mtimeMs, w2.file = some { mtimeMs := mtimeMs, contents := some (data ++ [reply.body]) } ∧
        ((data ++ [reply.body]).map (fun i => i.id)).Nodup) ∧
    ((∀ existing ∈ data, existing.id < now) → ∀ existing ∈ data, existing.id ≠ now) := by
  obtain ⟨price, m, data', w1', hname, hprice, hread', rfl⟩ :=
    postItem_ok_inv item now createdAt written w w2 reply hpost
  rw [hread] at hread'
  simp only [Prod.mk.injEq, Except.ok.injEq] at hread'
  obtain ⟨rfl, rfl⟩ := hread'
  rw [postItem_of_valid item now createdAt m w w1 price data hname hprice hread] at hpost
  simp only [Prod.mk.injEq, Except.ok.injEq] at hpost
  obtain ⟨rfl, rfl⟩ := hpost
  refine ⟨rfl, ?_, ?_, ?_⟩
  · intro existing he
    exact fun h => hfresh existing he h.symm
  · intro hnodup
    refine ⟨m, rfl, ?_⟩
    rw [List.map_append, List.nodup_append]
    refine ⟨hnodup, by simp, ?_⟩
    intro a ha hb
    simp only [List.map_cons, List.map_nil, List.mem_singleton] at hb
    obtain ⟨existing, he, rfl⟩ := List.mem_map.mp ha
    exact hfresh existing he hb
  · intro hlt existing he
    exact (hlt existing he).ne

theorem postItem_id_distinct_witness :
    (Reply.mk 201 sampleNewItem).body.id = 1700000000500 ∧
    (∀ existing ∈ sampleItems,
      (Reply.mk 201 sampleNewItem).body.id ≠ existing.id) ∧
    ((sampleItems.map (fun i => i.id)).Nodup →
      ∃ mtimeMs,
        (postItem validPayload 1700000000500 "2023-11-14T22:13:20.500Z" (some 1700000000501)
          sampleWorld).2.file =
          some { mtimeMs := mtimeMs,
                 contents := some (sampleItems ++ [(Reply.mk 201 sampleNewItem).body]) } ∧
        ((sampleItems ++ [(Reply.mk 201 sampleNewItem).body]).map (fun i => i.id)).Nodup) ∧
    ((∀ existing ∈ sampleItems, existing.id < 1700000000500) →
      ∀ existing ∈ sampleItems, existing.id ≠ 1700000000500) :=
  postItem_id_distinct validPayload 1700000000500 "2023-11-14T22:13:20.500Z"
    (some 1700000000501) sampleWorld
    sampleWorldLoaded
    _ sampleItems
    ⟨201, sampleNewItem⟩
    (by simp [readData, sampleWorld, sampleWorldLoaded, ItemsCache.initial, cacheIsFresh])
    (by simp [postItem, validPayload, JsVal.truthy, readData, sampleWorld, ItemsCache.initial,
      cacheIsFresh, sampleNewItem])
    (by simp [sampleItems, sampleItem])

/-! ## Lookup by id -/

theorem idEquals_int (id n : Int) : idEquals id (.int n) = true ↔ id = n := by
  simp [idEquals]

theorem getItemById_of_read (idParam : String) (w w1 : World) (data : List Item) (n : Int)
    (hread : readData w = (.ok data, w1)) (hparse : parseInt idParam none = .int n) :
    ((∃ item ∈ data, item.id = n) →
      ∃ item, getItemById idParam w = (.ok ⟨200, item⟩, w1) ∧ item ∈ data ∧ item.id = n) ∧
    ((getItemById idParam w).1 = .error ⟨some 404, "Item not found"⟩ ↔
      ∀ item ∈ data, item.id ≠ n) := by
  unfold getItemById
  rw [hread, hparse]
  dsimp only
  cases hfind : data.find? (fun i => idEquals i.id (.int n)) with
  | none =>
    have hnone : ∀ item ∈ data, item.id ≠ n := by
      intro item hi
      have := List.find?_eq_none.mp hfind item hi
      simpa [idEquals] using this
    refine ⟨?_, ?_⟩
    · rintro ⟨item, hi, hid⟩
      exact absurd hid (hnone item hi)
    · exact ⟨fun _ => hnone, fun _ => rfl⟩
  | some item =>
    have hmem : item ∈ data := List.mem_of_find?_eq_some hfind
    have hid : item.id = n := by
      have := List.find?_some hfind
      simpa [idEquals] using this
    refine ⟨fun _ => ⟨item, rfl, hmem, hid⟩, ?_⟩
    constructor
    · intro h; simp at h
    · intro h; exact absurd hid (h item hmem)

/-- C10: for every state in which the collection can be loaded and every id
parameter that parses to an integer `n`, `GET /:id` answers 200 with an item of
the loaded collection whose id is `n` whenever the collection contains one, and
passes the error with status 404 exactly when it contains none; after a
successful append, a get for the id of the returned item finds an item with
that id; the parameter `9999` reads as 9999 and `999999` as 999999, so an
item with id 9999 is found and, with no item of id 999999, that get is a 404. -/
theorem getItemById_found_iff (idParam : String) (w w1 : World) (data : List Item) (n : Int)
    (hread : readData w = (.ok data, w1)) (hparse : parseInt idParam none = .int n) :
    ((∃ item ∈ data, item.id = n) →
      ∃ item, getItemById idParam w = (.ok ⟨200, item⟩, w1) ∧ item ∈ data ∧ item.id = n) ∧
    ((getItemById idParam w).1 = .error ⟨some 404, "Item not found"⟩ ↔
      ∀ item ∈ data, item.id ≠ n) ∧
    (∀ (payload : Payload) (now : Int) (createdAt : String) (written : Option ℚ) (w0 w2 : World)
      (reply : Reply Item) (param : String),
      postItem payload now createdAt written w0 = (.ok reply, w2) →
      parseInt param none = .int reply.body.id →
      ∃ item, (getItemById param w2).1 = .ok ⟨200, item⟩ ∧ item.id = reply.body.id) ∧
    ((∃ item ∈ data, item.id = 9999) →
      ∃ item, (getItemById "9999" w).1 = .ok ⟨200, item⟩ ∧ item.id = 9999) ∧
    ((∀ item ∈ data, item.id ≠ 999999) →
      (getItemById "999999" w).1 = .error ⟨some 404, "Item not found"⟩) := by
  refine ⟨(getItemById_of_read idParam w w1 data n hread hparse).1,
    (getItemById_of_read idParam w w1 data n hread hparse).2, ?_, ?_, ?_⟩
  · intro payload now createdAt written w0 w2 reply param hpost hparam
    obtain ⟨price, m, data0, w01, hname, hprice, hread0, rfl⟩ :=
      postItem_ok_inv payload now createdAt written w0 w2 reply hpost
    rw [postItem_of_valid payload now createdAt m w0 w01 price data0 hname hprice hread0] at hpost
    simp only [Prod.mk.injEq, Except.ok.injEq] at hpost
    obtain ⟨rfl, rfl⟩ := hpost
    obtain ⟨w3, hread3, _, _⟩ := readData_after_write m
      (data0 ++ [newItemOf payload price now createdAt]) w01.cache.statsTimestamp
    obtain ⟨item, hget, _, hid⟩ := (getItemById_of_read param _ w3 _ _ hread3 hparam).1
      ⟨newItemOf payload price now createdAt, by simp, rfl⟩
    exact ⟨item, by rw [hget], hid⟩
  · intro h
    obtain ⟨item, hget, _, hid⟩ :=
      (getItemById_of_read "9999" w w1 data 9999 hread (by decide)).1 h
    exact ⟨item, by rw [hget], hid⟩
  · intro h
    exact (getItemById_of_read "999999" w w1 data 999999 hread (by decide)).2.mpr h

theorem getItemById_found_iff_witness :
    ((∃ item ∈ sampleItems, item.id = 9999) →
      ∃ item, getItemById "9999" sampleWorld = (.ok ⟨200, item⟩, sampleWorldLoaded) ∧
        item ∈ sampleItems ∧ item.id = 9999) ∧
    ((getItemById "9999" sampleWorld).1 = .error ⟨some 404, "Item not found"⟩ ↔
      ∀ item ∈ sampleItems, item.id ≠ 9999) ∧
    (∀ (payload : Payload) (now : Int) (createdAt : String) (written : Option ℚ) (w0 w2 : World)
      (reply : Reply Item) (param : String),
      postItem payload now createdAt written w0 = (.ok reply, w2) →
      parseInt param none = .int reply.body.id →
      ∃ item, (getItemById param w2).1 = .ok ⟨200, item⟩ ∧ item.id = reply.body.id) ∧
    ((∃ item ∈ sampleItems, item.id = 9999) →
      ∃ item, (getItemById "9999" sampleWorld).1 = .ok ⟨200, item⟩ ∧ item.id = 9999) ∧
    ((∀ item ∈ sampleItems, item.id ≠ 999999) →
      (getItemById "999999" sampleWorld).1 = .error ⟨some 404, "Item not found"⟩) :=
  getItemById_found_iff "9999" sampleWorld sampleWorldLoaded sampleItems 9999
    (by simp [readData, sampleWorld, sampleWorldLoaded, ItemsCache.initial, cacheIsFresh])
    (by decide)

/-! ## The item cache -/

/-- Cache hit of `readData`: with a cached collection whose recorded time is at
least the modification time of the file, the cached collection is returned, the
state is unchanged and the contents of the file play no part. -/
theorem readData_hit (w : World) (file : DataFile) (data : List Item)
    (hfile : w.file = some file) (hdata : w.cache.data = some data)
    (hfresh : file.mtimeMs ≤ w.cache.lastModified) :
    readData w = (.ok data, w) ∧
    ∀ contents, readData { w with file := some { file with contents := contents } } =
      (.ok data, { w with file := some { file with contents := contents } }) := by
  constructor
  · simp [readData, hfile, hdata, cacheIsFresh, hfresh]
  · intro contents
    simp [readData, hdata, cacheIsFresh, hfresh]

/-- Cache miss of `readData`: without a cached collection, or with a file newer
than the recorded time, the parsed contents are returned and replace the cached
collection and the recorded time; the stats fields are kept. -/
theorem readData_miss (w : World) (file : DataFile) (data : List Item)
    (hfile : w.file = some file)
    (hstale : w.cache.data = none ∨ w.cache.lastModified < file.mtimeMs)
    (hcontents : file.contents = some data) :
    readData w = (.ok data,
      { file := w.file
        cache := { data := some data, lastModified := file.mtimeMs,
                   stats := w.cache.stats, statsTimestamp := w.cache.statsTimestamp } }) := by
  rcases hstale with h | h
  · simp [readData, hfile, h, hcontents]
  · cases hd : w.cache.data with
    | none => simp [readData, hfile, hd, hcontents]
    | some cached => simp [readData, hfile, hd, hcontents, cacheIsFresh, not_le.mpr h]

/-- From a coherent state `readData` returns the parsed contents of the file and
leaves a coherent state. -/
theorem readData_coherent (w w1 : World) (data : List Item) (hco : cacheCoherent w)
    (hread : readData w = (.ok data, w1)) :
    (∃ file, w.file = some file ∧ file.contents = some data) ∧ cacheCoherent w1 := by
  obtain ⟨hf, hd, _, _, hcases⟩ := readData_ok w w1 data hread
  cases hfile : w.file with
  | none => simp [readData, hfile] at hread
  | some file =>
    obtain ⟨hhit, hmiss⟩ := hcases file hfile
    cases hfresh : cacheIsFresh w.cache file with
    | true =>
      obtain ⟨hdata, rfl⟩ := hhit hfresh
      exact ⟨⟨file, rfl, hco file data hfile hdata hfresh⟩, hco⟩
    | false =>
      obtain ⟨hcontents, _⟩ := hmiss hfresh
      refine ⟨⟨file, rfl, hcontents⟩, ?_⟩
      intro file1 data1 hfile1 hdata1 _
      rw [hf, hfile] at hfile1
      cases hfile1
      rw [hd] at hdata1
      cases hdata1
      exact hcontents

/-- The state after `readData` serves its own result again. -/
theorem readData_fresh (w w1 : World) (data : List Item)
    (hread : readData w = (.ok data, w1)) :
    ∃ file, w1.file = some file ∧ w.file = some file ∧ w1.cache.data = some data ∧
      cacheIsFresh w1.cache file = true := by
  obtain ⟨hf, hd, _, _, hcases⟩ := readData_ok w w1 data hread
  cases hfile : w.file with
  | none => simp [readData, hfile] at hread
  | some file =>
    refine ⟨file, by rw [hf, hfile], rfl, hd, ?_⟩
    obtain ⟨hhit, hmiss⟩ := hcases file hfile
    cases hfresh : cacheIsFresh w.cache file with
    | true =>
      obtain ⟨_, rfl⟩ := hhit hfresh
      exact hfresh
    | false =>
      obtain ⟨_, hlm⟩ := hmiss hfresh
      simp [cacheIsFresh, hd, hlm]

/-- The item cache stays coherent under an append whose write succeeds. -/
theorem postItem_ok_coherent (item : Payload) (now : Int) (createdAt : String)
    (written : Option ℚ) (w w2 : World) (reply : Reply Item)
    (hpost : postItem item now createdAt written w = (.ok reply, w2)) : cacheCoherent w2 := by
  obtain ⟨price, m, data, w1, hname, hprice, hread, rfl⟩ :=
    postItem_ok_inv item now createdAt written w w2 reply hpost
  rw [postItem_of_valid item now createdAt m w w1 price data hname hprice hread] at hpost
  simp only [Prod.mk.injEq, Except.ok.injEq] at hpost
  obtain ⟨_, rfl⟩ := hpost
  intro file data1 hfile hdata _
  simp only [Option.some.injEq] at hfile hdata
  subst hfile hdata
  rfl

/-- The state `POST /` leaves when the write fails: the error is passed on, the
file is untouched, and the cached array holds the pushed item. -/
theorem postItem_write_failure (item : Payload) (now : Int) (createdAt : String)
    (w w1 : World) (price : ℚ) (data : List Item) (hname : item.name.truthy = true)
    (hprice : item.price = .num price) (hread : readData w = (.ok data, w1)) :
    postItem item now createdAt none w =
      (.error ⟨none, "write failure"⟩,
       { w1 with cache := { w1.cache with
           data := some (data ++ [newItemOf item price now createdAt]) } }) := by
  simp [postItem, hprice, hname, hread]

/-- C11: after an append whose write to the file fails, `readData` returns the
cached collection with the item that was never written, while the file still
holds the collection without it: the collection `readData` returns is not the
contents of the file at the recorded modification time. -/
theorem readData_after_failed_write_stale :
    (postItem validPayload 1700000000500 "2023-11-14T22:13:20.500Z" none sampleWorld).2.file =
      some { mtimeMs := 1700000000000, contents := some sampleItems } ∧
    (postItem validPayload 1700000000500 "2023-11-14T22:13:20.500Z" none
      sampleWorld).2.cache.lastModified = 1700000000000 ∧
    (readData (postItem validPayload 1700000000500 "2023-11-14T22:13:20.500Z" none
      sampleWorld).2).1 = .ok (sampleItems ++ [sampleNewItem]) ∧
    sampleItems ++ [sampleNewItem] ≠ sampleItems := by
  have hread : readData sampleWorld = (.ok sampleItems, sampleWorldLoaded) := by
    simp [readData, sampleWorld, sampleWorldLoaded, ItemsCache.initial, cacheIsFresh]
  rw [postItem_write_failure validPayload _ _ sampleWorld sampleWorldLoaded (1999 / 100)
    sampleItems (by decide) rfl hread]
  refine ⟨rfl, rfl, ?_, by simp⟩
  simp [readData, sampleWorldLoaded, sampleWorld, ItemsCache.initial, cacheIsFresh,
    sampleNewItem]

/-- C20: when the write fails during an append of a valid body, the error is
passed to the caller and the file is unchanged, but the cached collection holds
the new item: the next `readData` returns it and a get for its id answers 200
with an item of that id, although the file does not contain the new item. -/
theorem postItem_write_failure_leaks (item : Payload) (now : Int) (createdAt : String)
    (w w1 : World) (price : ℚ) (data : List Item) (param : String)
    (hname : item.name.truthy = true) (hprice : item.price = .num price)
    (hco : cacheCoherent w) (hread : readData w = (.ok data, w1))
    (hparam : parseInt param none = .int now) :
    ∃ (e : RouteError) (w2 : World) (file : DataFile),
      postItem item now createdAt none w = (.error e, w2) ∧ e.status = none ∧
      w2.file = w.file ∧ w.file = some file ∧ file.contents = some data ∧
      w2.cache.data = some (data ++ [newItemOf item price now createdAt]) ∧
      w2.cache.data ≠ file.contents ∧
      readData w2 = (.ok (data ++ [newItemOf item price now createdAt]), w2) ∧
      ∃ found, getItemById param w2 = (.ok ⟨200, found⟩, w2) ∧ found.id = now ∧
        ((∀ existing ∈ data, existing.id ≠ now) →
          found = newItemOf item price now createdAt) := by
  obtain ⟨file, hf1, hf, hd1, hfresh⟩ := readData_fresh w w1 data hread
  have hpost := postItem_write_failure item now createdAt w w1 price data hname hprice hread
  have hfresh2 : file.mtimeMs ≤ w1.cache.lastModified := by
    simpa [cacheIsFresh, hd1] using hfresh
  have hread2 := (readData_hit
    { w1 with cache := { w1.cache with
        data := some (data ++ [newItemOf item price now createdAt]) } }
    file (data ++ [newItemOf item price now createdAt]) hf1 rfl hfresh2).1
  obtain ⟨⟨file0, hfile0, hcontents0⟩, _⟩ := readData_coherent w w1 data hco hread
  have hcontents : file.contents = some data := by
    rw [hf] at hfile0
    cases hfile0
    exact hcontents0
  refine ⟨_, _, file, hpost, rfl, ?_, hf, hcontents, rfl, ?_, hread2, ?_⟩
  · show w1.file = w.file
    rw [hf1, hf]
  · show some (data ++ [newItemOf item price now createdAt]) ≠ file.contents
    rw [hcontents]
    intro h
    have := congrArg (fun o => (o.map List.length).getD 0) h
    simp at this
  · obtain ⟨found, hget, hmem, hid⟩ := (getItemById_of_read param _ _ _ now hread2 hparam).1
      ⟨newItemOf item price now createdAt, by simp, rfl⟩
    refine ⟨found, hget, hid, ?_⟩
    intro hnone
    rcases List.mem_append.mp hmem with h | h
    · exact absurd hid (hnone found h)
    · simpa using h

theorem sampleWorld_coherent : cacheCoherent sampleWorld := by
  intro file data _ hdata _
  simp [sampleWorld, ItemsCache.initial] at hdata

theorem postItem_write_failure_leaks_witness :
    ∃ (e : RouteError) (w2 : World) (file : DataFile),
      postItem validPayload 1700000000500 "2023-11-14T22:13:20.500Z" none sampleWorld =
        (.error e, w2) ∧ e.status = none ∧
      w2.file = sampleWorld.file ∧ sampleWorld.file = some file ∧
      file.contents = some sampleItems ∧
      w2.cache.data = some (sampleItems ++ [newItemOf validPayload (1999 / 100) 1700000000500
        "2023-11-14T22:13:20.500Z"]) ∧
      w2.cache.data ≠ file.contents ∧
      readData w2 = (.ok (sampleItems ++ [newItemOf validPayload (1999 / 100) 1700000000500
        "2023-11-14T22:13:20.500Z"]), w2) ∧
      ∃ found, getItemById "1700000000500" w2 = (.ok ⟨200, found⟩, w2) ∧
        found.id = 1700000000500 ∧
        ((∀ existing ∈ sampleItems, existing.id ≠ 1700000000500) →
          found = newItemOf validPayload (1999 / 100) 1700000000500
            "2023-11-14T22:13:20.500Z") :=
  postItem_write_failure_leaks validPayload 1700000000500 "2023-11-14T22:13:20.500Z"
    sampleWorld sampleWorldLoaded (1999 / 100) sampleItems "1700000000500" (by decide) rfl
    sampleWorld_coherent
    (by simp [readData, sampleWorld, sampleWorldLoaded, ItemsCache.initial, cacheIsFresh])
    (by decide)

/-! ## The router and the error middleware -/

theorem getItemById_nan (param : String) (w : World) (hparse : parseInt param none = .nan) :
    (∀ reply, (getItemById param w).1 ≠ .ok reply) ∧
    (∀ data w1, readData w = (.ok data, w1) →
      getItemById param w = (.error ⟨some 404, "Item not found"⟩, w1)) := by
  have hfind : ∀ data : List Item,
      data.find? (fun i => idEquals i.id (parseInt param none)) = none := by
    intro data
    rw [hparse]
    exact List.find?_eq_none.mpr (fun item _ => by simp [idEquals])
  constructor
  · intro reply
    unfold getItemById
    cases hr : readData w with
    | mk r w1 =>
      cases r with
      | error e => simp
      | ok data => simp [hfind data]
  · intro data w1 hr
    simp [getItemById, hr, hfind data]

/-- C12: the path `stats` of a GET request is matched by the route `'/:id'`,
which is registered before `'/stats'`, with the parameter `stats`; the
statistics handler never runs for it, the stats cache is left as it was, no
response is sent with any status, and when the collection loads the request
ends in the error `Item not found` with status 404. -/
theorem dispatch_stats_captured_by_id (toLowerCase : String → String)
    (toISOString : Int → String) (query : ItemsQuery) (body : Payload) (env : Env)
    (w : World) :
    findRoute .GET ["stats"] routes = some (.itemById, some "stats") ∧
    dispatch toLowerCase toISOString ⟨.GET, ["stats"], query, body⟩ env w =
      ((some (liftReply Body.item (getItemById "stats" w)).1),
       (liftReply Body.item (getItemById "stats" w)).2) ∧
    (∀ reply, (dispatch toLowerCase toISOString ⟨.GET, ["stats"], query, body⟩ env w).1 ≠
      some (.ok reply)) ∧
    (∀ data w1, readData w = (.ok data, w1) →
      dispatch toLowerCase toISOString ⟨.GET, ["stats"], query, body⟩ env w =
        (some (.error ⟨some 404, "Item not found"⟩), w1)) ∧
    (dispatch toLowerCase toISOString ⟨.GET, ["stats"], query, body⟩ env w).2.cache.stats =
      w.cache.stats ∧
    (dispatch toLowerCase toISOString ⟨.GET, ["stats"], query, body⟩ env w).2.cache.statsTimestamp =
      w.cache.statsTimestamp := by
  have hroute : findRoute .GET ["stats"] routes = some (.itemById, some "stats") := by decide
  have hparse : parseInt "stats" none = .nan := by decide
  have hdispatch : dispatch toLowerCase toISOString ⟨.GET, ["stats"], query, body⟩ env w =
      ((some (liftReply Body.item (getItemById "stats" w)).1),
       (liftReply Body.item (getItemById "stats" w)).2) := by
    simp [dispatch, hroute]
  obtain ⟨hnever, h404⟩ := getItemById_nan "stats" w hparse
  refine ⟨hroute, hdispatch, ?_, ?_, ?_, ?_⟩
  · intro reply
    rw [hdispatch]
    cases hg : getItemById "stats" w with
    | mk r w1 =>
      cases r with
      | error e => simp [liftReply]
      | ok item => exact absurd (congrArg Prod.fst hg) (hnever item)
  · intro data w1 hr
    rw [hdispatch, h404 data w1 hr]
    rfl
  · rw [hdispatch]
    have h := (getItemById_stats "stats" w).1
    cases hg : getItemById "stats" w with
    | mk r w1 =>
      rw [hg] at h
      cases r <;> exact h
  · rw [hdispatch]
    have h := (getItemById_stats "stats" w).2
    cases hg : getItemById "stats" w with
    | mk r w1 =>
      rw [hg] at h
      cases r <;> exact h

/-- C13: every error a route raises, with or without a status attached, is
answered by `errorHandler` with the status code 500, since the middleware reads
`statusCode` and the routes set `status`; the body carries the message of the
error and, as its `status` property, the status the route attached.  The 404
`Item not found` and the 400 `Invalid item data` are both sent as 500. -/
theorem errorHandler_route_error (support : ErrorSupport) (development : Bool)
    (e : RouteError) :
    (errorHandler support development (thrownError e)).statusCode = 500 ∧
    errorHandler support development (thrownError ⟨some 404, "Item not found"⟩) =
      { statusCode := 500, status := .num 404, message := "Item not found", stack := none } ∧
    errorHandler support development (thrownError ⟨some 400, "Invalid item data"⟩) =
      { statusCode := 500, status := .num 400, message := "Invalid item data",
        stack := none } ∧
    (e.message ≠ "" → (errorHandler support development (thrownError e)).message = e.message) ∧
    (∀ n : Nat, n ≠ 0 →
      (errorHandler support development
        { thrownError e with statusCode := some n }).statusCode = n) := by
  have h1 : ¬ ("Error" = "CastError") := by decide
  have h2 : ¬ ("Error" = "ValidationError") := by decide
  have h3 : ¬ ("Error" = "JsonWebTokenError") := by decide
  have h4 : ¬ ("Error" = "TokenExpiredError") := by decide
  refine ⟨?_, ?_, ?_, ?_, ?_⟩
  · simp [errorHandler, thrownError, h1, h2, h3, h4]
  · simp [errorHandler, thrownError, h1, h2, h3, h4, JsVal.truthy]
  · simp [errorHandler, thrownError, h1, h2, h3, h4, JsVal.truthy]
  · intro hm
    simp [errorHandler, thrownError, h1, h2, h3, h4, hm]
  · intro n hn
    cases n with
    | zero => exact absurd rfl hn
    | succ k => simp [errorHandler, thrownError, h1, h2, h3, h4]

/-! ## Pagination info, defaults and pages out of range -/

theorem JSInt.lt_int (a b : Int) : JSInt.lt (.int a) (.int b) = decide (a < b) := by
  simp [JSInt.lt, JSInt.toInt]

/-- C14: for every filtered list, every integer `limit >= 1` and every integer
`page >= 0` (so every `page >= 1`) the pagination object has `total` the number of filtered items, `totalPages`
the ceiling of `total / limit`, `hasNextPage = (page < totalPages)`,
`hasPreviousPage = (page > 1)`, and echoes `page` and `limit` as numbers; the
request `page=1&limit=5` is answered with page 1 and limit 5. -/
theorem paginate_info (results : List Item) (p L : Nat) (hL : 1 ≤ L) :
    (paginate (.int p) (.int L) results).pagination.total = results.length ∧
    (paginate (.int p) (.int L) results).pagination.totalPages =
      .int ⌈(results.length : ℚ) / L⌉ ∧
    (paginate (.int p) (.int L) results).pagination.hasNextPage =
      decide ((p : Int) < ⌈(results.length : ℚ) / L⌉) ∧
    (paginate (.int p) (.int L) results).pagination.hasPreviousPage = decide (1 < p) ∧
    (paginate (.int p) (.int L) results).pagination.page = .int p ∧
    (paginate (.int p) (.int L) results).pagination.limit = .int L ∧
    (∀ (toLowerCase : String → String) (w w1 : World) (items : List Item),
      readData w = (.ok items, w1) →
      ∃ body, getItems toLowerCase ⟨some "1", some "5", none⟩ w = (.ok ⟨200, body⟩, w1) ∧
        body.pagination.page = .int 1 ∧ body.pagination.limit = .int 5 ∧
        body.pagination.total = items.length) := by
  have htotal : JSNum.ceil (JSNum.div (.fin results.length) (JSInt.toNum (.int L))) =
      .int ⌈(results.length : ℚ) / L⌉ := ceil_div_nat _ _ hL
  refine ⟨rfl, htotal, ?_, ?_, rfl, rfl, ?_⟩
  · show JSInt.lt (.int p) (JSNum.ceil (JSNum.div (.fin results.length)
      (JSInt.toNum (.int L)))) = _
    rw [htotal, JSInt.lt_int]
  · show JSInt.lt (.int 1) (.int p) = _
    rw [JSInt.lt_int]
    simp
  · intro toLowerCase w w1 items hread
    have h1 : parseInt "1" (some 10) = .int 1 := by decide
    have h5 : parseInt "5" (some 10) = .int 5 := by decide
    refine ⟨paginate (.int 1) (.int 5) items, ?_, rfl, rfl, rfl⟩
    simp [getItems, hread, h1, h5, queryItems, applySearch]

theorem paginate_info_witness :
    (paginate (.int (1 : Nat)) (.int (5 : Nat)) sampleItems).pagination.total =
      sampleItems.length ∧
    (paginate (.int (1 : Nat)) (.int (5 : Nat)) sampleItems).pagination.totalPages =
      .int ⌈(sampleItems.length : ℚ) / (5 : Nat)⌉ ∧
    (paginate (.int (1 : Nat)) (.int (5 : Nat)) sampleItems).pagination.hasNextPage =
      decide (((1 : Nat) : Int) < ⌈(sampleItems.length : ℚ) / (5 : Nat)⌉) ∧
    (paginate (.int (1 : Nat)) (.int (5 : Nat)) sampleItems).pagination.hasPreviousPage =
      decide (1 < 1) ∧
    (paginate (.int (1 : Nat)) (.int (5 : Nat)) sampleItems).pagination.page = .int (1 : Nat) ∧
    (paginate (.int (1 : Nat)) (.int (5 : Nat)) sampleItems).pagination.limit = .int (5 : Nat) ∧
    (∀ (toLowerCase : String → String) (w w1 : World) (items : List Item),
      readData w = (.ok items, w1) →
      ∃ body, getItems toLowerCase ⟨some "1", some "5", none⟩ w = (.ok ⟨200, body⟩, w1) ∧
        body.pagination.page = .int 1 ∧ body.pagination.limit = .int 5 ∧
        body.pagination.total = items.length) :=
  paginate_info sampleItems 1 5 (by decide)

/-- C15 (as stated, refuted): for an empty filtered list and limit 10 the
handler reports `totalPages = 0`, while the initial state of the frontend holds
`totalPages = 1`. -/
theorem paginate_empty_totalPages_zero :
    (paginate (.int 1) (.int 10) []).pagination.totalPages = .int 0 ∧
    (paginate (.int 1) (.int 10) []).pagination.total = 0 ∧
    initialPagination.totalPages = .int 1 ∧
    (paginate (.int 1) (.int 10) []).pagination.totalPages ≠ initialPagination.totalPages := by
  have h : (paginate (.int 1) (.int 10) []).pagination.totalPages = .int 0 := by
    have := ceil_div_nat 0 10 (by decide)
    simp only [paginate, List.length_nil]
    simpa using this
  refine ⟨h, rfl, rfl, ?_⟩
  rw [h]
  decide

/-- C15 (amended): when the filtered list is empty the handler reports
`total = 0` and `totalPages = 0` for every limit of at least 1 and every page,
and `hasNextPage` is false for every page of at least 1. -/
theorem paginate_empty (pageNum : JSInt) (L : Nat) (hL : 1 ≤ L) :
    (paginate pageNum (.int L) []).pagination.total = 0 ∧
    (paginate pageNum (.int L) []).pagination.totalPages = .int 0 ∧
    (paginate pageNum (.int L) []).data = [] ∧
    (∀ p : Nat, 1 ≤ p → pageNum = .int p →
      (paginate pageNum (.int L) []).pagination.hasNextPage = false) := by
  have h : JSNum.ceil (JSNum.div (.fin ((0 : Nat) : ℚ)) (JSInt.toNum (.int L))) = .int 0 := by
    have := ceil_div_nat 0 L hL
    simpa using this
  have htotal : (paginate pageNum (.int L) []).pagination.totalPages = .int 0 := by
    simp only [paginate, List.length_nil]
    exact h
  refine ⟨rfl, htotal, ?_, ?_⟩
  · simp [paginate, slice]
  · intro p hp hpage
    subst hpage
    show JSInt.lt (.int p) (paginate (.int p) (.int L) []).pagination.totalPages = false
    rw [htotal, JSInt.lt_int]
    simp

theorem paginate_empty_witness :
    (paginate (.int 1) (.int (10 : Nat)) []).pagination.total = 0 ∧
    (paginate (.int 1) (.int (10 : Nat)) []).pagination.totalPages = .int 0 ∧
    (paginate (.int 1) (.int (10 : Nat)) []).data = [] ∧
    (∀ p : Nat, 1 ≤ p → JSInt.int 1 = .int p →
      (paginate (.int 1) (.int (10 : Nat)) []).pagination.hasNextPage = false) :=
  paginate_empty (.int 1) 10 (by decide)

theorem paginate_data_int (results : List Item) (p : Int) (L : Nat) (hL : 1 ≤ L)
    (hp : p ≠ 1) :
    (paginate (.int p) (.int L) results).data =
      slice results (.int ((p - 1) * L)) (.int ((p - 1) * L + L)) := by
  simp only [paginate]
  rw [JSInt.sub_int _ _ (by decide), JSInt.mul_int]
  have h1 : ¬ (p - 1 = 0 ∨ (L : Int) = 0) := by omega
  rw [if_neg h1, JSInt.add_int]

/-- C16 (as stated, refuted): with three items and limit 1 the page `-1`, which
lies outside `1..totalPages`, is answered with the second item and not with an
empty slice; and on the collection that holds an item whose name is a number,
a request for page 9 with limit 1 and the search term `pro` raises an error. -/
theorem paginate_negative_page_not_empty :
    (paginate (.int (-1)) (.int 1) sampleItems).pagination.totalPages = .int 3 ∧
    (paginate (.int (-1)) (.int 1) sampleItems).data =
      [sampleItem 2 "Headphones" 399 (.str "Noise cancelling")] ∧
    (paginate (.int (-1)) (.int 1) sampleItems).data ≠ [] ∧
    queryItems asciiToLowerCase (.int 9) (.int 1) (some "pro")
      (sampleItems ++ [numericNameItem]) =
      .error ⟨none, "item.name.toLowerCase is not a function"⟩ := by
  have hdata : (paginate (.int (-1)) (.int 1) sampleItems).data =
      [sampleItem 2 "Headphones" 399 (.str "Noise cancelling")] := by
    have h := paginate_data_int sampleItems (-1) 1 (by decide) (by decide)
    simp only [Nat.cast_one] at h
    rw [h]
    decide
  refine ⟨?_, hdata, by rw [hdata]; simp, rfl⟩
  have := ceil_div_nat 3 1 (by decide)
  simp only [paginate, sampleItems, List.length_cons, List.length_nil]
  simpa using this

/-- C16 (amended): for every limit of at least 1 and every integer page, the
data slice of a filtered list is empty for every page greater than `totalPages`
and for page zero; for a negative page the slice is counted from the end of the
list and is empty exactly when `|page| * limit` is at least the length of the
list; and the query raises no error on every item list for which no search term
is given, or the term is empty, or every item has a string name and a
description that is a string or falsy. -/
theorem paginate_out_of_range (results : List Item) (L : Nat) (hL : 1 ≤ L) (p : Int) :
    (⌈(results.length : ℚ) / L⌉ < p → (paginate (.int p) (.int L) results).data = []) ∧
    (p = 0 → (paginate (.int p) (.int L) results).data = []) ∧
    (p < 0 → ((paginate (.int p) (.int L) results).data = [] ↔
      (results.length : Int) ≤ -p * L)) ∧
    (∀ (toLowerCase : String → String) (q : Option String) (items : List Item),
      (q = none ∨ q = some "" ∨ ∀ item ∈ items, item.wellTyped = true) →
      ∃ r, queryItems toLowerCase (.int p) (.int L) q items = .ok r) := by
  refine ⟨?_, ?_, ?_, ?_⟩
  · intro hgt
    have h0 : (0 : Int) ≤ ⌈(results.length : ℚ) / L⌉ := Int.ceil_nonneg (by positivity)
    have hp1 : 1 ≤ p := by omega
    obtain ⟨n, rfl⟩ : ∃ n : Nat, p = n := ⟨p.toNat, (Int.toNat_of_nonneg (by omega)).symm⟩
    have hn : 1 ≤ n := by exact_mod_cast hp1
    rw [paginate_data results n L hn]
    have hlen := length_le_ceil_mul results.length L hL
    have hT : (⌈(results.length : ℚ) / L⌉).toNat ≤ n - 1 := by omega
    have : results.length ≤ (n - 1) * L :=
      le_trans hlen (Nat.mul_le_mul_right L hT)
    rw [List.drop_eq_nil_of_le this]
    simp
  · rintro rfl
    rw [paginate_data_int results 0 L hL (by decide)]
    simp only [slice, relativeIndex]
    have h1 : ((0 : Int) - 1) * (L : Int) < 0 := by omega
    have h2 : ¬ (((0 : Int) - 1) * (L : Int) + L < 0) := by omega
    simp only [h1, h2, if_true, if_false]
    have : (((0 : Int) - 1) * (L : Int) + L).toNat = 0 := by omega
    simp [this]
  · intro hneg
    rw [paginate_data_int results p L hL (by omega)]
    have hmul : (p - 1) * (L : Int) = p * L - L := by ring
    have hpl : p * (L : Int) ≤ -(L : Int) := by nlinarith
    rw [hmul]
    have hneg' : -p * (L : Int) = -(p * L) := by ring
    rw [hneg']
    generalize p * (L : Int) = m at hpl ⊢
    simp only [slice, relativeIndex]
    have h1 : m - (L : Int) < 0 := by omega
    have h2 : m - (L : Int) + L < 0 := by omega
    simp only [h1, h2, if_true]
    rw [List.take_eq_nil_iff, List.drop_eq_nil_iff]
    omega
  · intro toLowerCase q items hsearch
    obtain ⟨res, hres⟩ := applySearch_ok toLowerCase q items hsearch
    exact ⟨paginate (.int p) (.int L) res, by simp [queryItems, hres]⟩

theorem paginate_out_of_range_witness :
    (⌈(sampleItems.length : ℚ) / (2 : Nat)⌉ < 5 →
      (paginate (.int 5) (.int (2 : Nat)) sampleItems).data = []) ∧
    ((5 : Int) = 0 → (paginate (.int 5) (.int (2 : Nat)) sampleItems).data = []) ∧
    ((5 : Int) < 0 → ((paginate (.int 5) (.int (2 : Nat)) sampleItems).data = [] ↔
      (sampleItems.length : Int) ≤ -5 * (2 : Nat))) ∧
    (∀ (toLowerCase : String → String) (q : Option String) (items : List Item),
      (q = none ∨ q = some "" ∨ ∀ item ∈ items, item.wellTyped = true) →
      ∃ r, queryItems toLowerCase (.int 5) (.int (2 : Nat)) q items = .ok r) :=
  paginate_out_of_range sampleItems 2 (by decide) 5

theorem paginate_nan_page (limitNum : JSInt) (results : List Item) :
    (paginate .nan limitNum results).data = [] ∧
    (paginate .nan limitNum results).pagination.page = .nan ∧
    (paginate .nan limitNum results).pagination.hasNextPage = false ∧
    (paginate .nan limitNum results).pagination.hasPreviousPage = false := by
  refine ⟨?_, rfl, ?_, ?_⟩
  · simp [paginate, JSInt.sub, JSInt.add, JSInt.mul, slice, relativeIndex]
  · simp [paginate, JSInt.lt]
  · simp [paginate, JSInt.lt]

theorem paginate_nan_limit (pageNum : JSInt) (results : List Item) :
    (paginate pageNum .nan results).data = [] ∧
    (paginate pageNum .nan results).pagination.limit = .nan ∧
    (paginate pageNum .nan results).pagination.totalPages = .nan ∧
    (paginate pageNum .nan results).pagination.hasNextPage = false := by
  have hmul : ∀ a : JSInt, JSInt.mul a .nan = .nan := by
    intro a; cases a <;> simp [JSInt.mul]
  have hadd : ∀ a : JSInt, JSInt.add a .nan = .nan := by
    intro a; cases a <;> simp [JSInt.add]
  have hlt : ∀ a : JSInt, JSInt.lt a .nan = false := by
    intro a; cases a <;> simp [JSInt.lt]
  have hceil : JSNum.ceil (JSNum.div (.fin results.length) (JSInt.toNum .nan)) = .nan := by
    simp [JSInt.toNum, JSNum.div, JSNum.ceil]
  refine ⟨?_, rfl, hceil, ?_⟩
  · simp [paginate, hmul, hadd, slice, relativeIndex]
  · show JSInt.lt pageNum (JSNum.ceil (JSNum.div (.fin results.length) (JSInt.toNum .nan))) = _
    rw [hceil, hlt]

/-- C17 (as stated, refuted): the request `page=abc` is not answered like the
request `page=1`: its page number is `NaN` and its data slice is empty, while
`page=1` returns the three items. -/
theorem getItems_non_numeric_page_not_defaulted :
    (getItems asciiToLowerCase ⟨some "abc", none, none⟩ sampleWorld).1 =
      .ok ⟨200, paginate .nan (.int 10) sampleItems⟩ ∧
    (getItems asciiToLowerCase ⟨some "1", none, none⟩ sampleWorld).1 =
      .ok ⟨200, paginate (.int 1) (.int 10) sampleItems⟩ ∧
    (paginate .nan (.int 10) sampleItems).data = [] ∧
    (paginate .nan (.int 10) sampleItems).pagination.page = .nan ∧
    (paginate (.int 1) (.int 10) sampleItems).data = sampleItems ∧
    (getItems asciiToLowerCase ⟨some "abc", none, none⟩ sampleWorld).1 ≠
      (getItems asciiToLowerCase ⟨some "1", none, none⟩ sampleWorld).1 := by
  have habc : parseInt "abc" (some 10) = .nan := by decide
  have h1 : parseInt "1" (some 10) = .int 1 := by decide
  have h10 : parseInt "10" (some 10) = .int 10 := by decide
  have hread : readData sampleWorld = (.ok sampleItems, sampleWorldLoaded) := by
    simp [readData, sampleWorld, sampleWorldLoaded, ItemsCache.initial, cacheIsFresh]
  have hg1 : (getItems asciiToLowerCase ⟨some "abc", none, none⟩ sampleWorld).1 =
      .ok ⟨200, paginate .nan (.int 10) sampleItems⟩ := by
    simp [getItems, hread, habc, h10, queryItems, applySearch]
  have hg2 : (getItems asciiToLowerCase ⟨some "1", none, none⟩ sampleWorld).1 =
      .ok ⟨200, paginate (.int 1) (.int 10) sampleItems⟩ := by
    simp [getItems, hread, h1, h10, queryItems, applySearch]
  have hd1 := (paginate_nan_page (.int 10) sampleItems).1
  have hd2 : (paginate (.int 1) (.int 10) sampleItems).data = sampleItems := by
    have := paginate_data sampleItems 1 10 (by decide)
    simpa [sampleItems] using this
  refine ⟨hg1, hg2, hd1, rfl, hd2, ?_⟩
  rw [hg1, hg2]
  intro h
  have hdata : (paginate .nan (.int 10) sampleItems).data =
      (paginate (.int 1) (.int 10) sampleItems).data := by
    simp only [Except.ok.injEq, Reply.mk.injEq, true_and] at h
    rw [h]
  rw [hd1, hd2] at hdata
  simp [sampleItems] at hdata

theorem isRadixDigit_ten (c : Char) :
    isRadixDigit 10 c = decide (48 ≤ c.toNat ∧ c.toNat ≤ 57) := by
  unfold isRadixDigit digitValue
  simp only
  by_cases h1 : 48 ≤ c.toNat ∧ c.toNat ≤ 57
  · simp only [h1, and_self, if_true, decide_True, decide_eq_true_eq]
    omega
  · simp only [h1, if_false, decide_False]
    by_cases h2 : 97 ≤ c.toNat ∧ c.toNat ≤ 122
    · simp only [h2, and_self, if_true, decide_eq_false_iff_not]
      omega
    · simp only [h2, if_false]
      by_cases h3 : 65 ≤ c.toNat ∧ c.toNat ≤ 90
      · simp only [h3, and_self, if_true, decide_eq_false_iff_not]
        omega
      · simp only [h3, if_false]

theorem parseInt_ten_nan_iff (s : String) :
    parseInt s (some 10) = .nan ↔ leadingDecimalDigits s = [] := by
  have hfun : isRadixDigit 10 = fun c => decide (48 ≤ c.toNat ∧ c.toNat ≤ 57) :=
    funext isRadixDigit_ten
  unfold parseInt leadingDecimalDigits
  simp only [Option.getD_some, hfun]
  norm_num
  split_ifs <;> simp_all

/-- C17 (amended): a missing `page` or `limit` is defaulted, so the response
equals that of the same request with `page=1` or `limit=10`; a value that is
present is not defaulted but parsed by `parseInt(value, 10)`: the result is
`NaN` exactly when the value does not start, after white space and an optional
sign, with a decimal digit (as `abc` or the empty string), and then the data
slice is empty and the response carries `NaN` as page, or as limit and
`totalPages`; a value that starts with digits is read as those digits, so
`page=2abc` is answered like `page=2`. -/
theorem getItems_defaults (toLowerCase : String → String) (w : World) (q : Option String)
    (page limit : Option String) :
    getItems toLowerCase ⟨none, limit, q⟩ w = getItems toLowerCase ⟨some "1", limit, q⟩ w ∧
    getItems toLowerCase ⟨page, none, q⟩ w = getItems toLowerCase ⟨page, some "10", q⟩ w ∧
    (∀ value, parseInt value (some 10) = .nan ↔ leadingDecimalDigits value = []) ∧
    leadingDecimalDigits "abc" = [] ∧ leadingDecimalDigits "" = [] ∧
    leadingDecimalDigits "2abc" = ['2'] ∧
    parseInt "2abc" (some 10) = .int 2 ∧
    getItems toLowerCase ⟨some "2abc", limit, q⟩ w =
      getItems toLowerCase ⟨some "2", limit, q⟩ w ∧
    getItems toLowerCase ⟨page, some "2abc", q⟩ w =
      getItems toLowerCase ⟨page, some "2", q⟩ w ∧
    parseInt "abc" (some 10) = .nan ∧ parseInt "" (some 10) = .nan ∧
    (∀ pageStr reply, parseInt pageStr (some 10) = .nan →
      (getItems toLowerCase ⟨some pageStr, limit, q⟩ w).1 = .ok reply →
      reply.body.data = [] ∧ reply.body.pagination.page = .nan) ∧
    (∀ limitStr reply, parseInt limitStr (some 10) = .nan →
      (getItems toLowerCase ⟨page, some limitStr, q⟩ w).1 = .ok reply →
      reply.body.data = [] ∧ reply.body.pagination.limit = .nan ∧
        reply.body.pagination.totalPages = .nan) := by
  have hinv : ∀ (query : ItemsQuery) (reply : Reply ItemsResponse),
      (getItems toLowerCase query w).1 = .ok reply →
      ∃ results, reply.body = paginate (parseInt (query.page.getD "1") (some 10))
        (parseInt (query.limit.getD "10") (some 10)) results := by
    intro query reply h
    unfold getItems at h
    cases hr : readData w with
    | mk r w1 =>
      cases r with
      | error e => simp [hr] at h
      | ok items =>
        simp only [hr, queryItems] at h
        cases hs : applySearch toLowerCase query.q items with
        | error e => simp [hs] at h
        | ok results =>
          simp only [hs, Except.ok.injEq] at h
          exact ⟨results, by rw [← h]⟩
  have h2abc : parseInt "2abc" (some 10) = parseInt "2" (some 10) := by decide
  refine ⟨rfl, rfl, parseInt_ten_nan_iff, by decide, by decide, by decide, by decide, ?_, ?_,
    by decide, by decide, ?_, ?_⟩
  · simp only [getItems, Option.getD_some, h2abc]
  · simp only [getItems, Option.getD_some, h2abc]
  · intro pageStr reply hnan h
    obtain ⟨results, hbody⟩ := hinv _ reply h
    simp only [Option.getD_some, hnan] at hbody
    rw [hbody]
    exact ⟨(paginate_nan_page _ results).1, rfl⟩
  · intro limitStr reply hnan h
    obtain ⟨results, hbody⟩ := hinv _ reply h
    simp only [Option.getD_some, hnan] at hbody
    rw [hbody]
    exact ⟨(paginate_nan_limit _ results).1, rfl, (paginate_nan_limit _ results).2.2.1⟩

/-! ## The item invariant under append -/

/-- C18 (as stated, refuted): every item of the sample collection has a
non-empty name and a price of at least 0; the body `{ name: "X", price: -5 }`
is accepted with status 201 and the written collection ends with an item whose
price is negative. -/
theorem postItem_accepts_negative_price :
    (∀ item ∈ sampleItems, item.name.truthy = true ∧ 0 ≤ item.price) ∧
    (postItem negativePricePayload 1700000000500 "2023-11-14T22:13:20.500Z"
      (some 1700000000501) sampleWorld).1 =
      .ok ⟨201, newItemOf negativePricePayload (-5) 1700000000500
        "2023-11-14T22:13:20.500Z"⟩ ∧
    (postItem negativePricePayload 1700000000500 "2023-11-14T22:13:20.500Z"
      (some 1700000000501) sampleWorld).2.file =
      some { mtimeMs := 1700000000501,
             contents := some (sampleItems ++ [newItemOf negativePricePayload (-5)
               1700000000500 "2023-11-14T22:13:20.500Z"]) } ∧
    (newItemOf negativePricePayload (-5) 1700000000500 "2023-11-14T22:13:20.500Z").price < 0 := by
  have hread : readData sampleWorld = (.ok sampleItems, sampleWorldLoaded) := by
    simp [readData, sampleWorld, sampleWorldLoaded, ItemsCache.initial, cacheIsFresh]
  have hpost := postItem_of_valid negativePricePayload 1700000000500
    "2023-11-14T22:13:20.500Z" 1700000000501 sampleWorld sampleWorldLoaded (-5) sampleItems
    (by decide) rfl hread
  refine ⟨?_, by rw [hpost], by rw [hpost], ?_⟩
  · intro item hi
    simp only [sampleItems, List.mem_cons, List.mem_singleton, List.not_mem_nil, or_false] at hi
    rcases hi with rfl | rfl | rfl
    all_goals simp [sampleItem, JsVal.truthy]
    all_goals norm_num
  · simp [newItemOf]

/-- C18 (amended): after any successful append the written collection is the
loaded one followed by the new item; the new item has a truthy name (not empty
when it is a string) and the numeric price of the body, so a collection whose
names are all truthy stays so; the sign of the price is not checked: a
collection whose prices are all at least 0 stays so exactly when the price of
the body is at least 0. -/
theorem postItem_preserves_names (item : Payload) (now : Int) (createdAt : String)
    (written : Option ℚ) (w w1 w2 : World) (data : List Item) (reply : Reply Item)
    (hread : readData w = (.ok data, w1))
    (hpost : postItem item now createdAt written w = (.ok reply, w2)) :
    (∃ mtimeMs, w2.file = some { mtimeMs := mtimeMs, contents := some (data ++ [reply.body]) }) ∧
    reply.body.name.truthy = true ∧
    (∀ s, reply.body.name = .str s → s ≠ "") ∧
    JsVal.num reply.body.price = item.price ∧
    ((∀ existing ∈ data, existing.name.truthy = true) →
      ∀ stored ∈ data ++ [reply.body], stored.name.truthy = true) ∧
    ((∀ existing ∈ data, 0 ≤ existing.price) →
      (0 ≤ reply.body.price ↔ ∀ stored ∈ data ++ [reply.body], 0 ≤ stored.price)) := by
  obtain ⟨price, m, data0, w10, hname, hprice, hread0, rfl⟩ :=
    postItem_ok_inv item now createdAt written w w2 reply hpost
  rw [hread] at hread0
  simp only [Prod.mk.injEq, Except.ok.injEq] at hread0
  obtain ⟨rfl, rfl⟩ := hread0
  rw [postItem_of_valid item now createdAt m w w1 price data hname hprice hread] at hpost
  simp only [Prod.mk.injEq, Except.ok.injEq] at hpost
  obtain ⟨rfl, rfl⟩ := hpost
  refine ⟨⟨m, rfl⟩, hname, ?_, hprice.symm, ?_, ?_⟩
  · intro s hs hempty
    have hn : item.name = .str s := hs
    rw [hn, hempty] at hname
    simp [JsVal.truthy] at hname
  · intro hall stored hs
    rcases List.mem_append.mp hs with h | h
    · exact hall stored h
    · simp only [List.mem_singleton] at h
      subst h
      exact hname
  · intro hall
    constructor
    · intro h0 stored hs
      rcases List.mem_append.mp hs with h | h
      · exact hall stored h
      · simp only [List.mem_singleton] at h
        subst h
        exact h0
    · intro h
      exact h _ (by simp)

theorem postItem_preserves_names_witness :
    (∃ mtimeMs,
      (postItem validPayload 1700000000500 "2023-11-14T22:13:20.500Z" (some 1700000000501)
        sampleWorld).2.file =
        some { mtimeMs := mtimeMs,
               contents := some (sampleItems ++ [(Reply.mk 201 sampleNewItem).body]) }) ∧
    (Reply.mk 201 sampleNewItem).body.name.truthy = true ∧
    (∀ s, (Reply.mk 201 sampleNewItem).body.name = .str s → s ≠ "") ∧
    JsVal.num (Reply.mk 201 sampleNewItem).body.price = validPayload.price ∧
    ((∀ existing ∈ sampleItems, existing.name.truthy = true) →
      ∀ stored ∈ sampleItems ++ [(Reply.mk 201 sampleNewItem).body],
        stored.name.truthy = true) ∧
    ((∀ existing ∈ sampleItems, 0 ≤ existing.price) →
      (0 ≤ (Reply.mk 201 sampleNewItem).body.price ↔
        ∀ stored ∈ sampleItems ++ [(Reply.mk 201 sampleNewItem).body], 0 ≤ stored.price)) :=
  postItem_preserves_names validPayload 1700000000500 "2023-11-14T22:13:20.500Z"
    (some 1700000000501) sampleWorld sampleWorldLoaded _ sampleItems ⟨201, sampleNewItem⟩
    (by simp [readData, sampleWorld, sampleWorldLoaded, ItemsCache.initial, cacheIsFresh])
    (by simp [postItem, validPayload, JsVal.truthy, readData, sampleWorld, ItemsCache.initial,
      cacheIsFresh, sampleNewItem])

/-! ## The buckets of the histogram -/

theorem foldl_max_mem (ps : List ℚ) (p : ℚ) : ps.foldl max p = p ∨ ps.foldl max p ∈ ps := by
  induction ps generalizing p with
  | nil => exact Or.inl rfl
  | cons a t ih =>
    simp only [List.foldl_cons]
    rcases ih (max p a) with h | h
    · rcases max_choice p a with hm | hm
      · exact Or.inl (by rw [h, hm])
      · exact Or.inr (by rw [h, hm]; simp)
    · exact Or.inr (List.mem_cons_of_mem _ h)

theorem mathMax_greatest (ps : List ℚ) (m : ℚ) (h : mathMax ps = .fin m) :
    m ∈ ps ∧ ∀ x ∈ ps, x ≤ m := by
  cases ps with
  | nil => simp [mathMax] at h
  | cons p t =>
    simp only [mathMax, JSNum.fin.injEq] at h
    subst h
    constructor
    · rcases foldl_max_mem t p with h | h
      · rw [h]; simp
      · exact List.mem_cons_of_mem _ h
    · intro x hx
      exact le_foldl_max t p x (by
        rcases List.mem_cons.mp hx with h | h
        · exact Or.inl h
        · exact Or.inr h)

theorem foldl_increment_counts (width : Int) (hw : 1 ≤ width) (ps : List ℚ)
    (hps : ∀ p ∈ ps, 0 ≤ p) (d : List Nat) (i : Nat) :
    (ps.foldl (fun d price => increment d (bucketOf (.int width) price)) d)[i]? =
      (d[i]?).map (fun c => c + ps.countP
        (fun p => decide ((min ⌊p / (width : ℚ)⌋ 4).toNat = i))) := by
  induction ps generalizing d with
  | nil => simp
  | cons a t ih =>
    obtain ⟨k, hk, _, hkeq⟩ := bucketOf_nonneg width hw a (hps a (by simp))
    have hkn : (min ⌊a / (width : ℚ)⌋ 4).toNat = k := by omega
    have hinc : increment d (bucketOf (.int width) a) = d.modify (fun c => c + 1) k := by
      rw [hk]; simp [increment]
    simp only [List.foldl_cons, hinc]
    rw [ih (fun p hp => hps p (by simp [hp])), List.getElem?_modify, List.countP_cons]
    cases hd : d[i]? with
    | none => simp
    | some c =>
      by_cases hki : k = i
      · simp [hki, hkn]; omega
      · simp [hki, hkn]

theorem zipWith_range_map {β : Type} (f : Nat → Nat → β) (g : Nat → Nat) (n : Nat) :
    List.zipWith f (List.range n) ((List.range n).map g) =
      (List.range n).map (fun i => f i (g i)) := by
  rw [List.zipWith_map_right]
  apply List.ext_getElem?
  intro i
  rw [List.getElem?_zipWith, List.getElem?_map]
  cases h : (List.range n)[i]? <;> simp

theorem rangeLabel_int (width : Int) (hw : 1 ≤ width) (i : Nat) :
    rangeLabel (.int width) i =
      JSInt.toJSString (.int (i * width)) ++ " - " ++
        JSInt.toJSString (.int ((i + 1) * width)) := by
  simp only [rangeLabel]
  rw [JSInt.mul_int_nonneg _ _ (by omega) (by omega),
    JSInt.mul_int_nonneg _ _ (by omega) (by omega)]

theorem price_in_bucket (width : Int) (hw : 1 ≤ width) (p m : ℚ) (hp : 0 ≤ p) (hpm : p ≤ m)
    (hwm : width = ⌈m / 5⌉) :
    ∃ i : Nat, i < 5 ∧ (i : Int) = min ⌊p / (width : ℚ)⌋ 4 ∧
      (i : ℚ) * width ≤ p ∧ (i < 4 → p < ((i : ℚ) + 1) * width) ∧
      p ≤ 5 * (width : ℚ) ∧ (4 < ⌊p / (width : ℚ)⌋ → p = 5 * (width : ℚ)) := by
  have hwq : (0 : ℚ) < (width : ℚ) := by exact_mod_cast (by omega : (0 : Int) < width)
  have hceil : m / 5 ≤ (width : ℚ) := by rw [hwm]; exact Int.le_ceil _
  have hp5 : p ≤ 5 * (width : ℚ) := by linarith
  have hfl0 : (0 : Int) ≤ ⌊p / (width : ℚ)⌋ := Int.floor_nonneg.mpr (by positivity)
  have hfl1 : ((⌊p / (width : ℚ)⌋ : Int) : ℚ) * width ≤ p := by
    have := Int.floor_le (p / (width : ℚ))
    rwa [le_div_iff₀ hwq] at this
  have hfl2 : p < (((⌊p / (width : ℚ)⌋ : Int) : ℚ) + 1) * width := by
    have := Int.lt_floor_add_one (p / (width : ℚ))
    rwa [div_lt_iff₀ hwq] at this
  have hfl5 : ⌊p / (width : ℚ)⌋ ≤ 5 := by
    have : p / (width : ℚ) < ((5 : Int) : ℚ) + 1 := by
      rw [div_lt_iff₀ hwq]; push_cast; linarith
    exact Int.floor_le_iff.mpr this
  have hmin0 : (0 : Int) ≤ min ⌊p / (width : ℚ)⌋ 4 := le_min hfl0 (by norm_num)
  refine ⟨(min ⌊p / (width : ℚ)⌋ 4).toNat, ?_, Int.toNat_of_nonneg hmin0, ?_, ?_, hp5, ?_⟩
  · have : min ⌊p / (width : ℚ)⌋ 4 ≤ 4 := min_le_right _ _
    omega
  · have hcast : (((min ⌊p / (width : ℚ)⌋ 4).toNat : Nat) : ℚ) =
        ((min ⌊p / (width : ℚ)⌋ 4 : Int) : ℚ) := by
      exact_mod_cast congrArg (fun z : Int => (z : ℚ)) (Int.toNat_of_nonneg hmin0)
    rw [hcast]
    have hle : ((min ⌊p / (width : ℚ)⌋ 4 : Int) : ℚ) ≤ ((⌊p / (width : ℚ)⌋ : Int) : ℚ) := by
      exact_mod_cast min_le_left _ _
    calc ((min ⌊p / (width : ℚ)⌋ 4 : Int) : ℚ) * width
        ≤ ((⌊p / (width : ℚ)⌋ : Int) : ℚ) * width :=
          mul_le_mul_of_nonneg_right hle hwq.le
      _ ≤ p := hfl1
  · intro hlt
    have hfl4 : ⌊p / (width : ℚ)⌋ < 4 := by
      by_contra hcon
      have : min ⌊p / (width : ℚ)⌋ 4 = 4 := min_eq_right (by omega)
      rw [this] at hlt
      simp at hlt
    have hmin : min ⌊p / (width : ℚ)⌋ 4 = ⌊p / (width : ℚ)⌋ := min_eq_left (by omega)
    have hcast : (((min ⌊p / (width : ℚ)⌋ 4).toNat : Nat) : ℚ) =
        ((⌊p / (width : ℚ)⌋ : Int) : ℚ) := by
      rw [hmin]
      exact_mod_cast congrArg (fun z : Int => (z : ℚ)) (Int.toNat_of_nonneg hfl0)
    rw [hcast]
    exact hfl2
  · intro h4
    have h5 : ⌊p / (width : ℚ)⌋ = 5 := by omega
    rw [h5] at hfl1
    push_cast at hfl1
    linarith

/-- C19: for every collection with no negative price and some positive price,
with `w = ceil(max / 5)` (at least 1): the `i`-th of the five buckets is
labelled with the numbers `i * w` and `(i + 1) * w` and counts exactly the items
whose index `min(floor(price / w), 4)` is `i`; every price lies in the range of
its bucket (`i * w <= p < (i + 1) * w` below the last bucket, `4 * w <= p <= 5 * w`
in the last one), and the index is clamped only for a price equal to `5 * w`. -/
theorem calculateStats_buckets (items : List Item)
    (hnonneg : ∀ item ∈ items, 0 ≤ item.price) (hpos : ∃ item ∈ items, 0 < item.price) :
    ∃ (s : Stats) (w : Int), calculateStats items = some s ∧
      IsGreatest {p | ∃ item ∈ items, item.price = p} s.max ∧
      w = ⌈s.max / 5⌉ ∧ 1 ≤ w ∧
      s.priceDistribution = (List.range 5).map (fun i =>
        { range := JSInt.toJSString (.int (i * w)) ++ " - " ++
            JSInt.toJSString (.int ((i + 1) * w))
          count := items.countP
            (fun item => decide ((min ⌊item.price / (w : ℚ)⌋ 4).toNat = i)) }) ∧
      (∀ item ∈ items, ∃ i : Nat, i < 5 ∧ (i : Int) = min ⌊item.price / (w : ℚ)⌋ 4 ∧
        (i : ℚ) * w ≤ item.price ∧ (i < 4 → item.price < ((i : ℚ) + 1) * w) ∧
        item.price ≤ 5 * (w : ℚ) ∧ (4 < ⌊item.price / (w : ℚ)⌋ → item.price = 5 * (w : ℚ))) := by
  obtain ⟨witness, hwit, hwpos⟩ := hpos
  have hne : items ≠ [] := by rintro rfl; simp at hwit
  have hlen : items.length ≠ 0 := by
    intro h; exact hne (List.length_eq_zero.mp h)
  have hslen := sortedPrices_length items
  obtain ⟨m, hm, hmpos⟩ := mathMax_pos (sortedPrices items) witness.price
    ((mem_sortedPrices items _).mpr ⟨witness, hwit, rfl⟩) hwpos
  obtain ⟨hsize, hwidth⟩ := bucketSize_of_pos m hmpos
  obtain ⟨hmmem, hmge⟩ := mathMax_greatest (sortedPrices items) m hm
  have hps : ∀ p ∈ sortedPrices items, 0 ≤ p := by
    intro p hp
    obtain ⟨item, hi, rfl⟩ := (mem_sortedPrices items p).mp hp
    exact hnonneg item hi
  have hlast_mem : (sortedPrices items).getD ((sortedPrices items).length - 1) 0 ∈
      sortedPrices items := getD_mem_of_lt _ _ (by omega)
  have hlast_ge : ∀ x ∈ sortedPrices items,
      x ≤ (sortedPrices items).getD ((sortedPrices items).length - 1) 0 :=
    fun x hx => sorted_le_getD_last _ (sortedPrices_sorted items) x hx
  have hmax : (sortedPrices items).getD ((sortedPrices items).length - 1) 0 = m :=
    le_antisymm (hmge _ hlast_mem) (hlast_ge m hmmem)
  have hdist : (sortedPrices items).foldl
      (fun d price => increment d (bucketOf (.int ⌈m / 5⌉) price)) (List.replicate 5 0) =
      (List.range 5).map (fun i => items.countP
        (fun item => decide ((min ⌊item.price / ((⌈m / 5⌉ : Int) : ℚ)⌋ 4).toNat = i))) := by
    apply List.ext_getElem?
    intro i
    rw [foldl_increment_counts ⌈m / 5⌉ hwidth (sortedPrices items) hps,
      (sortedPrices_perm items).countP_eq, List.countP_map, List.getElem?_map,
      List.getElem?_replicate]
    by_cases hi : i < 5
    · rw [if_pos hi, List.getElem?_range hi]
      simp only [Option.map_some', zero_add]
      rfl
    · rw [if_neg hi, List.getElem?_eq_none (by simp; omega)]
      rfl
  refine ⟨_, ⌈m / 5⌉, by simp only [calculateStats, hlen, if_false]; rfl, ?_, ?_, hwidth,
    ?_, ?_⟩
  · exact ⟨(mem_sortedPrices items _).mp hlast_mem,
      fun p hp => hlast_ge p ((mem_sortedPrices items p).mpr hp)⟩
  · show ⌈m / 5⌉ = ⌈(sortedPrices items).getD ((sortedPrices items).length - 1) 0 / 5⌉
    rw [hmax]
  · show List.zipWith _ _ _ = _
    rw [hm, hsize, hdist, List.length_map, List.length_range, zipWith_range_map]
    apply List.map_congr_left
    intro i _
    rw [rangeLabel_int _ hwidth]
  · intro item hi
    exact price_in_bucket ⌈m / 5⌉ hwidth item.price m (hnonneg item hi)
      (hmge _ ((mem_sortedPrices items _).mpr ⟨item, hi, rfl⟩)) rfl

theorem calculateStats_buckets_witness :
    ∃ (s : Stats) (w : Int), calculateStats sampleItems = some s ∧
      IsGreatest {p | ∃ item ∈ sampleItems, item.price = p} s.max ∧
      w = ⌈s.max / 5⌉ ∧ 1 ≤ w ∧
      s.priceDistribution = (List.range 5).map (fun i =>
        { range := JSInt.toJSString (.int (i * w)) ++ " - " ++
            JSInt.toJSString (.int ((i + 1) * w))
          count := sampleItems.countP
            (fun item => decide ((min ⌊item.price / (w : ℚ)⌋ 4).toNat = i)) }) ∧
      (∀ item ∈ sampleItems, ∃ i : Nat, i < 5 ∧ (i : Int) = min ⌊item.price / (w : ℚ)⌋ 4 ∧
        (i : ℚ) * w ≤ item.price ∧ (i < 4 → item.price < ((i : ℚ) + 1) * w) ∧
        item.price ≤ 5 * (w : ℚ) ∧ (4 < ⌊item.price / (w : ℚ)⌋ → item.price = 5 * (w : ℚ))) :=
  calculateStats_buckets sampleItems
    (by simp [sampleItems, sampleItem]; norm_num)
    ⟨sampleItem 1 "Laptop Pro" 2499 .undefined, by simp [sampleItems], by simp [sampleItem]⟩

end ProductListing
